import Mathlib

/-!
A shallow embedding of `boxer.c`, the single source file of boxer.

The development follows the layout of the C file: string helpers, paths, option parsing,
resource limits, the supervisor (signal dispatch, teardown, console setup and restore,
the byte pump) and the mounts of the worker.

C strings are modelled by the list of their characters before the terminating NUL;
a nullable `char *` is an `Option` of such a list. Memory allocation (`strdup`, `calloc`,
`vasprintf`) is taken to succeed. Start-up code (`options_parse`) is a function to an
`Outcome`: a value, an `exit`, or undefined behaviour, with the messages printed. Code of
the running supervisor and of the worker is a function to a `Run`: the system calls
made, in order, and how the run ends; what the system answers to each call is an
argument of the function. Library functions (`strtol`, `sscanf`, `cfmakeraw`) follow the
C library on Linux.
-/

namespace Boxer

/-! ## Program outcomes -/

/-- A C string: the characters before the terminating NUL byte. -/
abbrev cstr := List Char

/-- One line handed to `print_message`: the level (`LOG_DEBUG` = 0, `LOG_INFO` = 1,
`LOG_WARNING` = 2, `LOG_ERROR` = 3) and the expanded format string. The run-id prefix and
the errno suffix added by `print_message` are not part of the record. -/
structure message where
  level : Nat
  text : cstr
deriving DecidableEq, Repr

def LOG_DEBUG : Nat := 0
def LOG_INFO : Nat := 1
def LOG_WARNING : Nat := 2
def LOG_ERROR : Nat := 3

def EXIT_FAILURE : Int := 1

/-- Behaviour that the C standard leaves undefined, or a fuel bound of the embedding. -/
inductive fault where
  /-- an element of `argv` beyond the terminating `argv[argc]` is read -/
  | argv_out_of_bounds
  /-- a null pointer is handed to `strdup` -/
  | null_string
  /-- the iteration bound of the embedding ran out (never happens for `options_parse`) -/
  | fuel
deriving DecidableEq, Repr

/-- How a piece of start-up code ends: it returns a value, it calls `exit`, or it runs
into undefined behaviour. The messages printed on the way are kept in order. -/
inductive Outcome (α : Type) where
  | ret (a : α) (log : List message)
  | exit (status : Int) (log : List message)
  | undefined (f : fault)
deriving DecidableEq, Repr

namespace Outcome

/-- The messages `l` were printed before the code whose outcome is `x` ran. -/
def after {α : Type} (l : List message) : Outcome α → Outcome α
  | ret a log => ret a (l ++ log)
  | exit s log => exit s (l ++ log)
  | undefined f => undefined f

/-- Sequencing: run `x`, and when it returns continue with `f`. -/
def bind {α β : Type} (x : Outcome α) (f : α → Outcome β) : Outcome β :=
  match x with
  | ret a log => after log (f a)
  | exit s log => exit s log
  | undefined f => undefined f

/-- Apply a function to the returned value. -/
def map {α β : Type} (g : α → β) : Outcome α → Outcome β
  | ret a log => ret (g a) log
  | exit s log => exit s log
  | undefined f => undefined f

/-- Forget the printed messages. -/
def silent {α : Type} : Outcome α → Outcome α
  | ret a _ => ret a []
  | exit s _ => exit s []
  | undefined f => undefined f

/-- The code stayed within defined behaviour. -/
def defined {α : Type} : Outcome α → Prop
  | undefined _ => False
  | _ => True

/-- The messages printed. -/
def messages {α : Type} : Outcome α → List message
  | ret _ log => log
  | exit _ log => log
  | undefined _ => []

end Outcome

/-- The macro `fatal (...)`: print an error and `exit (EXIT_FAILURE)`. -/
def fatal {α : Type} (text : cstr) : Outcome α :=
  Outcome.exit EXIT_FAILURE [⟨LOG_ERROR, text⟩]

/-! ## String helpers -/

/-- The character a `char *` points at: the head of the string, NUL at its end. -/
def deref (s : cstr) : Char := s.headD (Char.ofNat 0)

/-- C `tolower` in the "C" locale. -/
def tolower (c : Char) : Char := c.toLower

/-- C `isspace` in the "C" locale: space, `\t`, `\n`, `\v`, `\f`, `\r`. -/
def isspace (c : Char) : Bool :=
  c.toNat = 32 || (9 ≤ c.toNat && c.toNat ≤ 13)

/-- C `isdigit`. -/
def isdigit (c : Char) : Bool := 48 ≤ c.toNat && c.toNat ≤ 57

/-- C `strcasecmp (a, b) == 0`. -/
def strcasecmp_eq (a b : cstr) : Bool := a.map tolower == b.map tolower

/-- The function `str_equals`: false when either pointer is NULL, else `strcmp == 0`. -/
def str_equals (str other : Option cstr) : Bool :=
  match str, other with
  | some a, some b => a == b
  | _, _ => false

/-- The function `str_starts_with`: false when either pointer is NULL, else
`strncasecmp (str, pfx, strlen (pfx)) == 0`. -/
def str_starts_with (str pfx : Option cstr) : Bool :=
  match str, pfx with
  | some a, some p => (a.take p.length).map tolower == p.map tolower
  | _, _ => false

/-- C `strchr` for a non-NUL character: the offset of its first occurrence. -/
def strchr : cstr → Char → Option Nat
  | [], _ => none
  | x :: xs, c => if x = c then some 0 else (strchr xs c).map (· + 1)

/-- The function `str_split_at`: `lo` is the text before the first `c`, `hi` the text
after it, or NULL when `c` does not occur. -/
def str_split_at (str : cstr) (c : Char) : cstr × Option cstr :=
  match strchr str c with
  | some k => (str.take k, some (str.drop (k + 1)))
  | none => (str, none)

def LONG_MAX : Int := 2 ^ 63 - 1
def LONG_MIN : Int := -(2 ^ 63)
def ERANGE : Nat := 34

/-- What `strtol (str, &end, 10)` leaves behind: the value, the text at `end`, and
`errno` (the caller has set it to 0 before the call). -/
structure strtol_result where
  value : Int
  endp : cstr
  errno : Nat
deriving DecidableEq, Repr

/-- The value of a run of decimal digits. -/
def digits_value (ds : List Char) : Nat :=
  ds.foldl (fun acc d => 10 * acc + (d.toNat - 48)) 0

/-- The C library function `strtol` with base 10 (glibc): leading white space is skipped,
an optional sign is read, then the longest run of digits. Without a digit nothing is
converted: the value is 0, `end` is `str` and `errno` is untouched. A value outside
`long` is clamped and `errno` becomes `ERANGE`. -/
def strtol (str : cstr) : strtol_result :=
  let s := str.dropWhile isspace
  let neg := deref s = '-'
  let s1 := if deref s = '-' ∨ deref s = '+' then s.drop 1 else s
  let ds := s1.takeWhile isdigit
  let rest := s1.dropWhile isdigit
  if ds = [] then ⟨0, str, 0⟩
  else
    let n : Int := digits_value ds
    if neg then
      if -n < LONG_MIN then ⟨LONG_MIN, rest, ERANGE⟩ else ⟨-n, rest, 0⟩
    else
      if LONG_MAX < n then ⟨LONG_MAX, rest, ERANGE⟩ else ⟨n, rest, 0⟩

/-- A `long` product: the mathematical result reduced to 64-bit two's complement. -/
def long_mul (a b : Int) : Int := (a * b + 2 ^ 63) % 2 ^ 64 - 2 ^ 63

/-- The function `str_to_long`. -/
def str_to_long (str : cstr) : Outcome Int :=
  let r := strtol str
  if r.errno ≠ 0 then fatal ("strol ".toList ++ str)
  else
    let c := deref r.endp
    if c = 'g' ∨ c = 'G' then
      Outcome.ret (long_mul (long_mul (long_mul r.value 1024) 1024) 1024) []
    else if c = 'm' ∨ c = 'M' then
      Outcome.ret (long_mul (long_mul r.value 1024) 1024) []
    else if c = 'k' ∨ c = 'K' then
      Outcome.ret (long_mul r.value 1024) []
    else Outcome.ret r.value []

/-! ## The container configuration -/

/-- The enumeration of option identifiers. -/
inductive option_id where
  | OPTION_UNKOWN
  | OPTION_BIND
  | OPTION_BIND_RO
  | OPTION_DOMAIN
  | OPTION_HELP
  | OPTION_HOME
  | OPTION_HOST
  | OPTION_IMAGE
  | OPTION_ROOT
  | OPTION_USER
  | OPTION_VERSION
  | OPTION_WORK
  | OPTION_CGROUP
  | OPTION_RLIMIT
deriving DecidableEq, Repr

open option_id

def MS_RDONLY : Nat := 1
def MS_BIND : Nat := 4096

/-- The record `struct mount`. -/
structure mount where
  source : Option cstr := none
  type : Option cstr := none
  target : Option cstr := none
  data : Option cstr := none
  flags : Nat := 0
deriving DecidableEq, Repr

/-- The record `struct container_user`. -/
structure container_user where
  uid : Nat := 0
  gid : Nat := 0
  name : Option cstr := none
  home : Option cstr := none
  shell : Option cstr := none
deriving DecidableEq, Repr

/-- The record `struct container_path`. -/
structure container_path where
  console : Option cstr := none
  home : Option cstr := none
  image : Option cstr := none
  root : Option cstr := none
  work : Option cstr := none
deriving DecidableEq, Repr

/-- The record `struct container_uts`. -/
structure container_uts where
  host : Option cstr := none
  domain : Option cstr := none
deriving DecidableEq, Repr

/-- The record `struct container_rlimit`; an array slot whose name is NULL ends the array,
so a slot in use always has a name. -/
structure container_rlimit where
  name : cstr
  soft : Int
  hard : Int
deriving DecidableEq, Repr

/-- The record `struct container_cgroup` without the lazily computed paths; a slot in use
always has a subsystem. -/
structure container_cgroup where
  subsystem : cstr
  parameter : cstr
  value : Option cstr
deriving DecidableEq, Repr

/-- The global `container`. The three arrays are zero-filled blocks of `argc` slots ended
by the first slot whose key pointer is NULL; they are modelled by the list of the slots in
use (every option uses up at least one of the `argc - 1` arguments, so the block never
fills up). `cmd` is the NULL-terminated vector `argv + i`. -/
structure container where
  user : container_user := {}
  path : container_path := {}
  uts : container_uts := {}
  rlimit : List container_rlimit := []
  cgroup : List container_cgroup := []
  bind : List mount := []
  cmd : Option (List cstr) := none
deriving DecidableEq, Repr

/-- The state after `zero (container)`. -/
def container_zero : container := {}

/-- Store into slot `i` of a NULL-terminated array: overwrite a slot in use, or fill the
first free slot. -/
def array_store {α : Type} (xs : List α) (i : Nat) (x : α) : List α :=
  if i < xs.length then xs.set i x else xs ++ [x]

/-- How `printf ("%s")` shows a string pointer (glibc prints `(null)` for NULL). -/
def show_str (s : Option cstr) : cstr := s.getD "(null)".toList

/-! ## Option parsing -/

/-- The function `options_set_bind_mount`. -/
def options_set_bind_mount (value : Option cstr) (readonly : Bool) (c : container) :
    Outcome container :=
  match value with
  | none => Outcome.undefined fault.null_string
  | some v =>
    let (src, dst) := str_split_at v ':'
    Outcome.ret { c with bind := c.bind ++
      [{ source := some src, target := dst,
         flags := if readonly then MS_BIND ||| MS_RDONLY else MS_BIND }] } []

/-- The call `sscanf (name, "%m[^.].%ms", &subsystem, &parameter)` when it returns 2:
a non-empty run of characters other than a dot, a dot, optional white space, and a
non-empty run of characters that are not white space. -/
def sscanf_cgroup (name : cstr) : Option (cstr × cstr) :=
  let sub := name.takeWhile (fun ch => ch ≠ '.')
  let r := name.dropWhile (fun ch => ch ≠ '.')
  if sub = [] then none
  else if deref r ≠ '.' then none
  else
    let r2 := (r.drop 1).dropWhile isspace
    let par := r2.takeWhile (fun ch => !isspace ch)
    if par = [] then none else some (sub, par)

/-- The function `options_set_cgroup`. -/
def options_set_cgroup (name : cstr) (value : Option cstr) (c : container) :
    Outcome container :=
  match sscanf_cgroup name with
  | none => Outcome.ret c [⟨LOG_WARNING, "sscanf %m[^.].%ms ".toList ++ name⟩]
  | some (subsystem, parameter) =>
    let i := c.cgroup.findIdx
      (fun g => str_equals (some subsystem) (some g.subsystem) &&
                str_equals (some parameter) (some g.parameter))
    Outcome.ret { c with cgroup := array_store c.cgroup i ⟨subsystem, parameter, value⟩ } []

/-- The function `options_set_rlimit`; of the two conversions in the initialiser the one
of `soft` is taken first. -/
def options_set_rlimit (name : cstr) (value : Option cstr) (c : container) :
    Outcome container :=
  let i := c.rlimit.findIdx (fun r => strcasecmp_eq name r.name)
  match value with
  | none => Outcome.undefined fault.null_string
  | some v =>
    let (soft, hard0) := str_split_at v '/'
    let hard := hard0.getD soft
    (str_to_long soft).bind fun s =>
    (str_to_long hard).bind fun h =>
    Outcome.ret { c with rlimit := array_store c.rlimit i ⟨name, s, h⟩ } []

/-- The function `options_set`. The help and version texts go to stdout and are not
recorded. -/
def options_set (option : option_id) (name : cstr) (value : Option cstr) (c : container) :
    Outcome container :=
  match option with
  | OPTION_HELP => Outcome.exit 0 []
  | OPTION_VERSION => Outcome.exit 0 []
  | OPTION_USER => Outcome.ret { c with user := { c.user with name := value } } []
  | OPTION_HOST => Outcome.ret { c with uts := { c.uts with host := value } } []
  | OPTION_DOMAIN => Outcome.ret { c with uts := { c.uts with domain := value } } []
  | OPTION_IMAGE => Outcome.ret { c with path := { c.path with image := value } } []
  | OPTION_ROOT => Outcome.ret { c with path := { c.path with root := value } } []
  | OPTION_WORK => Outcome.ret { c with path := { c.path with work := value } } []
  | OPTION_HOME => Outcome.ret { c with path := { c.path with home := value } } []
  | OPTION_BIND => options_set_bind_mount value false c
  | OPTION_BIND_RO => options_set_bind_mount value true c
  | OPTION_RLIMIT =>
    Outcome.after
      [⟨LOG_DEBUG, "rlimit name=\x27".toList ++ name ++ "\x27 value=\x27".toList ++
        show_str value ++ "\x27".toList⟩]
      (options_set_rlimit name value c)
  | OPTION_CGROUP =>
    Outcome.after
      [⟨LOG_DEBUG, "cgroup name=\x27".toList ++ name ++ "\x27 value=\x27".toList ++
        show_str value ++ "\x27".toList⟩]
      (options_set_cgroup name value c)
  | OPTION_UNKOWN => Outcome.ret c [⟨LOG_WARNING, "Unknown option ".toList ++ name⟩]

/-- One row of the table `options` inside `options_parse`. -/
structure option_row where
  id : option_id
  longname : Option cstr
  shortname : Option cstr
  pfx : Option cstr
deriving DecidableEq, Repr

/-- The table `options` inside `options_parse`. -/
def options : List option_row :=
  [ ⟨OPTION_BIND, some "bind".toList, some "b".toList, none⟩,
    ⟨OPTION_BIND_RO, some "bind-ro".toList, some "B".toList, none⟩,
    ⟨OPTION_DOMAIN, some "domain".toList, none, none⟩,
    ⟨OPTION_HELP, some "help".toList, some "h".toList, none⟩,
    ⟨OPTION_HOME, some "home".toList, some "H".toList, none⟩,
    ⟨OPTION_HOST, some "host".toList, none, none⟩,
    ⟨OPTION_IMAGE, some "image".toList, some "i".toList, none⟩,
    ⟨OPTION_ROOT, some "root".toList, some "r".toList, none⟩,
    ⟨OPTION_USER, some "user".toList, some "u".toList, none⟩,
    ⟨OPTION_VERSION, some "version".toList, some "v".toList, none⟩,
    ⟨OPTION_WORK, some "work".toList, some "w".toList, none⟩,
    ⟨OPTION_RLIMIT, none, none, some "rlimit.".toList⟩,
    ⟨OPTION_CGROUP, none, none, some "cgroup.".toList⟩ ]

/-- The table search of `options_parse` (the loop over `j`): the identifier of the first
row that matches and the name handed on, with a matched prefix skipped; when no row
matches, `OPTION_UNKOWN` and the name unchanged. -/
def options_find : List option_row → cstr → option_id × cstr
  | [], name => (OPTION_UNKOWN, name)
  | o :: os, name =>
    if str_equals (some name) o.shortname || str_equals (some name) o.longname then
      (o.id, name)
    else if str_starts_with (some name) o.pfx then
      (o.id, name.drop (o.pfx.getD []).length)
    else options_find os name

/-- What reading `argv[i]` gives for an argument vector of `argc` strings followed by the
terminating null pointer. -/
inductive argv_read where
  | str (s : cstr)
  | null
  | out_of_bounds
deriving DecidableEq, Repr

/-- Read `argv[i]`. -/
def argv_at (argv : List cstr) (i : Nat) : argv_read :=
  match argv[i]? with
  | some s => argv_read.str s
  | none => if i = argv.length then argv_read.null else argv_read.out_of_bounds

/-- The statement after the loop of `options_parse`:
`if (argv[i] != NULL) container.cmd = argv + i`. -/
def options_parse_cmd (argv : List cstr) (i : Nat) (c : container) : Outcome container :=
  match argv_at argv i with
  | argv_read.str _ => Outcome.ret { c with cmd := some (argv.drop i) } []
  | argv_read.null => Outcome.ret c []
  | argv_read.out_of_bounds => Outcome.undefined fault.argv_out_of_bounds

/-- One iteration of the loop `for (i = 1; argv[i] != NULL; i++)` of `options_parse` at
index `i` with the configuration `c`; `next j c1` stands for the remaining iterations from
index `j` on. When the loop ends here, the statement after the loop runs. -/
def options_parse_iter (argv : List cstr) (i : Nat) (c : container)
    (next : Nat → container → Outcome container) : Outcome container :=
  match argv_at argv i with
  | argv_read.out_of_bounds => Outcome.undefined fault.argv_out_of_bounds
  | argv_read.null => options_parse_cmd argv i c
  | argv_read.str tok =>
    if deref tok ≠ '-' then options_parse_cmd argv i c
    else
      let split := str_split_at tok '='
      let i1 := if split.2 = none then i + 1 else i
      let argument : Option cstr :=
        match split.2 with
        | some a => some a
        | none =>
          match argv_at argv (i + 1) with
          | argv_read.str s => some s
          | _ => none
      let name1 := split.1.drop 1
      let name2 := if deref name1 = '-' then name1.drop 1 else name1
      if deref name1 = '-' ∧ deref name2 = Char.ofNat 0 then options_parse_cmd argv i1 c
      else
        let found := options_find options name2
        (options_set found.1 found.2 argument c).bind fun c1 => next (i1 + 1) c1

/-- The loop of `options_parse` started at index `i` with the configuration `c`, followed
by the statement after the loop. The first argument bounds the number of iterations. -/
def options_parse_loop (argv : List cstr) : Nat → Nat → container → Outcome container
  | 0, _, _ => Outcome.undefined fault.fuel
  | fuel + 1, i, c => options_parse_iter argv i c (options_parse_loop argv fuel)

/-- The function `options_parse`, run on the zeroed `container`; `argv` lists the `argc`
strings `argv[0] .. argv[argc - 1]`. -/
def options_parse (argv : List cstr) : Outcome container :=
  options_parse_loop argv (argv.length + 1) 1 container_zero

/-! ## Option parsing: tokens -/

/-- No NUL character occurs in the list: it is the content of a C string. -/
def is_cstr (s : cstr) : Prop := Char.ofNat 0 ∉ s

instance (s : cstr) : Decidable (is_cstr s) := by unfold is_cstr; infer_instance

/-- The option name inside the text before `=`: one or two leading dashes are skipped, as
`options_parse` does with `name++`. -/
def option_name (lo : cstr) : cstr :=
  if deref (lo.drop 1) = '-' then lo.drop 2 else lo.drop 1

/-- The text before `=` is the lone `--` that ends option parsing. -/
def is_stop (lo : cstr) : Prop :=
  deref (lo.drop 1) = '-' ∧ deref (lo.drop 2) = Char.ofNat 0

instance (lo : cstr) : Decidable (is_stop lo) := by unfold is_stop; infer_instance

/-- The table search and `options_set` for the option written `lo`, given its argument. -/
def option_apply (lo : cstr) (argument : Option cstr) (c : container) : Outcome container :=
  options_set (options_find options (option_name lo)).1
    (options_find options (option_name lo)).2 argument c

/-- The loop of `options_parse` seen from the pointer `argv + i`: the outcome of parsing
the remaining tokens `l` (the NULL-terminated rest of the vector). -/
def parse_tail (l : List cstr) (c : container) : Outcome container :=
  options_parse_loop l (l.length + 2) 0 c

/-- A complete option in front of the command: one token `--name=value`, or the two
tokens `-name value` (the name is a C string without `=`; it is not empty in the first
form and it is not a lone dash in the second, which would spell `--`). -/
inductive complete_option : List cstr → Prop where
  | joined (name value : cstr) (h0 : is_cstr name) (hne : name ≠ []) (heq : '=' ∉ name) :
      complete_option ['-' :: '-' :: (name ++ '=' :: value)]
  | pair (name value : cstr) (h0 : is_cstr name) (heq : '=' ∉ name)
      (hdash : name ≠ ['-']) : complete_option ['-' :: name, value]

/-- The decimal digits of an integer, with a leading minus sign when it is negative. -/
def decimal : Int → cstr
  | Int.ofNat m => Nat.toDigits 10 m
  | Int.negSucc m => '-' :: Nat.toDigits 10 (m + 1)

/-- The suffixes of the claim with the power of 1024 each stands for. -/
def suffixes : List (cstr × Nat) :=
  [([], 0), (['k'], 1), (['K'], 1), (['m'], 2), (['M'], 2), (['g'], 3), (['G'], 3)]

/-! ## Resource limits -/

/-- The record `struct rlimit` of the C library; `rlim_t` is an unsigned 64-bit integer. -/
structure rlimit where
  rlim_cur : Nat
  rlim_max : Nat
deriving DecidableEq, Repr

def LINE_MAX : Nat := 2048
def EINTR : Nat := 4
def EAGAIN : Nat := 11
def O_NONBLOCK : Nat := 2048
def SIGINT : Nat := 2
def SIGKILL : Nat := 9
def SIGTERM : Nat := 15
def SIGCHLD : Nat := 17
def SIGWINCH : Nat := 28
def USLEEP_MILLISECONDS : Nat := 1000
def STDIN_FILENO : Int := 0
def STDOUT_FILENO : Int := 1

/-- The record `struct termios`: the four flag words and the control characters. -/
structure termios where
  c_iflag : Nat := 0
  c_oflag : Nat := 0
  c_cflag : Nat := 0
  c_lflag : Nat := 0
  c_cc : List Nat := []
deriving DecidableEq, Repr

/-- The record `struct winsize`. -/
structure winsize where
  ws_row : Nat := 0
  ws_col : Nat := 0
  ws_xpixel : Nat := 0
  ws_ypixel : Nat := 0
deriving DecidableEq, Repr

/-- The record `struct console_buffer`: `data` lists the bytes `data[0 .. len)` in use. -/
structure console_buffer where
  data : List Nat := []
deriving DecidableEq, Repr

/-- The field `len` of a `console_buffer`. -/
def console_buffer.len (b : console_buffer) : Nat := b.data.length

/-- The record `struct console_attr_saved`. -/
structure console_attr_saved where
  stdin : Bool := false
  stdout : Bool := false
deriving DecidableEq, Repr

/-- The record `struct console_attr`. -/
structure console_attr where
  stdin : termios := {}
  stdout : termios := {}
  saved : console_attr_saved := {}
deriving DecidableEq, Repr

/-- The global `console`. -/
structure console where
  master : Int := 0
  slave : Int := 0
  stdin : Int := 0
  stdout : Int := 0
  inp : console_buffer := {}
  out : console_buffer := {}
  attr : console_attr := {}
deriving DecidableEq, Repr

/-- The record `struct boxer_fd`. -/
structure boxer_fd where
  epoll : Int := 0
  signal : Int := 0
deriving DecidableEq, Repr

/-- The state of the supervisor process: the file descriptors of the global `boxer`, the
global `console`, `errno`, the process id that `getpid` returns, and the run id
`boxer.id`. -/
structure supervisor where
  fd : boxer_fd := {}
  console : console := {}
  errno : Nat := 0
  pid : Int := 1
  id : cstr := []
deriving DecidableEq, Repr

/-- The calls of the supervisor and of the worker that act on the outside world, with
their arguments. -/
inductive Event where
  | print (m : message)
  | exit (status : Int)
  | read (fd : Int) (count : Nat)
  | write (fd : Int) (bytes : List Nat)
  | epoll_ctl_add (epfd fd : Int)
  | epoll_ctl_del (epfd fd : Int)
  | epoll_wait (epfd : Int)
  | tcgetattr (fd : Int)
  | tcsetattr (fd : Int) (attr : termios)
  | fcntl_getfl (fd : Int)
  | fcntl_setfl (fd : Int) (flags : Nat)
  | ioctl_gwinsz (fd : Int)
  | ioctl_swinsz (fd : Int) (ws : winsize)
  | fopen (path : cstr)
  | fclose
  | stat (path : cstr)
  | mkdir (path : cstr) (mode : Nat)
  | mount (source : Option cstr) (target type : cstr) (flags : Nat) (data : cstr)
  | kill (pid : Int) (sig : Nat)
  | usleep (usec : Nat)
  | waitpid
  | sigprocmask
  | signalfd
  | epoll_create1
deriving DecidableEq, Repr

/-- How a run of supervisor code ends: the function returns, the process exits, or the
iteration bound of the embedding is used up while the code is still looping. -/
inductive Ending (α : Type) where
  | returned (a : α)
  | exited (status : Int)
  | looping
deriving DecidableEq, Repr

/-- A run of supervisor or worker code: the calls made, in order, and how it ends. -/
structure Run (α : Type) where
  events : List Event
  ending : Ending α
deriving DecidableEq, Repr

namespace Run

/-- Return without any call. -/
def pure {α : Type} (a : α) : Run α := ⟨[], Ending.returned a⟩

/-- A single call, after which the code goes on with `a`. -/
def call {α : Type} (e : Event) (a : α) : Run α := ⟨[e], Ending.returned a⟩

/-- Sequencing: the calls of `x`, then, when `x` returns, those of `f`. -/
def bind {α β : Type} (x : Run α) (f : α → Run β) : Run β :=
  match x.ending with
  | Ending.returned a => ⟨x.events ++ (f a).events, (f a).ending⟩
  | Ending.exited s => ⟨x.events, Ending.exited s⟩
  | Ending.looping => ⟨x.events, Ending.looping⟩

end Run

/-- The macro `fatal (...)` in a running process: the error is printed, then `exit
(EXIT_FAILURE)`; nothing else runs in between. -/
def sup_fatal {α : Type} (text : cstr) : Run α :=
  ⟨[Event.print ⟨LOG_ERROR, text⟩, Event.exit EXIT_FAILURE], Ending.exited EXIT_FAILURE⟩

/-- The macro `warning (...)`: `print_message` also clears `errno`. -/
def sup_warning (text : cstr) (m : supervisor) : Run supervisor :=
  Run.call (Event.print ⟨LOG_WARNING, text⟩) { m with errno := 0 }

/-! ## The supervisor: console -/

/-- What a `read` call gives: the return value, `errno` after a failure, and the bytes
stored on success. -/
structure read_result where
  ret : Int
  errno : Nat := 0
  bytes : List Nat := []
deriving DecidableEq, Repr

/-- The answers of the system to the calls of one `console_buffer_pipe`: the `read`, the
`write` (return value) and the `epoll_ctl (EPOLL_CTL_DEL)` of `boxer_fd_unpoll`. -/
structure pipe_env where
  rd : read_result := { ret := -1, errno := EAGAIN }
  wr : Int := 0
  epoll_del : Int := 0
deriving DecidableEq, Repr

/-- The function `boxer_fd_unpoll`. -/
def boxer_fd_unpoll (fd : Int) (epoll_del : Int) (m : supervisor) : Run supervisor :=
  (Run.call (Event.epoll_ctl_del m.fd.epoll fd) m).bind fun m =>
    if epoll_del ≠ 0 then sup_fatal "epoll_ctl EPOLL_CTL_DEL".toList else Run.pure m

/-- The function `console_buffer_pipe` on the buffer `buffer`; it returns the buffer and
the state. -/
def console_buffer_pipe (buffer : console_buffer) (source target : Int) (env : pipe_env)
    (m : supervisor) : Run (console_buffer × supervisor) :=
  (Run.call (Event.read source (LINE_MAX - buffer.len)) m).bind fun m =>
  (if env.rd.ret ≤ 0 then
      let m1 := if env.rd.ret < 0 then { m with errno := env.rd.errno } else m
      if m1.errno ≠ EAGAIN ∧ m1.errno ≠ EINTR then
        (boxer_fd_unpoll source env.epoll_del m1).bind fun m2 => Run.pure (buffer, m2)
      else Run.pure (buffer, m1)
    else
      Run.pure (({ data := buffer.data ++ env.rd.bytes.take env.rd.ret.toNat } :
        console_buffer), m)).bind fun bm =>
  (if bm.1.len > 0 then
      (Run.call (Event.write target bm.1.data) bm).bind fun bm =>
        if env.wr > 0 then
          Run.pure (({ data := bm.1.data.drop env.wr.toNat } : console_buffer), bm.2)
        else Run.pure bm
    else Run.pure bm).bind fun bm =>
  Run.pure (bm.1, { bm.2 with errno := 0 })

/-- The answers of the system to the calls of one `fd_block`: the two `fcntl` calls. -/
structure block_env where
  getfl : Int := 0
  setfl : Int := 0
deriving DecidableEq, Repr

/-- The function `fd_block`. -/
def fd_block (fd : Int) (block : Bool) (env : block_env) (m : supervisor) : Run supervisor :=
  (Run.call (Event.fcntl_getfl fd) m).bind fun m =>
    if env.getfl < 0 then sup_fatal "fcntl".toList
    else
      let flags : Nat :=
        if block then env.getfl.toNat &&& (2 ^ 32 - 1 - O_NONBLOCK)
        else env.getfl.toNat ||| O_NONBLOCK
      (Run.call (Event.fcntl_setfl fd flags) m).bind fun m =>
        if env.setfl ≠ 0 then sup_fatal "fcntl".toList else Run.pure m

/-- The answers of the system to the calls of `console_restore`. -/
structure restore_env where
  pump : pipe_env := {}
  block_stdout : block_env := {}
  block_stdin : block_env := {}
deriving DecidableEq, Repr

/-- The function `console_restore`. -/
def console_restore (env : restore_env) (m : supervisor) : Run supervisor :=
  (console_buffer_pipe m.console.out m.console.master m.console.stdout env.pump m).bind
    fun bm =>
  let m : supervisor := { bm.2 with console := { bm.2.console with out := bm.1 } }
  (if m.console.attr.saved.stdout then
      Run.call (Event.tcsetattr m.console.stdout m.console.attr.stdout) m
    else Run.pure m).bind fun m =>
  (if m.console.attr.saved.stdin then
      Run.call (Event.tcsetattr m.console.stdin m.console.attr.stdin) m
    else Run.pure m).bind fun m =>
  (fd_block m.console.stdout true env.block_stdout m).bind fun m =>
  fd_block m.console.stdin true env.block_stdin m

/-- The answers of the system to the two `ioctl` calls of `console_forward_size`. -/
structure winsize_env where
  gwinsz : Int := 0
  ws : winsize := {}
deriving DecidableEq, Repr

/-- The function `console_forward_size`. -/
def console_forward_size (source target : Int) (env : winsize_env) (m : supervisor) :
    Run supervisor :=
  (Run.call (Event.ioctl_gwinsz source) m).bind fun m =>
    if env.gwinsz ≥ 0 then Run.call (Event.ioctl_swinsz target env.ws) m else Run.pure m

/-! ## The supervisor: teardown -/

/-- What one pass of `container_kill` finds when it opens and scans the tasks file:
`fopen` fails, or the scan yields the numbers `nums` and stops at the end of the file
(`at_eof`) or earlier at text that is not a number. -/
inductive tasks_read where
  | unreadable
  | listing (nums : List Nat) (at_eof : Bool)
deriving DecidableEq, Repr

/-- The answers of the system to the calls of `container_kill`: the tasks file at each
pass, the return value of `kill` per pass and process, the number of children that the
final `waitpid` loop reaps, and `errno` after that loop. -/
structure kill_env where
  tasks : Nat → tasks_read
  kill_ret : Nat → Int → Int := fun _ _ => 0
  reaped : Nat := 0
  errno_after : Nat := 0

/-- The path of the tasks file of this run, `/sys/fs/cgroup/boxer/<id>/tasks` (the run id
is alphanumeric, so `path_join` has nothing to normalise). -/
def tasks_path (id : cstr) : cstr :=
  "/sys/fs/cgroup/boxer/".toList ++ id ++ "/tasks".toList

/-- The cast `(pid_t) num` of an `unsigned long` to the 32-bit signed `pid_t`. -/
def to_pid_t (num : Nat) : Int := ((num : Int) + 2 ^ 31) % 2 ^ 32 - 2 ^ 31

/-- The inner loop of `container_kill` over the numbers scanned in one pass: the calls
made and the counter `killed` (a count that stays far below the range of `int`). -/
def container_kill_scan (self : Int) (kill_ret : Int → Int) :
    List Nat → supervisor → Run (Nat × supervisor)
  | [], m => Run.pure (0, m)
  | num :: nums, m =>
    let child := to_pid_t num
    if child = self then container_kill_scan self kill_ret nums m
    else
      (Run.call (Event.kill child SIGKILL) m).bind fun m =>
      (if kill_ret child ≠ 0 then sup_warning "kill".toList m else Run.pure m).bind fun m =>
      (container_kill_scan self kill_ret nums m).bind fun r => Run.pure (r.1 + 1, r.2)

/-- The outer loop `for (;;)` of `container_kill` from pass number `pass` on; the first
argument bounds the number of passes. -/
def container_kill_loop (env : kill_env) : Nat → Nat → supervisor → Run supervisor
  | 0, _, _ => ⟨[], Ending.looping⟩
  | fuel + 1, pass, m =>
    (Run.call (Event.fopen (tasks_path m.id)) m).bind fun m =>
    match env.tasks pass with
    | tasks_read.unreadable => sup_fatal ("fopen ".toList ++ tasks_path m.id)
    | tasks_read.listing nums at_eof =>
      (container_kill_scan m.pid (env.kill_ret pass) nums m).bind fun r =>
        if ¬ at_eof then sup_fatal "failed to read all pids".toList
        else
          (Run.call Event.fclose r.2).bind fun m =>
            if r.1 = 0 then Run.pure m
            else
              (Run.call (Event.usleep (100 * USLEEP_MILLISECONDS)) m).bind fun m =>
                container_kill_loop env fuel (pass + 1) m

/-- The function `container_kill`: the kill loop, then the loop
`while (waitpid (-1, 0, WNOHANG) > 0)`, which calls `waitpid` once per reaped child and
once more. -/
def container_kill (env : kill_env) (fuel : Nat) (m : supervisor) : Run supervisor :=
  (container_kill_loop env fuel 0 m).bind fun m =>
    ⟨List.replicate (env.reaped + 1) Event.waitpid,
      Ending.returned { m with errno := env.errno_after }⟩

/-! ## The supervisor: signals -/

/-- The record `struct signalfd_siginfo`: the two fields that `boxer_signal` reads. -/
structure signalfd_siginfo where
  ssi_signo : Nat := 0
  ssi_status : Int := 0
deriving DecidableEq, Repr

/-- The size in bytes of `struct signalfd_siginfo`. -/
def sizeof_signalfd_siginfo : Int := 128

/-- The answers of the system to the calls of `boxer_signal`: the `read` on the signal fd
(return value and record), and the answers for the functions it calls. -/
structure signal_env where
  ret : Int := 128
  sig : signalfd_siginfo := {}
  size : winsize_env := {}
  kill : kill_env
  restore : restore_env := {}

/-- The function `boxer_signal`; `fuel` bounds the passes of the kill loop. -/
def boxer_signal (env : signal_env) (fuel : Nat) (m : supervisor) : Run supervisor :=
  (Run.call (Event.read m.fd.signal sizeof_signalfd_siginfo.toNat) m).bind fun m =>
    if env.ret ≠ sizeof_signalfd_siginfo then sup_fatal "read signalfd".toList
    else if env.sig.ssi_signo = SIGWINCH then
      console_forward_size m.console.stdout m.console.master env.size m
    else if env.sig.ssi_signo = SIGCHLD ∨ env.sig.ssi_signo = SIGINT ∨
        env.sig.ssi_signo = SIGTERM then
      let status := if env.sig.ssi_signo = SIGCHLD then env.sig.ssi_status else EXIT_FAILURE
      (container_kill env.kill fuel m).bind fun m =>
      (console_restore env.restore m).bind fun _ =>
        ⟨[Event.exit status], Ending.exited status⟩
    else Run.pure m

/-! ## The supervisor: event loop -/

/-- The function `boxer_fd_poll`. -/
def boxer_fd_poll (fd : Int) (epoll_add : Int) (m : supervisor) : Run supervisor :=
  (Run.call (Event.epoll_ctl_add m.fd.epoll fd) m).bind fun m =>
    if epoll_add ≠ 0 then sup_fatal "epoll_ctl EPOLL_CTL_ADD".toList else Run.pure m

/-- The answers of the system while one ready event is handled. -/
structure event_env where
  signal : signal_env
  inp : pipe_env := {}
  out : pipe_env := {}

/-- One return of `epoll_wait`: the return value `n` and the entries of `events`, each
with its `data.fd` and the answers of the system while it is handled. -/
structure wakeup where
  n : Int
  events : List (Int × event_env)

/-- The answers of the system to the calls of `boxer_run`. -/
structure run_env where
  sigprocmask : Int := 0
  signalfd : Int := 3
  epoll_create1 : Int := 4
  epoll_add : Int → Int := fun _ => 0
  wakeups : Nat → wakeup

/-- The loop `for (i = 0; i < n; ++i)` of `boxer_run` over the ready events. -/
def boxer_run_batch (kfuel : Nat) : List (Int × event_env) → supervisor → Run supervisor
  | [], m => Run.pure m
  | (fd, env) :: rest, m =>
    (if fd = m.fd.signal then boxer_signal env.signal kfuel m else Run.pure m).bind fun m =>
    (if fd = m.console.stdin then
        (console_buffer_pipe m.console.inp m.console.stdin m.console.master env.inp m).bind
          fun bm => Run.pure { bm.2 with console := { bm.2.console with inp := bm.1 } }
      else Run.pure m).bind fun m =>
    (if fd = m.console.master then
        (console_buffer_pipe m.console.out m.console.master m.console.stdout env.out m).bind
          fun bm => Run.pure { bm.2 with console := { bm.2.console with out := bm.1 } }
      else Run.pure m).bind fun m =>
    boxer_run_batch kfuel rest m

/-- The loop `for (;;)` of `boxer_run` from wakeup number `k` on; the first argument
bounds the number of wakeups. -/
def boxer_run_loop (env : run_env) (kfuel : Nat) : Nat → Nat → supervisor → Run supervisor
  | 0, _, _ => ⟨[], Ending.looping⟩
  | fuel + 1, k, m =>
    (Run.call (Event.epoll_wait m.fd.epoll) m).bind fun m =>
      if (env.wakeups k).n = -1 then sup_fatal "epoll_wait".toList
      else
        (boxer_run_batch kfuel ((env.wakeups k).events.take (env.wakeups k).n.toNat) m).bind
          fun m => boxer_run_loop env kfuel fuel (k + 1) m

/-- The function `boxer_run`; `fuel` bounds the wakeups and `kfuel` the passes of the kill
loop. -/
def boxer_run (env : run_env) (kfuel fuel : Nat) (m : supervisor) : Run supervisor :=
  (Run.call Event.sigprocmask m).bind fun m =>
  if env.sigprocmask = -1 then sup_fatal "sigprocmask".toList
  else
    (Run.call Event.signalfd { m with fd := { m.fd with signal := env.signalfd } }).bind
      fun m =>
    if m.fd.signal = -1 then sup_fatal "signalfd".toList
    else
      (Run.call Event.epoll_create1
        { m with fd := { m.fd with epoll := env.epoll_create1 } }).bind fun m =>
      if m.fd.epoll < 0 then sup_fatal "epoll_create1".toList
      else
        (boxer_fd_poll m.fd.signal (env.epoll_add m.fd.signal) m).bind fun m =>
        (boxer_fd_poll m.console.stdin (env.epoll_add m.console.stdin) m).bind fun m =>
        (boxer_fd_poll m.console.master (env.epoll_add m.console.master) m).bind fun m =>
        boxer_run_loop env kfuel fuel 0 m

/-- The state that `console_setup_master` leaves behind as far as the terminal attributes
go: the original attributes of host stdin and stdout are stored and both are marked as
saved. -/
def console_saved (stdin_attr stdout_attr : termios) (m : supervisor) : supervisor :=
  { m with console := { m.console with
      attr := { stdin := stdin_attr, stdout := stdout_attr,
                saved := { stdin := true, stdout := true } } } }

/-- The `tcsetattr` calls among the events. -/
def restores (events : List Event) : List (Int × termios) :=
  events.filterMap fun e =>
    match e with
    | Event.tcsetattr fd attr => some (fd, attr)
    | _ => none

/-- The processes signalled among the events. -/
def kills (events : List Event) : List (Int × Nat) :=
  events.filterMap fun e =>
    match e with
    | Event.kill pid sig => some (pid, sig)
    | _ => none

/-- The number of times the tasks file is opened among the events. -/
def passes (events : List Event) : Nat :=
  events.countP fun e =>
    match e with
    | Event.fopen _ => true
    | _ => false

/-- The processes that one pass signals for the scanned numbers `nums`: every entry other
than the own process id, in order. -/
def pass_targets (self : Int) (nums : List Nat) : List (Int × Nat) :=
  ((nums.map to_pid_t).filter (fun p => p ≠ self)).map fun p => (p, SIGKILL)

/-! ## Example environments -/

/-- A supervisor with process id 100 after `console_setup_master`: host stdin 0 and stdout
1, pty master 5, signal fd 3, epoll fd 4, both terminal attributes saved. -/
def supervisor_example : supervisor :=
  console_saved { c_lflag := 35387 } { c_oflag := 5 }
    { fd := { epoll := 4, signal := 3 },
      console := { master := 5, stdin := STDIN_FILENO, stdout := STDOUT_FILENO },
      pid := 100,
      id := "k3v9x0a7q2m5c8z1b4n6".toList }

/-- A tasks file that lists the processes 100, 101 and 102 in the first pass and only
process 100 afterwards. -/
def tasks_example (pass : Nat) : List Nat := if pass = 0 then [100, 101, 102] else [100]

/-- The system answers for `tasks_example`: every pass reads the file to its end, every
`kill` succeeds. -/
def kill_env_example : kill_env :=
  { tasks := fun pass => tasks_read.listing (tasks_example pass) true }

/-- The system answers for a SIGCHLD record with status 3: the children are those of
`kill_env_example`, the pty master has nothing to read, all other calls succeed. -/
def signal_env_example : signal_env :=
  { sig := { ssi_signo := SIGCHLD, ssi_status := 3 }, kill := kill_env_example }

/-! ## Path utilities -/

/-- The copying loop of `path_clean`, run on the text at `end`; it yields the characters
stored through `pos`. One character is stored per round; when it is a slash the whole run
of slashes is skipped. The first argument bounds the number of rounds. -/
def path_clean_loop : Nat → cstr → cstr
  | 0, _ => []
  | _ + 1, [] => []
  | fuel + 1, c :: rest =>
    if c = '/' then '/' :: path_clean_loop fuel (rest.dropWhile fun x => x = '/')
    else c :: path_clean_loop fuel rest

/-- The function `path_clean`: the loop, then a trailing slash is removed when more than one
character was stored. -/
def path_clean (path : cstr) : cstr :=
  let out := path_clean_loop path.length path
  if out.length > 1 ∧ out.getLast? = some '/' then out.dropLast else out

/-- The call `path_join ("%s/%s", a, b)`. -/
def path_join2 (a b : Option cstr) : cstr :=
  path_clean (show_str a ++ '/' :: show_str b)

/-- Copying with runs of slashes reduced to one slash; `after_slash` tells that the
character before the text was a slash that has been copied. -/
def squeeze : Bool → cstr → cstr
  | _, [] => []
  | after_slash, c :: rest =>
    if c = '/' then
      if after_slash then squeeze true rest else '/' :: squeeze true rest
    else c :: squeeze false rest

/-- No two slashes in a row. -/
def single_slashes (l : cstr) : Prop :=
  List.Chain' (fun a b => ¬ (a = '/' ∧ b = '/')) l

/-- The text is normalised: no two slashes in a row and no trailing slash, the text `/`
apart. -/
def is_clean (l : cstr) : Prop :=
  single_slashes l ∧ ¬ (l.length > 1 ∧ l.getLast? = some '/')

/-! ## Container initialisation -/

/-- The record `struct passwd` of the C library, as far as `container_init` reads it. -/
structure passwd where
  pw_name : cstr
  pw_dir : cstr
  pw_shell : cstr
  pw_uid : Nat
  pw_gid : Nat
deriving DecidableEq, Repr

/-- The function `container_init`. `getpw name` is the entry that the password database
returns: for `getpwnam (name)` when a user name is configured, for `getpwuid (getuid ())`
otherwise; `id` is the run id `boxer.id`. -/
def container_init (getpw : Option cstr → Option passwd) (id : cstr) (c : container) :
    Outcome container :=
  match getpw c.user.name with
  | none => fatal "getpw failed".toList
  | some pwd =>
    let user : container_user :=
      { name := some pwd.pw_name, home := some pwd.pw_dir, shell := some pwd.pw_shell,
        uid := pwd.pw_uid, gid := pwd.pw_gid }
    let root : Option cstr :=
      match c.path.root with
      | some r => some r
      | none => some (path_clean ("/var/boxer/".toList ++ id ++ "/".toList))
    let home : Option cstr :=
      match c.path.home with
      | some h => some h
      | none => user.home
    let work : Option cstr :=
      match c.path.work with
      | some w => some w
      | none => home
    let bind := c.bind.map fun b =>
      match b.target with
      | some t => { b with target := some (path_join2 root (some t)) }
      | none => b
    let cmd : Option (List cstr) :=
      match c.cmd with
      | some x => some x
      | none => some [pwd.pw_shell]
    Outcome.ret
      { c with user := user, path := { c.path with root := root, home := home, work := work },
               bind := bind, cmd := cmd } []

/-- As a text, `t` lies strictly under the directory `root`: it differs from `root`, and it
is `root`, a slash (none when `root` is `/` itself) and a rest that starts with a path
component. -/
def strictly_under (root t : cstr) : Prop :=
  t ≠ root ∧ ∃ rest : cstr, rest ≠ [] ∧ deref rest ≠ '/' ∧
    t = (if root = ['/'] then root else root ++ ['/']) ++ rest

/-- The state of `squeeze` behind the text `x`: a slash was copied last. -/
def ends_slash : Bool → cstr → Bool
  | b, [] => b
  | _, c :: rest => ends_slash (decide (c = '/')) rest

/-- A password database that knows one user, `root`, for every lookup. -/
def getpw_example (_ : Option cstr) : Option passwd :=
  some { pw_name := "root".toList, pw_dir := "/root".toList, pw_shell := "/bin/sh".toList,
         pw_uid := 0, pw_gid := 0 }

/-! ## The byte pump in closed form -/

/-- The value of `errno` that `console_buffer_pipe` tests after its `read`: the one set by a
failed call, else the one from before the call. -/
def pipe_errno (env : pipe_env) (m : supervisor) : Nat :=
  if env.rd.ret < 0 then env.rd.errno else m.errno

/-- In `console_buffer_pipe` the source is handed to `boxer_fd_unpoll`. -/
def pipe_unpolls (env : pipe_env) (m : supervisor) : Prop :=
  env.rd.ret ≤ 0 ∧ pipe_errno env m ≠ EAGAIN ∧ pipe_errno env m ≠ EINTR

instance (env : pipe_env) (m : supervisor) : Decidable (pipe_unpolls env m) := by
  unfold pipe_unpolls; infer_instance

/-- The bytes that the `read` of `console_buffer_pipe` delivers: none when it fails or
reports the end of the input. -/
def pipe_received (env : pipe_env) : List Nat :=
  if env.rd.ret ≤ 0 then [] else env.rd.bytes.take env.rd.ret.toNat

/-- The number of bytes that the target takes in `console_buffer_pipe`. -/
def pipe_accepted (env : pipe_env) : Nat :=
  if env.wr > 0 then env.wr.toNat else 0

/-- The parts of `buffer->data` that one `console_buffer_pipe` touches, as offset and
length in bytes: the area handed to `read`, the area handed to `write`, and the source and
the destination of `memmove`. The lengths are `size_t` values. -/
def pipe_regions (buffer : console_buffer) (env : pipe_env) : List (Nat × Nat) :=
  let len1 : Nat := if env.rd.ret ≤ 0 then buffer.len else buffer.len + env.rd.ret.toNat
  let rest : Nat := (((len1 : Int) - env.wr) % 2 ^ 64).toNat
  (buffer.len, (((LINE_MAX : Int) - buffer.len) % 2 ^ 64).toNat) ::
    (if len1 > 0 then
      (0, len1) :: (if env.wr > 0 then [(env.wr.toNat, rest), (0, rest)] else [])
     else [])

/-- A pump in which `read` delivers the two bytes 4 and 5 and the target takes four
bytes. -/
def pipe_env_example : pipe_env :=
  { rd := { ret := 2, bytes := [4, 5] }, wr := 4 }

/-- A pump on a full buffer: `read` is asked for zero bytes and returns 0, the target
takes nothing (`write` fails with `EAGAIN`). -/
def pipe_env_full : pipe_env :=
  { rd := { ret := 0 }, wr := -1 }

/-- The system answers while a ready event is handled, for the example supervisor: a
SIGCHLD record with status 3 on the signal fd, nothing to read on the data fds. -/
def event_env_example : event_env :=
  { signal := signal_env_example }

/-! ## Raw mode -/

def IGNBRK : Nat := 1
def BRKINT : Nat := 2
def PARMRK : Nat := 8
def ISTRIP : Nat := 32
def INLCR : Nat := 64
def IGNCR : Nat := 128
def ICRNL : Nat := 256
def IXON : Nat := 1024
def OPOST : Nat := 1
def ISIG : Nat := 1
def ICANON : Nat := 2
def ECHO : Nat := 8
def ECHONL : Nat := 64
def IEXTEN : Nat := 32768
def CSIZE : Nat := 48
def CS8 : Nat := 48
def PARENB : Nat := 256
def VTIME : Nat := 5
def VMIN : Nat := 6
def NCCS : Nat := 32

/-- The operation `x & ~mask` on flag words. -/
def clear_bits (x mask : Nat) : Nat := x ^^^ (x &&& mask)

/-- The C library function `cfmakeraw` (glibc on Linux); `c_cc` holds `NCCS` entries. -/
def cfmakeraw (t : termios) : termios :=
  { c_iflag := clear_bits t.c_iflag
      (IGNBRK ||| BRKINT ||| PARMRK ||| ISTRIP ||| INLCR ||| IGNCR ||| ICRNL ||| IXON),
    c_oflag := clear_bits t.c_oflag OPOST,
    c_lflag := clear_bits t.c_lflag (ECHO ||| ECHONL ||| ICANON ||| ISIG ||| IEXTEN),
    c_cflag := clear_bits t.c_cflag (CSIZE ||| PARENB) ||| CS8,
    c_cc := (t.c_cc.set VMIN 1).set VTIME 0 }

/-- A `struct termios` after `zero (console)`: all flag words and control characters are
0. -/
def termios_zero : termios := { c_cc := List.replicate NCCS 0 }

/-- The answer of the system to `tcgetattr`: the return value and the attributes of the
terminal. -/
structure tcgetattr_env where
  ret : Int := 0
  t : termios := {}
deriving DecidableEq, Repr

/-- The function `console_make_raw` on the record `attr` (the content of `*attr` at the
call); it returns the new content of `*attr` and the state. The copy `raw = *attr` is taken
before `tcgetattr` fills `*attr`. -/
def console_make_raw (fd : Int) (attr : termios) (env : tcgetattr_env) (m : supervisor) :
    Run (termios × supervisor) :=
  let raw0 := attr
  (Run.call (Event.tcgetattr fd) m).bind fun m =>
    if env.ret ≠ 0 then sup_fatal "tcgetattr".toList
    else
      let attr := env.t
      let raw1 := cfmakeraw raw0
      let raw : termios :=
        if fd = STDIN_FILENO then { raw1 with c_oflag := attr.c_oflag }
        else if fd = STDOUT_FILENO then
          { raw1 with c_iflag := attr.c_iflag, c_lflag := attr.c_lflag }
        else raw1
      (Run.call (Event.tcsetattr fd raw) m).bind fun m => Run.pure (attr, m)

/-- The answers of the system to the calls of `console_setup_master`. -/
structure setup_env where
  block_stdin : block_env := {}
  block_stdout : block_env := {}
  block_master : block_env := {}
  size : winsize_env := {}
  attr_stdin : tcgetattr_env := {}
  attr_stdout : tcgetattr_env := {}
deriving DecidableEq, Repr

/-- The function `console_setup_master`. -/
def console_setup_master (env : setup_env) (m : supervisor) : Run supervisor :=
  (fd_block m.console.stdin false env.block_stdin m).bind fun m =>
  (fd_block m.console.stdout false env.block_stdout m).bind fun m =>
  (fd_block m.console.master false env.block_master m).bind fun m =>
  (console_forward_size m.console.stdout m.console.master env.size m).bind fun m =>
  (console_make_raw m.console.stdin m.console.attr.stdin env.attr_stdin m).bind fun am =>
  let m : supervisor :=
    { am.2 with console := { am.2.console with
        attr := { am.2.console.attr with stdin := am.1 } } }
  (console_make_raw m.console.stdout m.console.attr.stdout env.attr_stdout m).bind fun am =>
  let m : supervisor :=
    { am.2 with console := { am.2.console with
        attr := { am.2.console.attr with stdout := am.1 } } }
  Run.pure { m with console := { m.console with
    attr := { m.console.attr with saved := { stdin := true, stdout := true } } } }

/-- Attributes of a terminal in its usual line mode: `ICRNL | IXON`, `OPOST | ONLCR`,
`B38400 | CS8 | CREAD`, `ISIG | ICANON | ECHO | ECHOE | ECHOK | IEXTEN | ECHOCTL |
ECHOKE`, and the usual control characters. -/
def termios_example : termios :=
  { c_iflag := 1280, c_oflag := 5, c_cflag := 191, c_lflag := 35387,
    c_cc := [3, 28, 127, 21, 4, 0, 1, 0, 17, 19, 26, 0, 18, 15, 23, 22,
             0, 0, 0, 0, 0, 0, 0, 0, 0, 0, 0, 0, 0, 0, 0, 0] }

/-- The supervisor before `console_setup_master`: the console is zeroed apart from the file
descriptors. -/
def supervisor_start : supervisor :=
  { fd := { epoll := 4, signal := 3 },
    console := { master := 5, stdin := STDIN_FILENO, stdout := STDOUT_FILENO,
                 attr := { stdin := termios_zero, stdout := termios_zero } },
    pid := 100 }

/-! ## The worker: mounts -/

def ENOENT : Nat := 2
def EEXIST : Nat := 17
def MS_NOSUID : Nat := 2
def MS_NODEV : Nat := 4
def MS_NOEXEC : Nat := 8
def MS_REMOUNT : Nat := 32
def MS_REC : Nat := 16384
def MS_PRIVATE : Nat := 262144

/-- The table `mounts`. -/
def mounts : List mount :=
  [ { source := some "/bin".toList, flags := MS_BIND ||| MS_RDONLY ||| MS_NOSUID },
    { source := some "/dev".toList, type := some "tmpfs".toList,
      data := some "mode=755".toList, flags := MS_NOSUID },
    { source := some "/dev/pts".toList, type := some "devpts".toList,
      data := some "newinstance,ptmxmode=0666,mode=0620,gid=5".toList,
      flags := MS_NOEXEC ||| MS_NOSUID },
    { source := some "/dev/shm".toList, type := some "tmpfs".toList,
      data := some "mode=1777,size=65536k".toList,
      flags := MS_NOEXEC ||| MS_NOSUID ||| MS_NODEV },
    { source := some "/etc".toList,
      flags := MS_BIND ||| MS_RDONLY ||| MS_NOEXEC ||| MS_NOSUID },
    { source := some "/lib".toList, flags := MS_BIND ||| MS_RDONLY ||| MS_NOSUID },
    { source := some "/lib64".toList, flags := MS_BIND ||| MS_RDONLY ||| MS_NOSUID },
    { source := some "/proc".toList, type := some "proc".toList,
      flags := MS_NOEXEC ||| MS_NOSUID ||| MS_NODEV },
    { source := some "/run".toList, type := some "tmpfs".toList,
      data := some "mode=755".toList, flags := MS_NOSUID ||| MS_NODEV },
    { source := some "/sys".toList, type := some "sysfs".toList,
      flags := MS_NOEXEC ||| MS_NOSUID ||| MS_NODEV ||| MS_RDONLY },
    { source := some "/sys/fs/cgroup".toList, type := some "tmpfs".toList,
      data := some "mode=755".toList, flags := MS_NOEXEC ||| MS_NOSUID ||| MS_NODEV },
    { source := some "/tmp".toList, type := some "tmpfs".toList,
      data := some "mode=1777".toList, flags := MS_NOSUID ||| MS_NODEV },
    { source := some "/usr/bin".toList, flags := MS_BIND ||| MS_RDONLY ||| MS_NOSUID },
    { source := some "/usr/lib".toList, flags := MS_BIND ||| MS_RDONLY ||| MS_NOSUID },
    { source := some "/usr/share".toList, flags := MS_BIND ||| MS_RDONLY ||| MS_NOSUID } ]

/-- The state of the worker process that the code below reads and writes: the record
`container` and `errno`. -/
structure worker where
  container : container := {}
  errno : Nat := 0
deriving DecidableEq, Repr

/-- The answers of the system to the file-system calls of the worker, as functions of the
arguments of the call: whether `stat` succeeds on a path, and the value of `errno` after
`mkdir (path, 0755)` and after `mount (source, target, type, flags, data)` (0 when the
call succeeds). -/
structure fs_env where
  stat : cstr → Bool
  mkdir : cstr → Nat
  mount : Option cstr → cstr → cstr → Nat → cstr → Nat

/-- The function `print_message` in the worker: the message is printed and `errno` is
cleared. -/
def print_message (level : Nat) (text : cstr) (w : worker) : Run worker :=
  Run.call (Event.print ⟨level, text⟩) { w with errno := 0 }

/-- The function `path_create_dir`. -/
def path_create_dir (env : fs_env) (path : cstr) (w : worker) : Run worker :=
  (Run.call (Event.mkdir path 493) w).bind fun w =>
    if env.mkdir path ≠ 0 then
      if env.mkdir path ≠ EEXIST then
        sup_fatal ("mkdir ".toList ++ path ++ " mode=0755".toList)
      else Run.pure { w with errno := 0 }
    else Run.pure { w with errno := 0 }

/-- The second loop of `path_iterate`: `done` is the part of the string already restored in
`var`, `rest` the part of `str` still to come. At a separator the callback gets `var`,
which reads up to the next separator not yet restored. -/
def path_iterate_loop (callback : cstr → worker → Run worker) (done rest : cstr)
    (w : worker) : Run worker :=
  match rest with
  | [] => Run.pure w
  | c :: rest =>
    if c = '/' then
      (callback (done ++ c :: rest.takeWhile (fun x => x ≠ '/')) w).bind
        (path_iterate_loop callback (done ++ [c]) rest)
    else path_iterate_loop callback (done ++ [c]) rest w

/-- The function `path_iterate`: the callback runs on the first component when the string
does not start with a separator, then once for every separator. -/
def path_iterate (str : cstr) (callback : cstr → worker → Run worker) (w : worker) :
    Run worker :=
  if deref (str.takeWhile (fun x => x ≠ '/')) ≠ Char.ofNat 0 then
    (callback (str.takeWhile (fun x => x ≠ '/')) w).bind (path_iterate_loop callback [] str)
  else path_iterate_loop callback [] str w

/-- The function `path_create`. -/
def path_create (env : fs_env) (path : cstr) (w : worker) : Run worker :=
  path_iterate path (path_create_dir env) w

/-- The function `path_exists`. -/
def path_exists (env : fs_env) (path : cstr) (w : worker) : Run (Bool × worker) :=
  (Run.call (Event.stat path) w).bind fun w => Run.pure (env.stat path, { w with errno := 0 })

/-- The function `container_image_contains`. -/
def container_image_contains (env : fs_env) (path : cstr) (w : worker) :
    Run (Bool × worker) :=
  match w.container.path.image with
  | none => Run.pure (false, w)
  | some image => path_exists env (path_join2 (some image) (some path)) w

/-- The function `mount_setup`. -/
def mount_setup (env : fs_env) (mnt : mount) (w : worker) : Run worker :=
  let target : cstr :=
    match mnt.target with
    | some t => t
    | none => path_join2 w.container.path.root mnt.source
  let data : cstr := mnt.data.getD []
  let type : cstr := mnt.type.getD []
  (container_image_contains env target w).bind fun r =>
    if r.1 then
      print_message LOG_WARNING
        ("Skipping ".toList ++ show_str mnt.source
          ++ " because it\x27s part of the container image".toList) r.2
    else
      (print_message LOG_INFO ("Mounting ".toList ++ show_str mnt.source) r.2).bind fun w =>
      (path_create env target w).bind fun w =>
      (Run.call (Event.mount mnt.source target type mnt.flags data) w).bind fun w =>
      if env.mount mnt.source target type mnt.flags data ≠ 0 then
        if env.mount mnt.source target type mnt.flags data = ENOENT then
          print_message LOG_WARNING
            ("mount ".toList ++ show_str mnt.source ++ ' ' :: target)
            { w with errno := ENOENT }
        else sup_fatal ("mount ".toList ++ show_str mnt.source ++ ' ' :: target)
      else if mnt.flags &&& MS_BIND ≠ 0 ∧ mnt.flags ≠ MS_BIND then
        (Run.call (Event.mount none target type (mnt.flags ||| MS_REMOUNT) data) w).bind
          fun w =>
            if env.mount none target type (mnt.flags ||| MS_REMOUNT) data ≠ 0 then
              sup_fatal ("mount ".toList ++ show_str mnt.source ++ ' ' :: target)
            else Run.pure w
      else Run.pure w

/-- The first statements of `container_setup`, up to and including the second call of
`mount_setup`: the root directory is created, the propagation of `/` is requested, the
tmpfs is mounted at the root directory. `container_init` has set `container.path.root`
before. -/
def container_setup_start (env : fs_env) (w : worker) : Run worker :=
  (path_create env (w.container.path.root.getD []) w).bind fun w =>
  (mount_setup env { target := some "/".toList, flags := MS_PRIVATE ||| MS_REC } w).bind
    fun w =>
  mount_setup env
    { source := some "tmpfs".toList, target := w.container.path.root,
      type := some "tmpfs".toList, data := some "size=512".toList, flags := MS_NOSUID } w

/-- Whether an event is a `mount` call. -/
def is_mount : Event → Bool
  | Event.mount _ _ _ _ _ => true
  | _ => false

/-- A file system in which, of the paths asked for, only the image `/img` and its
directory `/img/bin` exist; every `mkdir` and every `mount` succeeds. -/
def fs_env_example : fs_env :=
  { stat := fun p => decide (p = "/img".toList ∨ p = "/img/bin".toList),
    mkdir := fun _ => 0,
    mount := fun _ _ _ _ _ => 0 }

/-- A worker with the image `/img` and the root directory `/var/boxer/x`. -/
def worker_example : worker :=
  { container := { path := { image := some "/img".toList,
                             root := some "/var/boxer/x".toList } } }


/-! ## Exits of a run -/

namespace Outcome

@[simp] theorem after_ret {α : Type} (l m : List message) (a : α) :
    after l (ret a m) = ret a (l ++ m) := rfl

@[simp] theorem after_exit {α : Type} (l m : List message) (s : Int) :
    after l (exit s m : Outcome α) = exit s (l ++ m) := rfl

@[simp] theorem after_undefined {α : Type} (l : List message) (e : fault) :
    after l (undefined e : Outcome α) = undefined e := rfl

@[simp] theorem after_nil {α : Type} (x : Outcome α) : after [] x = x := by
  cases x <;> rfl

@[simp] theorem after_after {α : Type} (l m : List message) (x : Outcome α) :
    after l (after m x) = after (l ++ m) x := by
  cases x <;> simp only [after_ret, after_exit, after_undefined, List.append_assoc]

@[simp] theorem bind_ret {α β : Type} (a : α) (l : List message) (f : α → Outcome β) :
    bind (ret a l) f = after l (f a) := rfl

@[simp] theorem bind_exit {α β : Type} (s : Int) (l : List message) (f : α → Outcome β) :
    bind (exit s l) f = exit s l := rfl

@[simp] theorem bind_undefined {α β : Type} (e : fault) (f : α → Outcome β) :
    bind (undefined e : Outcome α) f = undefined e := rfl

@[simp] theorem map_ret {α β : Type} (g : α → β) (a : α) (l : List message) :
    map g (ret a l) = ret (g a) l := rfl

@[simp] theorem map_exit {α β : Type} (g : α → β) (s : Int) (l : List message) :
    map g (exit s l) = exit s l := rfl

@[simp] theorem map_undefined {α β : Type} (g : α → β) (e : fault) :
    map g (undefined e) = undefined e := rfl

@[simp] theorem silent_ret {α : Type} (a : α) (l : List message) :
    silent (ret a l) = ret a [] := rfl

@[simp] theorem silent_exit {α : Type} (s : Int) (l : List message) :
    silent (exit s l : Outcome α) = exit s [] := rfl

@[simp] theorem silent_undefined {α : Type} (e : fault) :
    silent (undefined e : Outcome α) = undefined e := rfl

theorem bind_after {α β : Type} (l : List message) (x : Outcome α) (f : α → Outcome β) :
    bind (after l x) f = after l (bind x f) := by
  cases x <;> simp only [after_ret, after_exit, after_undefined, bind_ret, bind_exit,
    bind_undefined, after_after]

theorem map_after {α β : Type} (g : α → β) (l : List message) (x : Outcome α) :
    map g (after l x) = after l (map g x) := by
  cases x <;> simp only [after_ret, after_exit, after_undefined, map_ret, map_exit,
    map_undefined]

theorem map_bind {α β γ : Type} (g : β → γ) (x : Outcome α) (f : α → Outcome β) :
    map g (bind x f) = bind x (fun a => map g (f a)) := by
  cases x <;> simp only [bind_ret, bind_exit, bind_undefined, map_exit, map_undefined,
    map_after]

@[simp] theorem silent_after {α : Type} (l : List message) (x : Outcome α) :
    silent (after l x) = silent x := by
  cases x <;> simp only [after_ret, after_exit, after_undefined, silent_ret, silent_exit,
    silent_undefined]

theorem silent_bind_congr {α β : Type} (x y : Outcome α) (f g : α → Outcome β)
    (hxy : silent x = silent y) (hfg : ∀ a, silent (f a) = silent (g a)) :
    silent (bind x f) = silent (bind y g) := by
  cases x <;> cases y <;>
    simp only [silent_ret, silent_exit, silent_undefined, ret.injEq, exit.injEq,
      undefined.injEq, and_true, reduceCtorEq] at hxy <;>
    simp only [bind_ret, bind_exit, bind_undefined, silent_after, silent_exit,
      silent_undefined, hxy, hfg]

end Outcome

/-! ## Lemmas on the argument vector -/

theorem argv_at_cons (x : cstr) (l : List cstr) (i : Nat) :
    argv_at (x :: l) (i + 1) = argv_at l i := by
  simp [argv_at]

theorem argv_at_zero (x : cstr) (l : List cstr) : argv_at (x :: l) 0 = argv_read.str x := by
  simp [argv_at]

theorem argv_at_nil : argv_at [] 0 = argv_read.null := by
  simp [argv_at]

theorem argv_at_far (l : List cstr) (i : Nat) (h : l.length < i) :
    argv_at l i = argv_read.out_of_bounds := by
  have h1 : l[i]? = none := List.getElem?_eq_none (by omega)
  have h2 : i ≠ l.length := by omega
  simp [argv_at, h1, h2]

theorem options_parse_cmd_cons (x : cstr) (l : List cstr) (i : Nat) (c : container) :
    options_parse_cmd (x :: l) (i + 1) c = options_parse_cmd l i c := by
  simp [options_parse_cmd, argv_at_cons]

theorem options_parse_iter_cons (x : cstr) (l : List cstr) (i : Nat) (c : container)
    (next : Nat → container → Outcome container) :
    options_parse_iter (x :: l) (i + 1) c next =
      options_parse_iter l i c (fun j c1 => next (j + 1) c1) := by
  simp only [options_parse_iter, argv_at_cons, options_parse_cmd_cons]
  cases argv_at l i with
  | out_of_bounds => rfl
  | null => rfl
  | str tok =>
    simp only []
    cases hs : (str_split_at tok '=').2 <;> simp [options_parse_cmd_cons]

theorem options_parse_iter_congr (l : List cstr) (i : Nat) (c : container)
    (next next2 : Nat → container → Outcome container)
    (h : ∀ j c1, i < j → j ≤ i + 2 → next j c1 = next2 j c1) :
    options_parse_iter l i c next = options_parse_iter l i c next2 := by
  simp only [options_parse_iter]
  cases argv_at l i with
  | out_of_bounds => rfl
  | null => rfl
  | str tok =>
    simp only []
    cases hs : (str_split_at tok '=').2 with
    | none =>
      have : ∀ c1, next (i + 1 + 1) c1 = next2 (i + 1 + 1) c1 :=
        fun c1 => h _ c1 (by omega) (by omega)
      simp [this]
    | some a =>
      have : ∀ c1, next (i + 1) c1 = next2 (i + 1) c1 :=
        fun c1 => h _ c1 (by omega) (by omega)
      simp [this]

theorem options_parse_loop_cons (x : cstr) (l : List cstr) :
    ∀ (fuel i : Nat) (c : container),
      options_parse_loop (x :: l) fuel (i + 1) c = options_parse_loop l fuel i c := by
  intro fuel
  induction fuel with
  | zero => intro i c; rfl
  | succ n ih =>
    intro i c
    simp only [options_parse_loop, options_parse_iter_cons]
    exact options_parse_iter_congr l i c _ _ (fun j c1 _ _ => ih j c1)

theorem argv_at_str_lt (l : List cstr) (i : Nat) (s : cstr)
    (h : argv_at l i = argv_read.str s) : i < l.length := by
  by_contra hlt
  have h1 : l[i]? = none := List.getElem?_eq_none (by omega)
  simp only [argv_at, h1] at h
  split at h <;> simp at h

theorem options_parse_iter_far (l : List cstr) (i : Nat) (c : container)
    (next : Nat → container → Outcome container) (h : l.length ≤ i) :
    options_parse_iter l i c next = options_parse_iter l i c (fun _ _ => Outcome.undefined fault.fuel) := by
  simp only [options_parse_iter]
  cases hat : argv_at l i with
  | out_of_bounds => rfl
  | null => rfl
  | str tok => have := argv_at_str_lt l i tok hat; omega

theorem options_parse_loop_fuel (l : List cstr) :
    ∀ (fuel fuel2 i : Nat) (c : container), i ≤ l.length + 1 →
      l.length + 2 ≤ fuel + i → l.length + 2 ≤ fuel2 + i →
      options_parse_loop l fuel i c = options_parse_loop l fuel2 i c := by
  intro fuel
  induction fuel with
  | zero => intro fuel2 i c h1 h2 _; omega
  | succ n ih =>
    intro fuel2 i c h1 h2 h3
    cases fuel2 with
    | zero => omega
    | succ m =>
      simp only [options_parse_loop]
      by_cases hlt : i < l.length
      · apply options_parse_iter_congr
        intro j c1 hj1 hj2
        apply ih <;> omega
      · rw [options_parse_iter_far l i c _ (by omega)]
        exact (options_parse_iter_far l i c _ (by omega)).symm

theorem options_parse_loop_succ (l : List cstr) (fuel i : Nat) (c : container) :
    options_parse_loop l (fuel + 1) i c =
      options_parse_iter l i c (options_parse_loop l fuel) := rfl

theorem options_parse_eq_tail (prog : cstr) (rest : List cstr) :
    options_parse (prog :: rest) = parse_tail rest container_zero := by
  simp only [options_parse, parse_tail, List.length_cons]
  exact options_parse_loop_cons prog rest (rest.length + 1 + 1) 0 container_zero

theorem parse_tail_nil (c : container) : parse_tail [] c = Outcome.ret c [] := by
  simp [parse_tail, options_parse_loop_succ, options_parse_iter, argv_at_nil,
    options_parse_cmd]

theorem parse_tail_word (tok : cstr) (rest : List cstr) (c : container)
    (h : deref tok ≠ '-') :
    parse_tail (tok :: rest) c = Outcome.ret { c with cmd := some (tok :: rest) } [] := by
  simp [parse_tail, options_parse_loop_succ, options_parse_iter, argv_at_zero,
    options_parse_cmd, h]

theorem is_stop_iff (lo : cstr) :
    (deref (lo.drop 1) = '-' ∧
      deref (if deref (lo.drop 1) = '-' then (lo.drop 1).drop 1 else lo.drop 1) =
        Char.ofNat 0) ↔ is_stop lo := by
  unfold is_stop
  constructor
  · rintro ⟨h1, h2⟩
    simp only [h1, if_true, List.drop_drop] at h2
    exact ⟨h1, h2⟩
  · rintro ⟨h1, h2⟩
    simp only [h1, if_true, List.drop_drop]
    exact ⟨trivial, h2⟩

theorem option_name_eq (lo : cstr) :
    (if deref (lo.drop 1) = '-' then (lo.drop 1).drop 1 else lo.drop 1) = option_name lo := by
  simp [option_name, List.drop_drop]

/-- One iteration at an option token, written with `is_stop` and `option_apply`. -/
theorem options_parse_iter_zero (tok : cstr) (rest : List cstr) (c : container)
    (next : Nat → container → Outcome container) (h : deref tok = '-') :
    options_parse_iter (tok :: rest) 0 c next =
      if is_stop (str_split_at tok '=').1 then
        options_parse_cmd (tok :: rest) (if (str_split_at tok '=').2 = none then 1 else 0) c
      else
        (option_apply (str_split_at tok '=').1
          (match (str_split_at tok '=').2 with
           | some a => some a
           | none =>
             match argv_at rest 0 with
             | argv_read.str s => some s
             | _ => none) c).bind
          (fun c1 => next ((if (str_split_at tok '=').2 = none then 1 else 0) + 1) c1) := by
  simp only [options_parse_iter, argv_at_zero, argv_at_cons, h, ne_eq, not_true_eq_false,
    if_false, is_stop_iff, Nat.zero_add, option_apply]
  by_cases hst : is_stop (str_split_at tok '=').1
  · simp only [hst, if_true]
  · simp only [hst, if_false, option_name_eq]

theorem parse_tail_joined (tok lo a : cstr) (rest : List cstr) (c : container)
    (h : deref tok = '-') (hs : str_split_at tok '=' = (lo, some a)) (hstop : ¬ is_stop lo) :
    parse_tail (tok :: rest) c = (option_apply lo (some a) c).bind (parse_tail rest) := by
  unfold parse_tail
  rw [List.length_cons, options_parse_loop_succ, options_parse_iter_zero _ _ _ _ h]
  simp only [hs, hstop, if_false, reduceCtorEq]
  congr 1
  funext c1
  exact options_parse_loop_cons tok rest (rest.length + 2) 0 c1

theorem parse_tail_joined_stop (tok lo a : cstr) (rest : List cstr) (c : container)
    (h : deref tok = '-') (hs : str_split_at tok '=' = (lo, some a)) (hstop : is_stop lo) :
    parse_tail (tok :: rest) c = Outcome.ret { c with cmd := some (tok :: rest) } [] := by
  unfold parse_tail
  rw [List.length_cons, options_parse_loop_succ, options_parse_iter_zero _ _ _ _ h]
  simp only [hs, hstop, if_true, if_false, reduceCtorEq, options_parse_cmd, argv_at_zero,
    List.drop_zero]

theorem parse_tail_pair (tok a : cstr) (rest : List cstr) (c : container)
    (h : deref tok = '-') (hs : str_split_at tok '=' = (tok, none)) (hstop : ¬ is_stop tok) :
    parse_tail (tok :: a :: rest) c = (option_apply tok (some a) c).bind (parse_tail rest) := by
  unfold parse_tail
  rw [List.length_cons, options_parse_loop_succ, options_parse_iter_zero _ _ _ _ h]
  simp only [hs, hstop, if_false, if_true, argv_at_zero]
  congr 1
  funext c1
  rw [options_parse_loop_cons, options_parse_loop_cons]
  apply options_parse_loop_fuel <;> simp

theorem parse_tail_pair_stop (tok : cstr) (rest : List cstr) (c : container)
    (h : deref tok = '-') (hs : str_split_at tok '=' = (tok, none)) (hstop : is_stop tok) :
    parse_tail (tok :: rest) c =
      Outcome.ret (if rest = [] then c else { c with cmd := some rest }) [] := by
  unfold parse_tail
  rw [List.length_cons, options_parse_loop_succ, options_parse_iter_zero _ _ _ _ h]
  cases rest with
  | nil =>
    simp only [hs, hstop, if_true, options_parse_cmd, argv_at_cons, argv_at_nil]
  | cons a r =>
    simp only [hs, hstop, if_true, options_parse_cmd, argv_at_cons, argv_at_zero,
      reduceCtorEq, if_false, List.drop_succ_cons, List.drop_zero]

theorem parse_tail_last (tok : cstr) (c : container)
    (h : deref tok = '-') (hs : str_split_at tok '=' = (tok, none)) (hstop : ¬ is_stop tok) :
    parse_tail [tok] c =
      (option_apply tok none c).bind
        (fun _ => Outcome.undefined fault.argv_out_of_bounds) := by
  unfold parse_tail
  rw [List.length_cons, options_parse_loop_succ, options_parse_iter_zero _ _ _ _ h]
  simp only [hs, hstop, if_false, if_true, argv_at_nil]
  congr 1

/-! ## Splitting a token -/

@[simp] theorem deref_cons (x : Char) (xs : cstr) : deref (x :: xs) = x := rfl

@[simp] theorem deref_nil : deref [] = Char.ofNat 0 := rfl

theorem deref_ne_zero (s : cstr) (h0 : is_cstr s) (hne : s ≠ []) :
    deref s ≠ Char.ofNat 0 := by
  cases s with
  | nil => exact absurd rfl hne
  | cons x xs =>
    intro h
    apply h0
    simp only [deref_cons] at h
    simp [h]

theorem strchr_absent (s : cstr) (c : Char) (h : c ∉ s) : strchr s c = none := by
  induction s with
  | nil => rfl
  | cons x xs ih =>
    simp only [List.mem_cons, not_or] at h
    have hx : ¬ x = c := fun e => h.1 e.symm
    simp [strchr, hx, ih h.2]

theorem strchr_first (s t : cstr) (c : Char) (h : c ∉ s) :
    strchr (s ++ c :: t) c = some s.length := by
  induction s with
  | nil => simp [strchr]
  | cons x xs ih =>
    simp only [List.mem_cons, not_or] at h
    have hx : ¬ x = c := fun e => h.1 e.symm
    simp [strchr, hx, ih h.2]

theorem str_split_at_absent (s : cstr) (c : Char) (h : c ∉ s) :
    str_split_at s c = (s, none) := by
  simp [str_split_at, strchr_absent s c h]

theorem str_split_at_first (s t : cstr) (c : Char) (h : c ∉ s) :
    str_split_at (s ++ c :: t) c = (s, some t) := by
  simp [str_split_at, strchr_first s t c h]

/-! ## Complete options -/

theorem not_is_stop_joined (name : cstr) (h0 : is_cstr name) (hne : name ≠ []) :
    ¬ is_stop ('-' :: '-' :: name) := by
  intro h
  exact deref_ne_zero name h0 hne (by simpa [is_stop] using h.2)

theorem not_is_stop_pair (name : cstr) (h0 : is_cstr name) (hdash : name ≠ ['-']) :
    ¬ is_stop ('-' :: name) := by
  rintro ⟨h1, h2⟩
  cases name with
  | nil => simp at h1
  | cons x xs =>
    simp only [List.drop_succ_cons, List.drop_zero, deref_cons] at h1 h2
    subst h1
    cases xs with
    | nil => exact hdash rfl
    | cons y ys =>
      simp only [deref_cons] at h2
      apply h0
      simp [h2]

/-- Parsing a `--name=value` token: the option is applied, parsing goes on behind it. -/
theorem parse_tail_joined_option (name value : cstr) (rest : List cstr) (c : container)
    (h0 : is_cstr name) (hne : name ≠ []) (heq : '=' ∉ name) :
    parse_tail (('-' :: '-' :: (name ++ '=' :: value)) :: rest) c =
      (option_apply ('-' :: '-' :: name) (some value) c).bind (parse_tail rest) := by
  apply parse_tail_joined ('-' :: '-' :: (name ++ '=' :: value)) ('-' :: '-' :: name) value rest c rfl
  · have : '=' ∉ '-' :: '-' :: name := by simp [heq]
    exact str_split_at_first ('-' :: '-' :: name) value '=' this
  · exact not_is_stop_joined name h0 hne

/-- Parsing the two tokens `-name value`: the option is applied to the second token,
parsing goes on behind both. -/
theorem parse_tail_pair_option (name value : cstr) (rest : List cstr) (c : container)
    (h0 : is_cstr name) (heq : '=' ∉ name) (hdash : name ≠ ['-']) :
    parse_tail (('-' :: name) :: value :: rest) c =
      (option_apply ('-' :: name) (some value) c).bind (parse_tail rest) := by
  apply parse_tail_pair ('-' :: name) value rest c rfl
  · have : '=' ∉ '-' :: name := by simp [heq]
    exact str_split_at_absent ('-' :: name) '=' this
  · exact not_is_stop_pair name h0 hdash

theorem parse_tail_stop (cmd : List cstr) (c : container) (hcmd : cmd ≠ []) :
    parse_tail ("--".toList :: cmd) c = Outcome.ret { c with cmd := some cmd } [] := by
  rw [parse_tail_pair_stop "--".toList cmd c (by decide) (by decide) (by decide)]
  simp [hcmd]

theorem parse_tail_options_stop (opts : List (List cstr)) (cmd : List cstr)
    (hopts : ∀ o ∈ opts, complete_option o) (hcmd : cmd ≠ []) :
    ∀ c : container, parse_tail (opts.flatten ++ "--".toList :: cmd) c =
      (parse_tail opts.flatten c).map (fun c1 => { c1 with cmd := some cmd }) := by
  induction opts with
  | nil =>
    intro c
    simp only [List.flatten_nil, List.nil_append, parse_tail_nil, Outcome.map_ret]
    exact parse_tail_stop cmd c hcmd
  | cons o os ih =>
    intro c
    have ih2 := ih (fun o2 h2 => hopts o2 (List.mem_cons_of_mem _ h2))
    cases hopts o (List.mem_cons_self _ _) with
    | joined name value h0 hne heq =>
      simp only [List.flatten_cons, List.singleton_append, List.cons_append]
      rw [parse_tail_joined_option name value _ c h0 hne heq,
        parse_tail_joined_option name value _ c h0 hne heq, Outcome.map_bind]
      congr 1
      funext c1
      exact ih2 c1
    | pair name value h0 heq hdash =>
      simp only [List.flatten_cons, List.cons_append, List.nil_append]
      rw [parse_tail_pair_option name value _ c h0 heq hdash,
        parse_tail_pair_option name value _ c h0 heq hdash, Outcome.map_bind]
      congr 1
      funext c1
      exact ih2 c1

/-! ## Defined behaviour -/

theorem Outcome.defined_after {α : Type} (l : List message) (x : Outcome α)
    (h : x.defined) : (Outcome.after l x).defined := by
  cases x <;> simp_all [Outcome.defined]

theorem Outcome.defined_bind {α β : Type} (x : Outcome α) (f : α → Outcome β)
    (hx : x.defined) (hf : ∀ a, (f a).defined) : (x.bind f).defined := by
  cases x with
  | ret a l => exact Outcome.defined_after l (f a) (hf a)
  | exit s l => trivial
  | undefined e => exact hx

theorem Outcome.defined_map {α β : Type} (g : α → β) (x : Outcome α) (h : x.defined) :
    (x.map g).defined := by
  cases x <;> simp_all [Outcome.defined]

theorem Outcome.defined_ne {α : Type} (x : Outcome α) (h : x.defined) (e : fault) :
    x ≠ Outcome.undefined e := by
  intro hx
  rw [hx] at h
  exact h

theorem str_to_long_defined (s : cstr) : (str_to_long s).defined := by
  unfold str_to_long fatal
  simp only []
  split_ifs <;> trivial

theorem options_set_rlimit_defined (name v : cstr) (c : container) :
    (options_set_rlimit name (some v) c).defined := by
  unfold options_set_rlimit
  simp only []
  apply Outcome.defined_bind _ _ (str_to_long_defined _)
  intro s
  apply Outcome.defined_bind _ _ (str_to_long_defined _)
  intro h
  trivial

theorem options_set_cgroup_defined (name : cstr) (v : Option cstr) (c : container) :
    (options_set_cgroup name v c).defined := by
  unfold options_set_cgroup
  split <;> trivial

theorem options_set_defined (id : option_id) (name v : cstr) (c : container) :
    (options_set id name (some v) c).defined := by
  cases id <;> simp only [options_set] <;>
    first
    | trivial
    | exact Outcome.defined_after _ _ (options_set_rlimit_defined name v c)
    | exact Outcome.defined_after _ _ (options_set_cgroup_defined name _ c)

theorem option_apply_defined (lo v : cstr) (c : container) :
    (option_apply lo (some v) c).defined :=
  options_set_defined _ _ v c

theorem parse_tail_options_defined (opts : List (List cstr))
    (hopts : ∀ o ∈ opts, complete_option o) :
    ∀ c : container, (parse_tail opts.flatten c).defined := by
  induction opts with
  | nil =>
    intro c
    simp only [List.flatten_nil, parse_tail_nil]
    trivial
  | cons o os ih =>
    intro c
    have ih2 := ih (fun o2 h2 => hopts o2 (List.mem_cons_of_mem _ h2))
    cases hopts o (List.mem_cons_self _ _) with
    | joined name value h0 hne heq =>
      simp only [List.flatten_cons, List.singleton_append, List.cons_append]
      rw [parse_tail_joined_option name value _ c h0 hne heq]
      exact Outcome.defined_bind _ _ (option_apply_defined _ _ c) ih2
    | pair name value h0 heq hdash =>
      simp only [List.flatten_cons, List.cons_append, List.nil_append]
      rw [parse_tail_pair_option name value _ c h0 heq hdash]
      exact Outcome.defined_bind _ _ (option_apply_defined _ _ c) ih2

/-! ## C1: a lone `--` ends option parsing -/

/-- C1: for an argument vector `[prog] ++ opts ++ ["--"] ++ cmd` with complete options
`opts` and a non-empty `cmd`, `options_parse` gives what it gives for `[prog] ++ opts`
alone with the command set to exactly `cmd`: a returned configuration always records
`cmd`, no token of `cmd` is read as an option, and no undefined behaviour is reached. -/
theorem options_parse_double_dash (prog : cstr) (opts : List (List cstr)) (cmd : List cstr)
    (hopts : ∀ o ∈ opts, complete_option o) (hcmd : cmd ≠ []) :
    options_parse (prog :: (opts.flatten ++ "--".toList :: cmd)) =
        (options_parse (prog :: opts.flatten)).map (fun c => { c with cmd := some cmd }) ∧
      (∀ c log, options_parse (prog :: (opts.flatten ++ "--".toList :: cmd)) =
        Outcome.ret c log → c.cmd = some cmd) ∧
      (options_parse (prog :: (opts.flatten ++ "--".toList :: cmd))).defined := by
  have heq := parse_tail_options_stop opts cmd hopts hcmd container_zero
  have hdef := parse_tail_options_defined opts hopts container_zero
  rw [options_parse_eq_tail, options_parse_eq_tail, heq]
  refine ⟨rfl, ?_, Outcome.defined_map _ _ hdef⟩
  intro c log h
  cases hx : parse_tail opts.flatten container_zero with
  | ret a l =>
    rw [hx, Outcome.map_ret] at h
    injection h with h1 _
    rw [← h1]
  | exit s l => rw [hx] at h; simp at h
  | undefined e => rw [hx] at h; simp at h

/-- The scenario `boxer -u root -- /bin/echo hi` as an instance of C1. -/
theorem options_parse_double_dash_witness :
    options_parse ("boxer".toList :: ([["-u".toList, "root".toList]].flatten ++
        "--".toList :: ["/bin/echo".toList, "hi".toList])) =
        (options_parse ("boxer".toList :: [["-u".toList, "root".toList]].flatten)).map
          (fun c => { c with cmd := some ["/bin/echo".toList, "hi".toList] }) ∧
      (∀ c log, options_parse ("boxer".toList :: ([["-u".toList, "root".toList]].flatten ++
        "--".toList :: ["/bin/echo".toList, "hi".toList])) =
        Outcome.ret c log → c.cmd = some ["/bin/echo".toList, "hi".toList]) ∧
      (options_parse ("boxer".toList :: ([["-u".toList, "root".toList]].flatten ++
        "--".toList :: ["/bin/echo".toList, "hi".toList]))).defined :=
  options_parse_double_dash "boxer".toList [["-u".toList, "root".toList]]
    ["/bin/echo".toList, "hi".toList]
    (by
      intro o ho
      simp only [List.mem_singleton] at ho
      subst ho
      exact complete_option.pair "u".toList "root".toList (by decide) (by decide) (by decide))
    (by simp)

/-- The scenario `boxer -u root -- /bin/echo hi` evaluated: the user name is `root`, the
command is `/bin/echo hi`, even if the command's arguments start with a dash. -/
theorem options_parse_echo :
    options_parse ["boxer".toList, "-u".toList, "root".toList, "--".toList,
        "/bin/echo".toList, "hi".toList] =
      Outcome.ret { user := { name := some "root".toList },
                    cmd := some ["/bin/echo".toList, "hi".toList] } [] ∧
    options_parse ["boxer".toList, "--".toList, "-u".toList, "--help".toList] =
      Outcome.ret { cmd := some ["-u".toList, "--help".toList] } [] := by
  constructor <;> decide

/-! ## C2: the spellings of an option -/

theorem option_apply_short (row : option_row) (hrow : row ∈ options) (k s : cstr)
    (hk : row.longname = some k) (hs : row.shortname = some s) :
    (is_cstr s ∧ '=' ∉ s ∧ s ≠ ['-']) ∧
      ∀ (v : cstr) (c : container),
        option_apply ('-' :: s) (some v) c = option_apply ('-' :: '-' :: k) (some v) c := by
  simp only [options, List.mem_cons, List.mem_singleton, List.not_mem_nil, or_false] at hrow
  rcases hrow with rfl | rfl | rfl | rfl | rfl | rfl | rfl | rfl | rfl | rfl | rfl | rfl | rfl <;>
    simp only [Option.some.injEq, reduceCtorEq] at hk hs <;>
    subst hk <;> subst hs <;>
    exact ⟨by decide, fun v c => rfl⟩

/-- C2: `--k=v`, `--k v` and (for a table row with long name `k` and short name `s`)
`-s v` in front of any further arguments give the same outcome of `options_parse`:
the same configuration, command and messages; `v` is any string. -/
theorem options_parse_spellings (prog k v : cstr) (rest : List cstr)
    (h0 : is_cstr k) (hne : k ≠ []) (heq : '=' ∉ k) :
    options_parse (prog :: ('-' :: '-' :: (k ++ '=' :: v)) :: rest) =
        options_parse (prog :: ('-' :: '-' :: k) :: v :: rest) ∧
      ∀ row ∈ options, row.longname = some k → ∀ s, row.shortname = some s →
        options_parse (prog :: ('-' :: s) :: v :: rest) =
          options_parse (prog :: ('-' :: '-' :: (k ++ '=' :: v)) :: rest) := by
  have hA := parse_tail_joined_option k v rest container_zero h0 hne heq
  have hB := parse_tail_pair_option ('-' :: k) v rest container_zero
    (by intro h; simp only [is_cstr, List.mem_cons] at h h0; rcases h with h | h
        · exact absurd h (by decide)
        · exact h0 h)
    (by simp [heq]) (by simp [hne])
  refine ⟨?_, ?_⟩
  · rw [options_parse_eq_tail, options_parse_eq_tail, hA, hB]
  · intro row hrow hk s hs
    obtain ⟨⟨hs0, hseq, hsd⟩, happ⟩ := option_apply_short row hrow k s hk hs
    rw [options_parse_eq_tail, options_parse_eq_tail, hA,
      parse_tail_pair_option s v rest container_zero hs0 hseq hsd, happ]

/-- C2 at the option `--user` / `-u` with a value that contains `=` and starts with a
dash. -/
theorem options_parse_spellings_witness :
    options_parse ("boxer".toList :: ('-' :: '-' :: ("user".toList ++ '=' :: "-a=b".toList)) ::
        ["sh".toList]) =
        options_parse ("boxer".toList :: ('-' :: '-' :: "user".toList) :: "-a=b".toList ::
          ["sh".toList]) ∧
      ∀ row ∈ options, row.longname = some "user".toList → ∀ s, row.shortname = some s →
        options_parse ("boxer".toList :: ('-' :: s) :: "-a=b".toList :: ["sh".toList]) =
          options_parse ("boxer".toList ::
            ('-' :: '-' :: ("user".toList ++ '=' :: "-a=b".toList)) :: ["sh".toList]) :=
  options_parse_spellings "boxer".toList "user".toList "-a=b".toList ["sh".toList]
    (by decide) (by decide) (by decide)

/-- The three spellings of `--user` evaluated on a value with `=` and a leading dash. -/
theorem options_parse_user_spellings :
    options_parse ["boxer".toList, "--user=-a=b".toList, "sh".toList] =
      Outcome.ret { user := { name := some "-a=b".toList }, cmd := some ["sh".toList] } [] ∧
    options_parse ["boxer".toList, "--user".toList, "-a=b".toList, "sh".toList] =
      Outcome.ret { user := { name := some "-a=b".toList }, cmd := some ["sh".toList] } [] ∧
    options_parse ["boxer".toList, "-u".toList, "-a=b".toList, "sh".toList] =
      Outcome.ret { user := { name := some "-a=b".toList }, cmd := some ["sh".toList] } [] := by
  refine ⟨?_, ?_, ?_⟩ <;> decide

/-! ## C3: unknown options -/

theorem Outcome.bind_assoc {α β γ : Type} (x : Outcome α) (f : α → Outcome β)
    (g : β → Outcome γ) : (x.bind f).bind g = x.bind (fun a => (f a).bind g) := by
  cases x <;> simp only [Outcome.bind_ret, Outcome.bind_exit, Outcome.bind_undefined,
    Outcome.bind_after]

theorem parse_tail_options_append (opts : List (List cstr)) (l : List cstr)
    (hopts : ∀ o ∈ opts, complete_option o) :
    ∀ c : container, parse_tail (opts.flatten ++ l) c =
      (parse_tail opts.flatten c).bind (fun c1 => parse_tail l c1) := by
  induction opts with
  | nil =>
    intro c
    simp only [List.flatten_nil, List.nil_append, parse_tail_nil, Outcome.bind_ret,
      Outcome.after_nil]
  | cons o os ih =>
    intro c
    have ih2 := ih (fun o2 h2 => hopts o2 (List.mem_cons_of_mem _ h2))
    cases hopts o (List.mem_cons_self _ _) with
    | joined name value h0 hne heq =>
      simp only [List.flatten_cons, List.singleton_append, List.cons_append]
      rw [parse_tail_joined_option name value _ c h0 hne heq,
        parse_tail_joined_option name value _ c h0 hne heq, Outcome.bind_assoc]
      congr 1
      funext c1
      exact ih2 c1
    | pair name value h0 heq hdash =>
      simp only [List.flatten_cons, List.cons_append, List.nil_append]
      rw [parse_tail_pair_option name value _ c h0 heq hdash,
        parse_tail_pair_option name value _ c h0 heq hdash, Outcome.bind_assoc]
      congr 1
      funext c1
      exact ih2 c1

theorem options_find_unknown (tbl : List option_row) (name : cstr)
    (htbl : ∀ r ∈ tbl, r.id ≠ OPTION_UNKOWN)
    (h : (options_find tbl name).1 = OPTION_UNKOWN) : (options_find tbl name).2 = name := by
  induction tbl with
  | nil => rfl
  | cons r rs ih =>
    have hr := htbl r (List.mem_cons_self _ _)
    simp only [options_find] at h ⊢
    split_ifs at h ⊢ with h1 h2
    · exact absurd h hr
    · exact absurd h hr
    · exact ih (fun r2 h2 => htbl r2 (List.mem_cons_of_mem _ h2)) h

theorem options_rows_known : ∀ r ∈ options, r.id ≠ OPTION_UNKOWN := by decide

/-- An option whose name matches no row only prints the warning. -/
theorem option_apply_unknown (lo : cstr) (argument : Option cstr) (c : container)
    (hun : (options_find options (option_name lo)).1 = OPTION_UNKOWN) :
    option_apply lo argument c =
      Outcome.ret c [⟨LOG_WARNING, "Unknown option ".toList ++ option_name lo⟩] := by
  unfold option_apply
  rw [options_find_unknown options _ options_rows_known hun, hun]
  rfl

theorem deref_append (lo t : cstr) (h : deref lo = '-') : deref (lo ++ t) = '-' := by
  cases lo with
  | nil => exact absurd h (by decide)
  | cons x xs => exact h

/-- The claim C3 as stated fails: the unknown option `--foo` written without `=` takes the
next token as its argument, so dropping only `--foo` changes the result. -/
theorem options_parse_unknown_counterexample :
    (options_find options "foo".toList).1 = OPTION_UNKOWN ∧
    options_parse ["boxer".toList, "--foo".toList, "-u".toList, "root".toList,
        "sh".toList] =
      Outcome.ret { cmd := some ["root".toList, "sh".toList] }
        [⟨LOG_WARNING, "Unknown option foo".toList⟩] ∧
    options_parse ["boxer".toList, "-u".toList, "root".toList, "sh".toList] =
      Outcome.ret { user := { name := some "root".toList }, cmd := some ["sh".toList] } [] ∧
    (options_parse ["boxer".toList, "--foo".toList, "-u".toList, "root".toList,
        "sh".toList]).silent ≠
      (options_parse ["boxer".toList, "-u".toList, "root".toList, "sh".toList]).silent := by
  refine ⟨?_, ?_, ?_, ?_⟩ <;> decide

/-- C3 (amended): an option `lo` whose name matches no table row only prints
`Unknown option <name>` and leaves the configuration unchanged; behind any complete
options, the configuration and command that `options_parse` produces are those of the
argument vector without the token `lo=value`, and for the option written without `=`
those of the argument vector without the token `lo` and the token after it. -/
theorem options_parse_unknown (prog lo value : cstr) (opts : List (List cstr))
    (rest : List cstr) (hopts : ∀ o ∈ opts, complete_option o)
    (hd : deref lo = '-') (heq : '=' ∉ lo) (hstop : ¬ is_stop lo)
    (hun : (options_find options (option_name lo)).1 = OPTION_UNKOWN) :
    (∀ argument c, option_apply lo argument c =
        Outcome.ret c [⟨LOG_WARNING, "Unknown option ".toList ++ option_name lo⟩]) ∧
      (options_parse (prog :: (opts.flatten ++ (lo ++ '=' :: value) :: rest))).silent =
        (options_parse (prog :: (opts.flatten ++ rest))).silent ∧
      (options_parse (prog :: (opts.flatten ++ lo :: value :: rest))).silent =
        (options_parse (prog :: (opts.flatten ++ rest))).silent := by
  refine ⟨fun argument c => option_apply_unknown lo argument c hun, ?_, ?_⟩
  · rw [options_parse_eq_tail, options_parse_eq_tail,
      parse_tail_options_append opts _ hopts, parse_tail_options_append opts _ hopts]
    apply Outcome.silent_bind_congr _ _ _ _ rfl
    intro c1
    rw [parse_tail_joined (lo ++ '=' :: value) lo value rest c1 (deref_append lo _ hd)
      (str_split_at_first lo value '=' heq) hstop, option_apply_unknown lo _ c1 hun]
    simp only [Outcome.bind_ret, Outcome.silent_after]
  · rw [options_parse_eq_tail, options_parse_eq_tail,
      parse_tail_options_append opts _ hopts, parse_tail_options_append opts _ hopts]
    apply Outcome.silent_bind_congr _ _ _ _ rfl
    intro c1
    rw [parse_tail_pair lo value rest c1 hd (str_split_at_absent lo '=' heq) hstop,
      option_apply_unknown lo _ c1 hun]
    simp only [Outcome.bind_ret, Outcome.silent_after]

/-- The amended C3 at the unknown option `--foo` behind `-u root`. -/
theorem options_parse_unknown_witness :
    (∀ argument c, option_apply "--foo".toList argument c =
        Outcome.ret c [⟨LOG_WARNING, "Unknown option ".toList ++
          option_name "--foo".toList⟩]) ∧
      (options_parse ("boxer".toList :: ([["-u".toList, "root".toList]].flatten ++
        ("--foo".toList ++ '=' :: "x".toList) :: ["sh".toList]))).silent =
        (options_parse ("boxer".toList :: ([["-u".toList, "root".toList]].flatten ++
          ["sh".toList]))).silent ∧
      (options_parse ("boxer".toList :: ([["-u".toList, "root".toList]].flatten ++
        "--foo".toList :: "x".toList :: ["sh".toList]))).silent =
        (options_parse ("boxer".toList :: ([["-u".toList, "root".toList]].flatten ++
          ["sh".toList]))).silent :=
  options_parse_unknown "boxer".toList "--foo".toList "x".toList
    [["-u".toList, "root".toList]] ["sh".toList]
    (by
      intro o ho
      simp only [List.mem_singleton] at ho
      subst ho
      exact complete_option.pair "u".toList "root".toList (by decide) (by decide) (by decide))
    (by decide) (by decide) (by decide) (by decide)

/-! ## C4: the short option `-d` -/

/-- C4 (code): `-d N` matches no row of the option table (the row of `domain` has no
short name), so it only prints `Unknown option d` and the domain stays unset, while
`--domain N` and `--domain=N` store `N`. -/
theorem options_parse_short_d (prog N : cstr) :
    options_parse [prog, "-d".toList, N] =
        Outcome.ret container_zero [⟨LOG_WARNING, "Unknown option d".toList⟩] ∧
      options_parse [prog, "--domain".toList, N] =
        Outcome.ret { uts := { domain := some N } } [] ∧
      options_parse [prog, "--domain".toList ++ '=' :: N] =
        Outcome.ret { uts := { domain := some N } } [] := by
  refine ⟨?_, ?_, ?_⟩
  · rw [options_parse_eq_tail,
      parse_tail_pair "-d".toList N [] _ (by decide) (by decide) (by decide)]
    rfl
  · rw [options_parse_eq_tail,
      parse_tail_pair "--domain".toList N [] _ (by decide) (by decide) (by decide)]
    rfl
  · rw [options_parse_eq_tail,
      parse_tail_joined ("--domain".toList ++ '=' :: N) "--domain".toList N [] _ rfl
        (str_split_at_first "--domain".toList N '=' (by decide)) (by decide)]
    rfl

/-- The failing input of C4 evaluated. -/
theorem options_parse_short_d_example :
    options_parse ["boxer".toList, "-d".toList, "example.org".toList] =
      Outcome.ret container_zero [⟨LOG_WARNING, "Unknown option d".toList⟩] := by
  decide

/-! ## Decimal numerals and `strtol` -/

theorem digitChar_value (k : Nat) (h : k < 10) : (Nat.digitChar k).toNat - 48 = k := by
  interval_cases k <;> rfl

theorem digitChar_isdigit (k : Nat) (h : k < 10) : isdigit (Nat.digitChar k) = true := by
  interval_cases k <;> rfl

theorem toDigitsCore_append (fuel : Nat) :
    ∀ (n : Nat) (ds : List Char),
      Nat.toDigitsCore 10 fuel n ds = Nat.toDigitsCore 10 fuel n [] ++ ds := by
  induction fuel with
  | zero => intro n ds; rfl
  | succ f ih =>
    intro n ds
    simp only [Nat.toDigitsCore]
    split_ifs with h
    · rfl
    · rw [ih (n / 10) (Nat.digitChar (n % 10) :: ds), ih (n / 10) [Nat.digitChar (n % 10)]]
      simp

theorem digits_value_snoc (l : List Char) (d : Char) :
    digits_value (l ++ [d]) = 10 * digits_value l + (d.toNat - 48) := by
  simp [digits_value, List.foldl_append]

theorem toDigitsCore_value (fuel : Nat) :
    ∀ n : Nat, n < fuel → digits_value (Nat.toDigitsCore 10 fuel n []) = n := by
  induction fuel with
  | zero => intro n h; omega
  | succ f ih =>
    intro n hn
    simp only [Nat.toDigitsCore]
    split_ifs with h
    · have h10 : n % 10 < 10 := Nat.mod_lt _ (by decide)
      have : digits_value [Nat.digitChar (n % 10)] = n % 10 := by
        simp [digits_value, digitChar_value _ h10]
      rw [this]
      omega
    · rw [toDigitsCore_append, digits_value_snoc, ih (n / 10) (by omega),
        digitChar_value _ (Nat.mod_lt _ (by decide))]
      omega

theorem toDigitsCore_isdigit (fuel : Nat) :
    ∀ n : Nat, ∀ c ∈ Nat.toDigitsCore 10 fuel n [], isdigit c = true := by
  induction fuel with
  | zero => intro n c h; simp [Nat.toDigitsCore] at h
  | succ f ih =>
    intro n c hc
    simp only [Nat.toDigitsCore] at hc
    split_ifs at hc with h
    · simp only [List.mem_singleton] at hc
      rw [hc]
      exact digitChar_isdigit _ (Nat.mod_lt _ (by decide))
    · rw [toDigitsCore_append] at hc
      simp only [List.mem_append, List.mem_singleton] at hc
      rcases hc with hc | hc
      · exact ih _ c hc
      · rw [hc]
        exact digitChar_isdigit _ (Nat.mod_lt _ (by decide))

theorem toDigits_value (n : Nat) : digits_value (Nat.toDigits 10 n) = n :=
  toDigitsCore_value (n + 1) n (by omega)

theorem toDigits_isdigit (n : Nat) : ∀ c ∈ Nat.toDigits 10 n, isdigit c = true :=
  toDigitsCore_isdigit (n + 1) n

theorem toDigits_ne_nil (n : Nat) : Nat.toDigits 10 n ≠ [] := by
  unfold Nat.toDigits
  simp only [Nat.toDigitsCore]
  split_ifs with h
  · simp
  · rw [toDigitsCore_append]
    simp

theorem takeWhile_digits (ds sfx : cstr) (hds : ∀ c ∈ ds, isdigit c = true)
    (hsfx : isdigit (deref sfx) = false) :
    (ds ++ sfx).takeWhile isdigit = ds ∧ (ds ++ sfx).dropWhile isdigit = sfx := by
  induction ds with
  | nil =>
    cases sfx with
    | nil => simp
    | cons x xs =>
      simp only [deref_cons] at hsfx
      simp [List.takeWhile, List.dropWhile, hsfx]
  | cons d ds ih =>
    have hd := hds d (List.mem_cons_self _ _)
    have ih2 := ih (fun c hc => hds c (List.mem_cons_of_mem _ hc))
    simp [List.takeWhile, List.dropWhile, hd, ih2.1, ih2.2]

theorem isdigit_facts (c : Char) (h : isdigit c = true) :
    isspace c = false ∧ c ≠ '-' ∧ c ≠ '+' := by
  simp only [isdigit, Bool.and_eq_true, decide_eq_true_eq] at h
  refine ⟨?_, ?_, ?_⟩
  · simp only [isspace, Bool.or_eq_false_iff, decide_eq_false_iff_not, Bool.and_eq_false_iff]
    omega
  · rintro rfl
    revert h
    decide
  · rintro rfl
    revert h
    decide

/-- The library function on an unsigned numeral followed by text that does not start with
a digit. -/
theorem strtol_digits (ds sfx : cstr) (hds : ∀ c ∈ ds, isdigit c = true) (hne : ds ≠ [])
    (hsfx : isdigit (deref sfx) = false) :
    strtol (ds ++ sfx) =
      if LONG_MAX < (digits_value ds : Int) then ⟨LONG_MAX, sfx, ERANGE⟩
      else ⟨digits_value ds, sfx, 0⟩ := by
  obtain ⟨d, ds2, rfl⟩ := List.exists_cons_of_ne_nil hne
  have hd := isdigit_facts d (hds d (List.mem_cons_self _ _))
  have htw := takeWhile_digits (d :: ds2) sfx hds hsfx
  simp only [List.cons_append] at htw
  simp only [strtol, List.cons_append, List.dropWhile_cons, hd.1, Bool.false_eq_true,
    if_false, deref_cons, hd.2.1, hd.2.2, or_self, htw.1, htw.2, reduceCtorEq]

/-- The library function on a numeral with a minus sign. -/
theorem strtol_neg_digits (ds sfx : cstr) (hds : ∀ c ∈ ds, isdigit c = true) (hne : ds ≠ [])
    (hsfx : isdigit (deref sfx) = false) :
    strtol ('-' :: (ds ++ sfx)) =
      if -(digits_value ds : Int) < LONG_MIN then ⟨LONG_MIN, sfx, ERANGE⟩
      else ⟨-(digits_value ds : Int), sfx, 0⟩ := by
  have htw := takeWhile_digits ds sfx hds hsfx
  have hsp : isspace '-' = false := by decide
  simp only [strtol, List.dropWhile_cons, hsp, Bool.false_eq_true, if_false, deref_cons,
    true_or, if_true, List.drop_succ_cons, List.drop_zero, htw.1, htw.2, hne]

/-- The library function on the decimal digits of a `long`, followed by text that does not
start with a digit. -/
theorem strtol_decimal (n : Int) (sfx : cstr) (hsfx : isdigit (deref sfx) = false)
    (hlo : LONG_MIN ≤ n) (hhi : n ≤ LONG_MAX) :
    strtol (decimal n ++ sfx) = ⟨n, sfx, 0⟩ := by
  cases n with
  | ofNat m =>
    simp only [decimal]
    rw [strtol_digits _ sfx (toDigits_isdigit m) (toDigits_ne_nil m) hsfx, toDigits_value]
    have : ¬ LONG_MAX < (m : Int) := by
      have : (Int.ofNat m) = (m : Int) := rfl
      omega
    simp only [this, if_false]
    rfl
  | negSucc m =>
    simp only [decimal, List.cons_append]
    rw [strtol_neg_digits _ sfx (toDigits_isdigit _) (toDigits_ne_nil _) hsfx, toDigits_value]
    have h1 : Int.negSucc m = -((m + 1 : Nat) : Int) := rfl
    have : ¬ -((m + 1 : Nat) : Int) < LONG_MIN := by omega
    simp only [this, if_false, h1]

/-! ## C6: suffixes of `str_to_long` -/

theorem long_mul_fit (a : Int) (hlo : -9223372036854775808 ≤ a * 1024)
    (hhi : a * 1024 ≤ 9223372036854775807) : long_mul a 1024 = a * 1024 := by
  unfold long_mul
  omega

theorem str_to_long_plain (s e : cstr) (v : Int) (h : strtol s = ⟨v, e, 0⟩)
    (hc : deref e ∉ ['g', 'G', 'm', 'M', 'k', 'K']) : str_to_long s = Outcome.ret v [] := by
  simp only [List.mem_cons, List.mem_singleton, List.not_mem_nil, or_false, not_or] at hc
  simp [str_to_long, h, hc]

theorem str_to_long_kilo (s e : cstr) (v : Int) (h : strtol s = ⟨v, e, 0⟩)
    (hc : deref e = 'k' ∨ deref e = 'K') :
    str_to_long s = Outcome.ret (long_mul v 1024) [] := by
  rcases hc with hc | hc <;> simp [str_to_long, h, hc]

theorem str_to_long_mega (s e : cstr) (v : Int) (h : strtol s = ⟨v, e, 0⟩)
    (hc : deref e = 'm' ∨ deref e = 'M') :
    str_to_long s = Outcome.ret (long_mul (long_mul v 1024) 1024) [] := by
  rcases hc with hc | hc <;> simp [str_to_long, h, hc]

theorem str_to_long_giga (s e : cstr) (v : Int) (h : strtol s = ⟨v, e, 0⟩)
    (hc : deref e = 'g' ∨ deref e = 'G') :
    str_to_long s =
      Outcome.ret (long_mul (long_mul (long_mul v 1024) 1024) 1024) [] := by
  rcases hc with hc | hc <;> simp [str_to_long, h, hc]

theorem str_to_long_scaled (n : Int) (sfx : cstr) :
    (sfx = [] → LONG_MIN ≤ n → n ≤ LONG_MAX →
      str_to_long (decimal n ++ sfx) = Outcome.ret n []) ∧
    (sfx = ['k'] ∨ sfx = ['K'] → LONG_MIN ≤ n * 1024 → n * 1024 ≤ LONG_MAX →
      str_to_long (decimal n ++ sfx) = Outcome.ret (n * 1024) []) ∧
    (sfx = ['m'] ∨ sfx = ['M'] → LONG_MIN ≤ n * 1024 ^ 2 → n * 1024 ^ 2 ≤ LONG_MAX →
      str_to_long (decimal n ++ sfx) = Outcome.ret (n * 1024 ^ 2) []) ∧
    (sfx = ['g'] ∨ sfx = ['G'] → LONG_MIN ≤ n * 1024 ^ 3 → n * 1024 ^ 3 ≤ LONG_MAX →
      str_to_long (decimal n ++ sfx) = Outcome.ret (n * 1024 ^ 3) []) := by
  unfold LONG_MIN LONG_MAX
  refine ⟨?_, ?_, ?_, ?_⟩
  · rintro rfl hlo hhi
    exact str_to_long_plain _ [] n (strtol_decimal n [] (by decide) hlo hhi) (by decide)
  · intro hs hlo hhi
    have hd : isdigit (deref sfx) = false := by rcases hs with rfl | rfl <;> decide
    have hc : deref sfx = 'k' ∨ deref sfx = 'K' := by rcases hs with rfl | rfl <;> decide
    rw [str_to_long_kilo _ sfx n
      (strtol_decimal n sfx hd (by unfold LONG_MIN; omega) (by unfold LONG_MAX; omega)) hc,
      long_mul_fit n (by omega) (by omega)]
  · intro hs hlo hhi
    have hd : isdigit (deref sfx) = false := by rcases hs with rfl | rfl <;> decide
    have hc : deref sfx = 'm' ∨ deref sfx = 'M' := by rcases hs with rfl | rfl <;> decide
    rw [str_to_long_mega _ sfx n
      (strtol_decimal n sfx hd (by unfold LONG_MIN; omega) (by unfold LONG_MAX; omega)) hc,
      long_mul_fit n (by omega) (by omega), long_mul_fit (n * 1024) (by omega) (by omega)]
    congr 1
    ring
  · intro hs hlo hhi
    have hd : isdigit (deref sfx) = false := by rcases hs with rfl | rfl <;> decide
    have hc : deref sfx = 'g' ∨ deref sfx = 'G' := by rcases hs with rfl | rfl <;> decide
    rw [str_to_long_giga _ sfx n
      (strtol_decimal n sfx hd (by unfold LONG_MIN; omega) (by unfold LONG_MAX; omega)) hc,
      long_mul_fit n (by omega) (by omega), long_mul_fit (n * 1024) (by omega) (by omega),
      long_mul_fit (n * 1024 * 1024) (by omega) (by omega)]
    congr 1
    ring

/-- C6: for a decimal integer `n` and a suffix (none, `k`/`K`, `m`/`M`, `g`/`G`, standing
for the power 0, 1, 2, 3 of 1024) such that the scaled value fits in a `long`,
`str_to_long` returns `n * 1024 ^ k`; in particular `1k`, `2M` and `3G` give 1024,
2097152 and 3221225472. -/
theorem str_to_long_suffix (n : Int) (sfx : cstr) (k : Nat) (hs : (sfx, k) ∈ suffixes)
    (hlo : LONG_MIN ≤ n * 1024 ^ k) (hhi : n * 1024 ^ k ≤ LONG_MAX) :
    str_to_long (decimal n ++ sfx) = Outcome.ret (n * 1024 ^ k) [] ∧
      str_to_long "1k".toList = Outcome.ret 1024 [] ∧
      str_to_long "2M".toList = Outcome.ret 2097152 [] ∧
      str_to_long "3G".toList = Outcome.ret 3221225472 [] := by
  refine ⟨?_, by decide, by decide, by decide⟩
  simp only [suffixes, List.mem_cons, Prod.mk.injEq, List.mem_singleton, List.not_mem_nil,
    or_false] at hs
  obtain ⟨h0, h1, h2, h3⟩ := str_to_long_scaled n sfx
  rcases hs with ⟨hs, rfl⟩ | ⟨hs, rfl⟩ | ⟨hs, rfl⟩ | ⟨hs, rfl⟩ | ⟨hs, rfl⟩ | ⟨hs, rfl⟩ |
      ⟨hs, rfl⟩
  · simpa using h0 hs (by simpa using hlo) (by simpa using hhi)
  · simpa using h1 (Or.inl hs) (by simpa using hlo) (by simpa using hhi)
  · simpa using h1 (Or.inr hs) (by simpa using hlo) (by simpa using hhi)
  · exact h2 (Or.inl hs) hlo hhi
  · exact h2 (Or.inr hs) hlo hhi
  · exact h3 (Or.inl hs) hlo hhi
  · exact h3 (Or.inr hs) hlo hhi

/-- C6 at `-3G`: the value is `-3 * 1024 ^ 3`. -/
theorem str_to_long_suffix_witness :
    str_to_long (decimal (-3) ++ ['G']) = Outcome.ret (-3 * 1024 ^ 3) [] ∧
      str_to_long "1k".toList = Outcome.ret 1024 [] ∧
      str_to_long "2M".toList = Outcome.ret 2097152 [] ∧
      str_to_long "3G".toList = Outcome.ret 3221225472 [] :=
  str_to_long_suffix (-3) ['G'] 3 (by decide) (by decide) (by decide)

/-! ## C7: malformed numbers -/

/-- C7 (code): `str_to_long` ends the program only when `strtol` reports a range error;
text without a number gives 0, text after the number or after the suffix is ignored, so an
rlimit option with such a value is recorded instead of being fatal. -/
theorem str_to_long_malformed :
    str_to_long "abc".toList = Outcome.ret 0 [] ∧
    str_to_long [] = Outcome.ret 0 [] ∧
    str_to_long "12x".toList = Outcome.ret 12 [] ∧
    str_to_long "1kb".toList = Outcome.ret 1024 [] ∧
    str_to_long "99999999999999999999".toList =
      fatal "strol 99999999999999999999".toList ∧
    options_parse ["boxer".toList, "--rlimit.AS=abc".toList] =
      Outcome.ret { rlimit := [⟨"AS".toList, 0, 0⟩] }
        [⟨LOG_DEBUG, "rlimit name=\x27AS\x27 value=\x27abc\x27".toList⟩] := by
  refine ⟨?_, ?_, ?_, ?_, ?_, ?_⟩ <;> decide

/-! ## C5: rlimit options -/

theorem options_find_rlimit (R : cstr) :
    options_find options ("rlimit.".toList ++ R) = (OPTION_RLIMIT, R) := rfl

namespace Run

@[simp] theorem pure_bind {α β : Type} (a : α) (f : α → Run β) : (pure a).bind f = f a := rfl

@[simp] theorem call_bind {α β : Type} (e : Event) (a : α) (f : α → Run β) :
    (call e a).bind f = ⟨e :: (f a).events, (f a).ending⟩ := rfl

theorem bind_returned {α β : Type} (ev : List Event) (a : α) (f : α → Run β) :
    (⟨ev, Ending.returned a⟩ : Run α).bind f = ⟨ev ++ (f a).events, (f a).ending⟩ := rfl

theorem bind_of_returned {α β : Type} (x : Run α) (a : α) (f : α → Run β)
    (h : x.ending = Ending.returned a) :
    x.bind f = ⟨x.events ++ (f a).events, (f a).ending⟩ := by
  simp only [bind, h]

theorem bind_of_exited {α β : Type} (x : Run α) (s : Int) (f : α → Run β)
    (h : x.ending = Ending.exited s) : x.bind f = ⟨x.events, Ending.exited s⟩ := by
  simp only [bind, h]

end Run

@[simp] theorem kills_nil : kills [] = [] := rfl

@[simp] theorem kills_append (a b : List Event) : kills (a ++ b) = kills a ++ kills b := by
  simp [kills, List.filterMap_append]

@[simp] theorem passes_nil : passes [] = 0 := rfl

@[simp] theorem passes_append (a b : List Event) : passes (a ++ b) = passes a + passes b := by
  simp [passes, List.countP_append]

@[simp] theorem restores_nil : restores [] = [] := rfl

@[simp] theorem restores_append (a b : List Event) :
    restores (a ++ b) = restores a ++ restores b := by
  simp [restores, List.filterMap_append]

/-! ## C10: the teardown loop -/

theorem pass_targets_cons_self (self : Int) (num : Nat) (nums : List Nat)
    (h : to_pid_t num = self) : pass_targets self (num :: nums) = pass_targets self nums := by
  simp [pass_targets, h]

theorem pass_targets_cons_other (self : Int) (num : Nat) (nums : List Nat)
    (h : to_pid_t num ≠ self) :
    pass_targets self (num :: nums) = (to_pid_t num, SIGKILL) :: pass_targets self nums := by
  simp [pass_targets, h]

theorem kills_cons (e : Event) (l : List Event) : kills (e :: l) = kills [e] ++ kills l :=
  kills_append [e] l

theorem passes_cons (e : Event) (l : List Event) : passes (e :: l) = passes [e] + passes l :=
  passes_append [e] l

theorem restores_cons (e : Event) (l : List Event) :
    restores (e :: l) = restores [e] ++ restores l :=
  restores_append [e] l

/-- The warning after a failed `kill` changes `errno` only. -/
theorem kill_warning_spec (cond : Prop) [Decidable cond] (m : supervisor) :
    ∃ (ev : List Event) (m1 : supervisor),
      (if cond then sup_warning "kill".toList m else Run.pure m) =
          ⟨ev, Ending.returned m1⟩ ∧
        kills ev = [] ∧ passes ev = 0 ∧ restores ev = [] ∧ m1.pid = m.pid ∧ m1.id = m.id ∧
        m1.console = m.console ∧ m1.fd = m.fd := by
  by_cases h : cond
  · exact ⟨[Event.print ⟨LOG_WARNING, "kill".toList⟩], { m with errno := 0 },
      by rw [if_pos h]; rfl, rfl, rfl, rfl, rfl, rfl, rfl, rfl⟩
  · exact ⟨[], m, by rw [if_neg h]; rfl, rfl, rfl, rfl, rfl, rfl, rfl, rfl⟩

theorem container_kill_scan_cons (self : Int) (kill_ret : Int → Int) (num : Nat)
    (nums : List Nat) (m : supervisor) (h : to_pid_t num ≠ self) :
    container_kill_scan self kill_ret (num :: nums) m =
      (Run.call (Event.kill (to_pid_t num) SIGKILL) m).bind fun m =>
      (if kill_ret (to_pid_t num) ≠ 0 then sup_warning "kill".toList m
        else Run.pure m).bind fun m =>
      (container_kill_scan self kill_ret nums m).bind fun r => Run.pure (r.1 + 1, r.2) := by
  rw [container_kill_scan]
  simp only [h, if_false]

/-- One pass signals exactly the listed processes other than the caller, and makes no other
call than `kill` and the warning. -/
theorem container_kill_scan_spec (self : Int) (kill_ret : Int → Int) (nums : List Nat) :
    ∀ m : supervisor, ∃ (ev : List Event) (m1 : supervisor),
      container_kill_scan self kill_ret nums m =
          ⟨ev, Ending.returned ((pass_targets self nums).length, m1)⟩ ∧
        kills ev = pass_targets self nums ∧ passes ev = 0 ∧ restores ev = [] ∧
        m1.pid = m.pid ∧ m1.id = m.id ∧ m1.console = m.console ∧ m1.fd = m.fd := by
  induction nums with
  | nil => intro m; exact ⟨[], m, rfl, rfl, rfl, rfl, rfl, rfl, rfl, rfl⟩
  | cons num nums ih =>
    intro m
    by_cases hself : to_pid_t num = self
    · obtain ⟨ev, m1, h1, h2, h3, h4, h5⟩ := ih m
      refine ⟨ev, m1, ?_, ?_, h3, h4, h5⟩
      · rw [container_kill_scan]
        simp only [hself, if_true, pass_targets_cons_self _ _ _ hself, h1]
      · rw [pass_targets_cons_self _ _ _ hself, h2]
    · obtain ⟨wev, m0, hw, hw1, hw2, hw3, hw4, hw5, hw6, hw7⟩ :=
        kill_warning_spec (kill_ret (to_pid_t num) ≠ 0) m
      obtain ⟨ev, m1, h1, h2, h3, h4, h5, h6, h7, h8⟩ := ih m0
      refine ⟨Event.kill (to_pid_t num) SIGKILL :: (wev ++ (ev ++ [])), m1, ?_, ?_, ?_, ?_,
        by rw [h5, hw4], by rw [h6, hw5], by rw [h7, hw6], by rw [h8, hw7]⟩
      · rw [container_kill_scan_cons _ _ _ _ _ hself, Run.call_bind, hw, Run.bind_returned,
          h1, Run.bind_returned, pass_targets_cons_other _ _ _ hself]
        rfl
      · rw [kills_cons, kills_append, kills_append, hw1, h2,
          pass_targets_cons_other _ _ _ hself]
        simp [kills]
      · rw [passes_cons, passes_append, passes_append, hw2, h3]
        rfl
      · rw [restores_cons, restores_append, restores_append, hw3, h4]
        rfl

theorem flatten_range_succ {α : Type} (g : Nat → List α) (n : Nat) :
    ((List.range (n + 1)).map g).flatten =
      g 0 ++ ((List.range n).map fun j => g (j + 1)).flatten := by
  rw [List.range_succ_eq_map, List.map_cons, List.flatten_cons, List.map_map]
  rfl

theorem container_kill_loop_step (env : kill_env) (fuel pass : Nat) (m : supervisor)
    (nums : List Nat) (h : env.tasks pass = tasks_read.listing nums true) :
    container_kill_loop env (fuel + 1) pass m =
      (Run.call (Event.fopen (tasks_path m.id)) m).bind fun m =>
      (container_kill_scan m.pid (env.kill_ret pass) nums m).bind fun r =>
      (Run.call Event.fclose r.2).bind fun m =>
        if r.1 = 0 then Run.pure m
        else
          (Run.call (Event.usleep (100 * USLEEP_MILLISECONDS)) m).bind fun m =>
            container_kill_loop env fuel (pass + 1) m := by
  rw [container_kill_loop]
  simp only [h, not_true_eq_false, if_false]

theorem pass_targets_eq_nil (self : Int) (nums : List Nat) :
    pass_targets self nums = [] ↔ ∀ n ∈ nums, to_pid_t n = self := by
  simp [pass_targets, List.filter_eq_nil_iff]

/-- The kill loop, started at pass `p`, when the passes `p .. p + d - 1` each list a
process other than the caller and pass `p + d` lists none. -/
theorem container_kill_loop_spec (env : kill_env) (nums : Nat → List Nat) :
    ∀ (d fuel p : Nat) (m : supervisor), d < fuel →
      (∀ j ≤ d, env.tasks (p + j) = tasks_read.listing (nums (p + j)) true) →
      (∀ j < d, pass_targets m.pid (nums (p + j)) ≠ []) →
      pass_targets m.pid (nums (p + d)) = [] →
      ∃ (ev : List Event) (m1 : supervisor),
        container_kill_loop env fuel p m = ⟨ev, Ending.returned m1⟩ ∧
          kills ev =
            ((List.range (d + 1)).map fun j => pass_targets m.pid (nums (p + j))).flatten ∧
          passes ev = d + 1 ∧ restores ev = [] ∧ m1.pid = m.pid ∧ m1.id = m.id ∧
          m1.console = m.console ∧ m1.fd = m.fd := by
  intro d
  induction d with
  | zero =>
    intro fuel p m hfuel hfile _ hquiet
    obtain ⟨f, rfl⟩ : ∃ f, fuel = f + 1 := ⟨fuel - 1, by omega⟩
    obtain ⟨ev, m1, h1, h2, h3, h4, h5, h6, h7, h8⟩ :=
      container_kill_scan_spec m.pid (env.kill_ret p) (nums p) m
    have hq : pass_targets m.pid (nums p) = [] := by simpa using hquiet
    rw [hq] at h1 h2
    refine ⟨Event.fopen (tasks_path m.id) :: (ev ++ [Event.fclose]), m1, ?_, ?_, ?_, ?_,
      h5, h6, h7, h8⟩
    · rw [container_kill_loop_step env f p m (nums p) (by simpa using hfile 0 (le_refl 0)),
        Run.call_bind, h1, Run.bind_returned, Run.call_bind]
      rfl
    · rw [show Event.fopen (tasks_path m.id) :: (ev ++ [Event.fclose]) =
        [Event.fopen (tasks_path m.id)] ++ ev ++ [Event.fclose] by simp,
        kills_append, kills_append, h2]
      simp [hq, kills]
    · rw [show Event.fopen (tasks_path m.id) :: (ev ++ [Event.fclose]) =
        [Event.fopen (tasks_path m.id)] ++ ev ++ [Event.fclose] by simp,
        passes_append, passes_append, h3]
      rfl
    · rw [show Event.fopen (tasks_path m.id) :: (ev ++ [Event.fclose]) =
        [Event.fopen (tasks_path m.id)] ++ ev ++ [Event.fclose] by simp,
        restores_append, restores_append, h4]
      rfl
  | succ d ih =>
    intro fuel p m hfuel hfile hbusy hquiet
    obtain ⟨f, rfl⟩ : ∃ f, fuel = f + 1 := ⟨fuel - 1, by omega⟩
    obtain ⟨ev, m1, h1, h2, h3, h4, h5, h6, h7, h8⟩ :=
      container_kill_scan_spec m.pid (env.kill_ret p) (nums p) m
    have hb : (pass_targets m.pid (nums p)).length ≠ 0 := by
      have := hbusy 0 (by omega)
      simpa using this
    obtain ⟨ev2, m2, g1, g2, g3, g4, g5, g6, g7, g8⟩ :=
      ih f (p + 1) m1 (by omega)
        (fun j hj => by
          have := hfile (j + 1) (by omega)
          rwa [show p + (j + 1) = p + 1 + j by omega] at this)
        (fun j hj => by
          have := hbusy (j + 1) (by omega)
          rwa [show p + (j + 1) = p + 1 + j by omega, ← h5] at this)
        (by rwa [show p + (d + 1) = p + 1 + d by omega, ← h5] at hquiet)
    refine ⟨Event.fopen (tasks_path m.id) :: (ev ++ (Event.fclose ::
        Event.usleep (100 * USLEEP_MILLISECONDS) :: ev2)), m2, ?_, ?_, ?_, ?_,
      by rw [g5, h5], by rw [g6, h6], by rw [g7, h7], by rw [g8, h8]⟩
    · rw [container_kill_loop_step env f p m (nums p) (by simpa using hfile 0 (by omega)),
        Run.call_bind, h1, Run.bind_returned, Run.call_bind]
      simp only [hb, if_false, Run.call_bind, g1]
    all_goals
      rw [show Event.fopen (tasks_path m.id) :: (ev ++ (Event.fclose ::
          Event.usleep (100 * USLEEP_MILLISECONDS) :: ev2)) =
        [Event.fopen (tasks_path m.id)] ++ ev ++
          [Event.fclose, Event.usleep (100 * USLEEP_MILLISECONDS)] ++ ev2 by simp]
    · have g2b : kills ev2 =
          ((List.range (d + 1)).map fun j =>
            pass_targets m.pid (nums (p + (j + 1)))).flatten := by
        rw [g2, h5]
        congr 2
        funext j
        rw [show p + (j + 1) = p + 1 + j by omega]
      rw [kills_append, kills_append, kills_append, h2, g2b,
        flatten_range_succ (fun j => pass_targets m.pid (nums (p + j))) (d + 1)]
      simp [kills]
    · rw [passes_append, passes_append, passes_append, h3, g3]
      simp [passes]
      omega
    · rw [restores_append, restores_append, restores_append, h4, g4]
      rfl

theorem Run.bind_events_all {α β : Type} (P : Event → Prop) (x : Run α) (f : α → Run β)
    (hx : ∀ e ∈ x.events, P e)
    (hf : ∀ a, x.ending = Ending.returned a → ∀ e ∈ (f a).events, P e) :
    ∀ e ∈ (x.bind f).events, P e := by
  intro e he
  cases hxe : x.ending with
  | returned a =>
    rw [Run.bind_of_returned x a f hxe] at he
    simp only [List.mem_append] at he
    rcases he with he | he
    · exact hx e he
    · exact hf a hxe e he
  | exited s =>
    rw [Run.bind_of_exited x s f hxe] at he
    exact hx e he
  | looping =>
    have : x.bind f = ⟨x.events, Ending.looping⟩ := by simp only [Run.bind, hxe]
    rw [this] at he
    exact hx e he

theorem mem_kills (p : Int) (s : Nat) (ev : List Event) :
    Event.kill p s ∈ ev ↔ (p, s) ∈ kills ev := by
  simp only [kills, List.mem_filterMap]
  constructor
  · intro h
    exact ⟨Event.kill p s, h, rfl⟩
  · rintro ⟨e, he, h⟩
    cases e <;> simp at h
    obtain ⟨rfl, rfl⟩ := h
    exact he

theorem pass_targets_ne_self (self p : Int) (s : Nat) (nums : List Nat)
    (h : (p, s) ∈ pass_targets self nums) : p ≠ self := by
  simp only [pass_targets, List.mem_map, List.mem_filter, decide_eq_true_eq,
    Prod.mk.injEq] at h
  obtain ⟨q, ⟨_, hq⟩, rfl, _⟩ := h
  exact hq

theorem container_kill_scan_never_self (self : Int) (kill_ret : Int → Int) (nums : List Nat)
    (m : supervisor) (sig : Nat) :
    Event.kill self sig ∉ (container_kill_scan self kill_ret nums m).events := by
  obtain ⟨ev, m1, h1, h2, _⟩ := container_kill_scan_spec self kill_ret nums m
  rw [h1, mem_kills, h2]
  intro h
  exact pass_targets_ne_self self self sig nums h rfl

theorem sup_fatal_events {α : Type} (text : cstr) (e : Event)
    (h : e ∈ (sup_fatal text : Run α).events) :
    e = Event.print ⟨LOG_ERROR, text⟩ ∨ e = Event.exit EXIT_FAILURE := by
  simpa [sup_fatal] using h

/-- Whatever the tasks file holds, the kill loop never signals the caller. -/
theorem container_kill_loop_never_self (env : kill_env) (sig : Nat) :
    ∀ (fuel pass : Nat) (m : supervisor),
      ∀ e ∈ (container_kill_loop env fuel pass m).events, e ≠ Event.kill m.pid sig := by
  intro fuel
  induction fuel with
  | zero => intro pass m e he; simp [container_kill_loop] at he
  | succ f ih =>
    intro pass m
    rw [container_kill_loop]
    apply Run.bind_events_all
    · intro e he
      simp only [Run.call, List.mem_singleton] at he
      rw [he]
      simp
    · intro a ha
      simp only [Run.call, Ending.returned.injEq] at ha
      subst ha
      cases htasks : env.tasks pass with
      | unreadable =>
        intro e he
        rcases sup_fatal_events _ e he with h | h <;> rw [h] <;> simp
      | listing nums at_eof =>
        simp only []
        obtain ⟨ev, m1, h1, h2, h3, h4, h5, _⟩ :=
          container_kill_scan_spec m.pid (env.kill_ret pass) nums m
        apply Run.bind_events_all
        · intro e he hk
          rw [hk] at he
          exact container_kill_scan_never_self m.pid _ nums m sig he
        · intro r hr
          rw [h1] at hr
          simp only [Ending.returned.injEq] at hr
          subst hr
          by_cases heof : at_eof = true
          · simp only [heof, not_true_eq_false, if_false]
            apply Run.bind_events_all
            · intro e he
              simp only [Run.call, List.mem_singleton] at he
              rw [he]
              simp
            · intro a ha
              simp only [Run.call, Ending.returned.injEq] at ha
              subst ha
              split_ifs
              · intro e he
                simp [Run.pure] at he
              · apply Run.bind_events_all
                · intro e he
                  simp only [Run.call, List.mem_singleton] at he
                  rw [he]
                  simp
                · intro a ha
                  simp only [Run.call, Ending.returned.injEq] at ha
                  subst ha
                  intro e he
                  rw [← h5]
                  exact ih (pass + 1) _ e he
          · simp only [heof, not_false_eq_true, if_true]
            intro e he
            rcases sup_fatal_events _ e he with h | h <;> rw [h] <;> simp

/-- Whatever the tasks file holds, `container_kill` never signals the caller. -/
theorem container_kill_never_self (env : kill_env) (fuel : Nat) (m : supervisor) (sig : Nat) :
    Event.kill m.pid sig ∉ (container_kill env fuel m).events := by
  intro h
  have := Run.bind_events_all (fun e => e ≠ Event.kill m.pid sig)
    (container_kill_loop env fuel 0 m)
    (fun m => ⟨List.replicate (env.reaped + 1) Event.waitpid,
      Ending.returned { m with errno := env.errno_after }⟩)
    (container_kill_loop_never_self env sig fuel 0 m)
    (fun a _ e he => by
      simp only [List.mem_replicate] at he
      rw [he.2]
      simp)
  exact this _ h rfl

theorem to_pid_t_small (n : Nat) (h : n < 2 ^ 31) : to_pid_t n = n := by
  unfold to_pid_t
  omega

/-- C10: let the tasks file be readable to its end in the passes `0 .. k`, let each pass
before `k` list a process other than the caller and pass `k` list none. Then
`container_kill` returns after exactly `k + 1` passes; in each pass it sends SIGKILL once
to every listed process other than the caller, in order, and to no other process; and
whatever the tasks file holds, it never signals the caller itself. -/
theorem container_kill_teardown (env : kill_env) (m : supervisor) (nums : Nat → List Nat)
    (k fuel : Nat)
    (hfile : ∀ j ≤ k, env.tasks j = tasks_read.listing (nums j) true)
    (hbusy : ∀ j < k, ∃ n ∈ nums j, to_pid_t n ≠ m.pid)
    (hquiet : ∀ n ∈ nums k, to_pid_t n = m.pid)
    (hfuel : k < fuel) :
    (∃ m1, (container_kill env fuel m).ending = Ending.returned m1) ∧
      kills (container_kill env fuel m).events =
        ((List.range k).map fun j => pass_targets m.pid (nums j)).flatten ∧
      passes (container_kill env fuel m).events = k + 1 ∧
      (∀ (env2 : kill_env) (fuel2 : Nat) (sig : Nat),
        Event.kill m.pid sig ∉ (container_kill env2 fuel2 m).events) ∧
      (∀ n : Nat, n < 2 ^ 31 → to_pid_t n = n) := by
  obtain ⟨ev, m1, h1, h2, h3, _⟩ :=
    container_kill_loop_spec env nums k fuel 0 m hfuel
      (fun j hj => by simpa using hfile j hj)
      (fun j hj => by
        obtain ⟨n, hn, hne⟩ := hbusy j hj
        intro hnil
        rw [Nat.zero_add] at hnil
        exact hne ((pass_targets_eq_nil m.pid (nums j)).mp hnil n hn))
      (by
        rw [Nat.zero_add]
        exact (pass_targets_eq_nil m.pid (nums k)).mpr hquiet)
  have hq : pass_targets m.pid (nums k) = [] :=
    (pass_targets_eq_nil m.pid (nums k)).mpr hquiet
  have hrun : container_kill env fuel m =
      ⟨ev ++ List.replicate (env.reaped + 1) Event.waitpid,
        Ending.returned { m1 with errno := env.errno_after }⟩ := by
    rw [container_kill, h1, Run.bind_returned]
  refine ⟨⟨_, by rw [hrun]⟩, ?_, ?_, fun env2 fuel2 sig =>
    container_kill_never_self env2 fuel2 m sig, to_pid_t_small⟩
  · rw [hrun, kills_append, h2, List.range_succ, List.map_append, List.flatten_append]
    have hw : kills (List.replicate (env.reaped + 1) Event.waitpid) = [] := by
      simp [kills, List.filterMap_replicate]
    simp [hw, hq]
  · rw [hrun, passes_append, h3]
    have hw : passes (List.replicate (env.reaped + 1) Event.waitpid) = 0 := by
      simp [passes, List.countP_replicate]
    rw [hw]

/-- C10 for the supervisor 100 and a tasks file that lists 100, 101, 102 and then only
100: two passes, SIGKILL to 101 and 102 in the first. -/
theorem container_kill_teardown_witness :
    (∃ m1, (container_kill kill_env_example 2 supervisor_example).ending =
        Ending.returned m1) ∧
      kills (container_kill kill_env_example 2 supervisor_example).events =
        ((List.range 1).map fun j =>
          pass_targets supervisor_example.pid (tasks_example j)).flatten ∧
      passes (container_kill kill_env_example 2 supervisor_example).events = 1 + 1 ∧
      (∀ (env2 : kill_env) (fuel2 : Nat) (sig : Nat),
        Event.kill supervisor_example.pid sig ∉
          (container_kill env2 fuel2 supervisor_example).events) ∧
      (∀ n : Nat, n < 2 ^ 31 → to_pid_t n = n) :=
  container_kill_teardown kill_env_example supervisor_example tasks_example 1 2
    (fun j _ => rfl)
    (fun j hj => by
      have hj0 : j = 0 := by omega
      subst hj0
      exact ⟨101, by decide, by decide⟩)
    (by decide) (by decide)

/-- C9 (code): after `console_setup_master` has saved the attributes `a` of host stdin and
`b` of host stdout, the fatal exits end the process without any `tcsetattr`: a failing
`epoll_wait` in `boxer_run`, a short read of the signal record in `boxer_signal`, a tasks
file that `container_kill` cannot open, and a failing `epoll_ctl` of `boxer_fd_unpoll` in
the last pump of `console_restore`. The exit driven by a signal does restore both. -/
theorem fatal_exit_skips_restore (m : supervisor) (a b : termios) :
    (∀ (env : run_env) (kfuel fuel : Nat), env.sigprocmask = 0 → env.signalfd ≠ -1 →
        0 ≤ env.epoll_create1 → (∀ fd, env.epoll_add fd = 0) → (env.wakeups 0).n = -1 →
      (boxer_run env kfuel (fuel + 1) (console_saved a b m)).ending =
          Ending.exited EXIT_FAILURE ∧
        restores (boxer_run env kfuel (fuel + 1) (console_saved a b m)).events = []) ∧
    (∀ (env : signal_env) (fuel : Nat), env.ret ≠ sizeof_signalfd_siginfo →
      (boxer_signal env fuel (console_saved a b m)).ending = Ending.exited EXIT_FAILURE ∧
        restores (boxer_signal env fuel (console_saved a b m)).events = []) ∧
    (∀ (env : signal_env) (fuel : Nat), env.ret = sizeof_signalfd_siginfo →
        env.sig.ssi_signo = SIGCHLD → env.kill.tasks 0 = tasks_read.unreadable →
      (boxer_signal env (fuel + 1) (console_saved a b m)).ending =
          Ending.exited EXIT_FAILURE ∧
        restores (boxer_signal env (fuel + 1) (console_saved a b m)).events = []) ∧
    (∀ (env : restore_env), env.pump.rd.ret < 0 → env.pump.rd.errno ≠ EAGAIN →
        env.pump.rd.errno ≠ EINTR → env.pump.epoll_del ≠ 0 →
      (console_restore env (console_saved a b m)).ending = Ending.exited EXIT_FAILURE ∧
        restores (console_restore env (console_saved a b m)).events = []) ∧
    restores (console_restore {} (console_saved a b m)).events =
      [(m.console.stdout, b), (m.console.stdin, a)] := by
  refine ⟨?_, ?_, ?_, ?_, ?_⟩
  · intro env kfuel fuel h1 h2 h3 h4 h5
    have h3b : ¬ env.epoll_create1 < 0 := by omega
    simp [boxer_run, boxer_fd_poll, boxer_run_loop, sup_fatal, Run.bind, Run.call, Run.pure,
      restores, h1, h2, h3b, h4, h5]
  · intro env fuel h1
    simp [boxer_signal, sup_fatal, Run.bind, Run.call, restores, h1]
  · intro env fuel h1 h2 h3
    have hw : ¬ SIGCHLD = SIGWINCH := by decide
    simp [boxer_signal, container_kill, container_kill_loop, sup_fatal, Run.bind, Run.call,
      restores, h1, h2, h3, hw]
  · intro env h4 h2 h3 h5
    have h1 : env.pump.rd.ret ≤ 0 := by omega
    simp [console_restore, console_buffer_pipe, boxer_fd_unpoll, sup_fatal, Run.bind,
      Run.call, Run.pure, restores, h1, h2, h3, h4, h5, console_saved]
  · by_cases hlen : 0 < m.console.out.data.length
    · simp [console_restore, console_buffer_pipe, fd_block, Run.bind, Run.call, Run.pure,
        restores, console_saved, console_buffer.len, EAGAIN, EINTR, hlen]
    · simp [console_restore, console_buffer_pipe, fd_block, Run.bind, Run.call, Run.pure,
        restores, console_saved, console_buffer.len, EAGAIN, EINTR, hlen]

/-! ## C14: `path_clean` is idempotent -/

theorem squeeze_true_eq (s : cstr) :
    squeeze true s = squeeze false (s.dropWhile fun x => x = '/') := by
  induction s with
  | nil => rfl
  | cons c r ih =>
    by_cases hc : c = '/'
    · simp [squeeze, hc, List.dropWhile, ih]
    · simp [squeeze, hc, List.dropWhile]

theorem path_clean_loop_eq (fuel : Nat) :
    ∀ s : cstr, s.length ≤ fuel → path_clean_loop fuel s = squeeze false s := by
  induction fuel with
  | zero =>
    intro s hs
    have : s = [] := List.length_eq_zero.mp (by omega)
    subst this
    rfl
  | succ f ih =>
    intro s hs
    cases s with
    | nil => rfl
    | cons c r =>
      simp only [List.length_cons] at hs
      by_cases hc : c = '/'
      · have hlen : (r.dropWhile fun x => x = '/').length ≤ f :=
          le_trans (List.dropWhile_sublist _).length_le (by omega)
        simp only [path_clean_loop, hc, if_true, squeeze, Bool.false_eq_true, if_false,
          ih _ hlen, squeeze_true_eq]
      · simp only [path_clean_loop, hc, if_false, squeeze, ih r (by omega)]

theorem path_clean_eq (path : cstr) :
    path_clean path =
      if (squeeze false path).length > 1 ∧ (squeeze false path).getLast? = some '/' then
        (squeeze false path).dropLast
      else squeeze false path := by
  simp only [path_clean, path_clean_loop_eq path.length path (le_refl _)]

theorem squeeze_single (s : cstr) :
    ∀ b : Bool, single_slashes (squeeze b s) ∧ (b = true → deref (squeeze b s) ≠ '/') := by
  induction s with
  | nil => intro b; exact ⟨List.chain'_nil, fun _ => (by decide : deref [] ≠ '/')⟩
  | cons c r ih =>
    intro b
    by_cases hc : c = '/'
    · cases b with
      | true =>
        have ⟨h1, h2⟩ := ih true
        simp only [squeeze, hc, if_true]
        exact ⟨h1, fun _ => h2 rfl⟩
      | false =>
        simp only [squeeze, hc, if_true, Bool.false_eq_true, if_false]
        refine ⟨?_, fun h => absurd h (by decide)⟩
        have ⟨h1, h2⟩ := ih true
        cases hsq : squeeze true r with
        | nil => exact List.chain'_singleton _
        | cons y ys =>
          rw [hsq] at h1 h2
          refine List.chain'_cons.mpr ⟨?_, h1⟩
          rintro ⟨_, hy⟩
          exact h2 rfl hy
    · simp only [squeeze, hc, if_false]
      refine ⟨?_, fun _ => hc⟩
      have ⟨h1, _⟩ := ih false
      cases hsq : squeeze false r with
      | nil => exact List.chain'_singleton _
      | cons y ys =>
        rw [hsq] at h1
        exact List.chain'_cons.mpr ⟨fun h => hc h.1, h1⟩

theorem squeeze_of_single (s : cstr) (h : single_slashes s) :
    ∀ b : Bool, (b = true → deref s ≠ '/') → squeeze b s = s := by
  induction s with
  | nil => intro b _; rfl
  | cons c r ih =>
    intro b hb
    have hr : single_slashes r := List.Chain'.tail h
    by_cases hc : c = '/'
    · have hbf : b = false := by
        cases b with
        | false => rfl
        | true => exact absurd hc (hb rfl)
      subst hbf
      simp only [squeeze, hc, if_true, Bool.false_eq_true, if_false]
      congr 1
      apply ih hr true
      intro _
      cases r with
      | nil => decide
      | cons y ys =>
        have := (List.chain'_cons.mp h).1
        intro hy
        exact this ⟨hc, hy⟩
    · simp only [squeeze, hc, if_false]
      congr 1
      exact ih hr false (fun h => absurd h (by decide))

theorem single_dropLast (s : cstr) (h : single_slashes s) : single_slashes s.dropLast :=
  List.Chain'.prefix h (List.dropLast_prefix s)

/-- After a trailing slash is removed from text without double slashes, no trailing slash
is left. -/
theorem dropLast_no_slash (s : cstr) (h : single_slashes s)
    (hlast : s.getLast? = some '/') : s.dropLast.getLast? ≠ some '/' := by
  intro hd
  have hne : s ≠ [] := by
    intro h0
    rw [h0] at hlast
    simp at hlast
  have hs : s = s.dropLast ++ ['/'] := by
    have := List.dropLast_append_getLast? '/' (by simpa using hlast)
    exact this.symm
  rw [hs] at h
  have := (List.chain'_append.mp h).2.2 '/' (by simpa using hd) '/' (by simp)
  exact this ⟨rfl, rfl⟩

theorem path_clean_is_clean (path : cstr) : is_clean (path_clean path) := by
  rw [path_clean_eq]
  have hs := (squeeze_single path false).1
  split_ifs with h
  · refine ⟨single_dropLast _ hs, ?_⟩
    rintro ⟨_, hl⟩
    exact dropLast_no_slash _ hs h.2 hl
  · exact ⟨hs, h⟩

theorem path_clean_of_clean (r : cstr) (h : is_clean r) : path_clean r = r := by
  rw [path_clean_eq, squeeze_of_single r h.1 false (fun hb => absurd hb (by decide)),
    if_neg h.2]

/-- C14: `path_clean` is idempotent. -/
theorem path_clean_idempotent (x : cstr) : path_clean (path_clean x) = path_clean x :=
  path_clean_of_clean _ (path_clean_is_clean x)

/-- The function `path_clean` on examples: runs of slashes become one slash, a trailing
slash goes, the text `/` stays. -/
theorem path_clean_examples :
    path_clean "//var///boxer/x//".toList = "/var/boxer/x".toList ∧
    path_clean "/".toList = "/".toList ∧ path_clean "///".toList = "/".toList ∧
    path_clean [] = [] ∧ path_clean "a/../b/".toList = "a/../b".toList := by
  refine ⟨?_, ?_, ?_, ?_, ?_⟩ <;> decide

/-! ## C11: bind-mount targets -/

theorem squeeze_append (x y : cstr) :
    ∀ b : Bool, squeeze b (x ++ y) = squeeze b x ++ squeeze (ends_slash b x) y := by
  induction x with
  | nil => intro b; rfl
  | cons c r ih =>
    intro b
    by_cases hc : c = '/'
    · cases b <;> simp [squeeze, ends_slash, hc, ih]
    · simp [squeeze, ends_slash, hc, ih]

theorem getLast?_cons_eq (c : Char) (S : cstr) :
    (c :: S).getLast? = if S = [] then some c else S.getLast? := by
  cases S with
  | nil => rfl
  | cons y ys => simp [List.getLast?_cons_cons]

theorem ends_slash_iff (x : cstr) :
    ∀ b : Bool, ends_slash b x = true ↔
      (if squeeze b x = [] then b = true else (squeeze b x).getLast? = some '/') := by
  induction x with
  | nil => intro b; simp [ends_slash, squeeze]
  | cons c r ih =>
    intro b
    by_cases hc : c = '/'
    · cases b with
      | true => simpa [ends_slash, squeeze, hc] using ih true
      | false =>
        have := ih true
        simp only [ends_slash, squeeze, hc, decide_True, if_true, Bool.false_eq_true,
          if_false, reduceCtorEq, getLast?_cons_eq]
        rw [this]
        split_ifs <;> simp
    · have := ih false
      simp only [ends_slash, squeeze, hc, decide_False, if_false, reduceCtorEq,
        getLast?_cons_eq]
      rw [this]
      split_ifs <;> simp [hc]

theorem squeeze_ne_nil (s : cstr) (h : ∃ ch ∈ s, ch ≠ '/') :
    ∀ b : Bool, squeeze b s ≠ [] := by
  induction s with
  | nil => obtain ⟨ch, hch, _⟩ := h; simp at hch
  | cons c r ih =>
    intro b
    by_cases hc : c = '/'
    · obtain ⟨ch, hch, hne⟩ := h
      have hr : ∃ ch ∈ r, ch ≠ '/' := by
        simp only [List.mem_cons] at hch
        rcases hch with rfl | hch
        · exact absurd hc hne
        · exact ⟨ch, hch, hne⟩
      cases b <;> simp [squeeze, hc, ih hr]
    · simp [squeeze, hc]

/-- The text `squeeze false (root ++ "/")` is the normalised root with its slash. -/
theorem squeeze_root_slash (root : cstr) :
    squeeze false (root ++ ['/']) =
      (if path_clean root = ['/'] then path_clean root else path_clean root ++ ['/']) := by
  have hs := (squeeze_single root false).1
  have he := ends_slash_iff root false
  rw [squeeze_append, path_clean_eq]
  by_cases hend : ends_slash false root = true
  · have h1 := he.mp hend
    have hne : squeeze false root ≠ [] := by
      intro h0
      rw [h0] at h1
      simp at h1
    rw [if_neg hne] at h1
    have hsplit : squeeze false root = (squeeze false root).dropLast ++ ['/'] :=
      (List.dropLast_append_getLast? '/' (by simpa using h1)).symm
    by_cases hlen : (squeeze false root).length > 1
    · have hd := dropLast_no_slash _ hs h1
      have hd1 : (squeeze false root).dropLast ≠ ['/'] := by
        intro h2
        rw [h2] at hd
        exact hd rfl
      simp only [hend, squeeze, if_true, List.append_nil, hlen, h1, and_self, hd1, if_false]
      exact hsplit
    · have h1len : (squeeze false root).length = 1 := by
        have := List.length_pos.mpr hne
        omega
      have hd0 : (squeeze false root).dropLast = [] := by
        apply List.length_eq_zero.mp
        rw [List.length_dropLast, h1len]
      have hsl : squeeze false root = ['/'] := by
        rw [hsplit, hd0]
        rfl
      simp [hend, squeeze, hsl]
  · have hendf : ends_slash false root = false := by
      cases h : ends_slash false root with
      | true => exact absurd h hend
      | false => rfl
    have h1 : ¬ (squeeze false root).getLast? = some '/' := by
      intro h2
      apply hend
      apply he.mpr
      have hne : squeeze false root ≠ [] := by
        intro h0
        rw [h0] at h2
        simp at h2
      rw [if_neg hne]
      exact h2
    have h3 : squeeze false root ≠ ['/'] := by
      intro h4
      rw [h4] at h1
      exact h1 rfl
    simp [hendf, squeeze, h1, h3]

/-- A target rebased under the root lies strictly under the normalised root, if it names
at least one path component. -/
theorem path_clean_strictly_under (root dst : cstr) (h : ∃ ch ∈ dst, ch ≠ '/') :
    strictly_under (path_clean root) (path_clean (root ++ '/' :: dst)) := by
  have hd_ne := squeeze_ne_nil dst h true
  have hd_hd := (squeeze_single dst true).2 rfl
  have hsq : squeeze false (root ++ '/' :: dst) =
      squeeze false (root ++ ['/']) ++ squeeze true dst := by
    rw [show root ++ '/' :: dst = (root ++ ['/']) ++ dst by simp, squeeze_append]
    congr 1
    have : ends_slash false (root ++ ['/']) = true := by
      have : ∀ (x : cstr) (b : Bool), ends_slash b (x ++ ['/']) = true := by
        intro x
        induction x with
        | nil => intro b; simp [ends_slash]
        | cons c r ih => intro b; simpa [ends_slash] using ih _
      exact this root false
    rw [this]
  have hB := squeeze_root_slash root
  set B := squeeze false (root ++ ['/']) with hBdef
  set d := squeeze true dst with hddef
  have hBlen : (path_clean root).length ≤ B.length := by
    rw [hB]
    split_ifs <;> simp
  have key : ∃ rest : cstr, rest ≠ [] ∧ deref rest ≠ '/' ∧
      path_clean (root ++ '/' :: dst) = B ++ rest := by
    rw [path_clean_eq, hsq]
    split_ifs with hc
    · refine ⟨d.dropLast, ?_, ?_, ?_⟩
      · intro h0
        have hlast : d.getLast? = some '/' := by
          have := hc.2
          rwa [List.getLast?_append_of_ne_nil _ hd_ne] at this
        have hlen : d.length ≤ 1 := by
          have := congrArg List.length h0
          rw [List.length_dropLast] at this
          simp at this
          omega
        cases hd : d with
        | nil => exact hd_ne hd
        | cons y ys =>
          rw [hd] at hlen hlast hd_hd
          have : ys = [] := List.length_eq_zero.mp (by simpa using hlen)
          subst this
          simp at hlast
          exact hd_hd hlast
      · cases hd : d with
        | nil => exact absurd hd hd_ne
        | cons y ys =>
          rw [hd] at hd_hd
          cases ys with
          | nil =>
            have hlast : d.getLast? = some '/' := by
              have := hc.2
              rwa [List.getLast?_append_of_ne_nil _ hd_ne] at this
            rw [hd] at hlast
            simp at hlast
            exact absurd hlast hd_hd
          | cons z zs => simpa using hd_hd
      · exact List.dropLast_append_of_ne_nil _ hd_ne
    · exact ⟨d, hd_ne, hd_hd, rfl⟩
  obtain ⟨rest, hr1, hr2, hr3⟩ := key
  refine ⟨?_, rest, hr1, hr2, ?_⟩
  · intro heq
    have := congrArg List.length heq
    rw [hr3, List.length_append] at this
    have := List.length_pos.mpr hr1
    omega
  · rw [hr3, hB]

theorem options_set_bind_mount_split (src dst : cstr) (ro : Bool) (c : container)
    (h : ':' ∉ src) :
    options_set_bind_mount (some (src ++ ':' :: dst)) ro c =
      Outcome.ret { c with bind := c.bind ++
        [{ source := some src, target := some dst,
           flags := if ro then MS_BIND ||| MS_RDONLY else MS_BIND }] } [] := by
  simp [options_set_bind_mount, str_split_at_first src dst ':' h]

/-- Parsing `--root=ROOT` followed by `--bind=SRC:DST` or `--bind-ro=SRC:DST`. -/
theorem options_parse_root_bind (prog root src dst : cstr) (ro : Bool) (h : ':' ∉ src) :
    options_parse [prog, "--root".toList ++ '=' :: root,
        (if ro then "--bind-ro".toList else "--bind".toList) ++ '=' :: (src ++ ':' :: dst)] =
      Outcome.ret
        { path := { root := some root },
          bind := [{ source := some src, target := some dst,
                     flags := if ro then MS_BIND ||| MS_RDONLY else MS_BIND }] } [] := by
  rw [options_parse_eq_tail,
    parse_tail_joined ("--root".toList ++ '=' :: root) "--root".toList root _ _ rfl
      (str_split_at_first "--root".toList root '=' (by decide)) (by decide)]
  have h1 : option_apply "--root".toList (some root) container_zero =
      Outcome.ret { path := { root := some root } } [] := rfl
  rw [h1, Outcome.bind_ret, Outcome.after_nil]
  cases ro with
  | false =>
    simp only [Bool.false_eq_true, if_false]
    rw [parse_tail_joined ("--bind".toList ++ '=' :: (src ++ ':' :: dst)) "--bind".toList
        (src ++ ':' :: dst) _ _ rfl
        (str_split_at_first "--bind".toList _ '=' (by decide)) (by decide)]
    have h2 : ∀ c, option_apply "--bind".toList (some (src ++ ':' :: dst)) c =
        options_set_bind_mount (some (src ++ ':' :: dst)) false c := fun _ => rfl
    rw [h2, options_set_bind_mount_split src dst false _ h]
    simp [parse_tail_nil]
  | true =>
    simp only [if_true]
    rw [parse_tail_joined ("--bind-ro".toList ++ '=' :: (src ++ ':' :: dst))
        "--bind-ro".toList (src ++ ':' :: dst) _ _ rfl
        (str_split_at_first "--bind-ro".toList _ '=' (by decide)) (by decide)]
    have h2 : ∀ c, option_apply "--bind-ro".toList (some (src ++ ':' :: dst)) c =
        options_set_bind_mount (some (src ++ ':' :: dst)) true c := fun _ => rfl
    rw [h2, options_set_bind_mount_split src dst true _ h]
    simp [parse_tail_nil]

/-- The claim C11 as stated fails: for `--bind=/src:` (an empty DST) the target after
`container_init` is the normalised root itself, which is not strictly under the root. -/
theorem bind_target_counterexample :
    ((options_parse ["boxer".toList, "--root=/r".toList, "--bind=/src:".toList]).bind
        (container_init getpw_example [])).map (fun c => c.bind) =
      Outcome.ret [{ source := some "/src".toList, target := some "/r".toList,
                     flags := MS_BIND }] [] ∧
    path_clean ("/r".toList ++ '/' :: []) = "/r".toList ∧
    path_clean "/r".toList = "/r".toList ∧
    ¬ strictly_under (path_clean "/r".toList) (path_clean ("/r".toList ++ '/' :: [])) := by
  refine ⟨by decide, by decide, by decide, ?_⟩
  intro h
  exact h.1 (by decide)

theorem squeeze_true_slashes (dst : cstr) (h : ∀ ch ∈ dst, ch = '/') :
    squeeze true dst = [] := by
  induction dst with
  | nil => rfl
  | cons c r ih =>
    have hc : c = '/' := h c (List.mem_cons_self _ _)
    have hr : ∀ ch ∈ r, ch = '/' := fun ch hch => h ch (List.mem_cons_of_mem _ hch)
    simp only [squeeze, hc, if_true, ih hr]

theorem ends_slash_snoc (x : cstr) : ∀ b : Bool, ends_slash b (x ++ ['/']) = true := by
  induction x with
  | nil => intro b; simp [ends_slash]
  | cons c r ih => intro b; simpa [ends_slash] using ih _

/-- Slashes behind the separator of the join change nothing. -/
theorem path_clean_slashes (root dst : cstr) (h : ∀ ch ∈ dst, ch = '/') :
    path_clean (root ++ '/' :: dst) = path_clean (root ++ ['/']) := by
  have hsq : squeeze false (root ++ '/' :: dst) = squeeze false (root ++ ['/']) := by
    rw [show root ++ '/' :: dst = (root ++ ['/']) ++ dst by simp, squeeze_append,
      ends_slash_snoc, squeeze_true_slashes dst h, List.append_nil]
  rw [path_clean_eq, path_clean_eq, hsq]

theorem squeeze_eq_nil (s : cstr) (b : Bool) (h : squeeze b s = []) (hb : b = false) :
    s = [] := by
  subst hb
  cases s with
  | nil => rfl
  | cons c r =>
    by_cases hc : c = '/'
    · simp [squeeze, hc] at h
    · simp [squeeze, hc] at h

theorem path_clean_ne_nil (root : cstr) (h : root ≠ []) : path_clean root ≠ [] := by
  have hs : squeeze false root ≠ [] := fun h0 => h (squeeze_eq_nil root false h0 rfl)
  rw [path_clean_eq]
  split_ifs with hc
  · intro h0
    have := congrArg List.length h0
    rw [List.length_dropLast] at this
    simp at this
    omega
  · exact hs

/-- The join of a root with nothing is the normalised root; for the empty root it is
`/`. -/
theorem path_clean_root_slash (root : cstr) :
    path_clean (root ++ ['/']) = if root = [] then ['/'] else path_clean root := by
  by_cases hr : root = []
  · subst hr
    decide
  · rw [if_neg hr, path_clean_eq, squeeze_root_slash]
    have hne := path_clean_ne_nil root hr
    by_cases h1 : path_clean root = ['/']
    · rw [if_pos h1, h1]
      decide
    · rw [if_neg h1]
      have hlen : (path_clean root ++ ['/']).length > 1 := by
        have := List.length_pos.mpr hne
        simp
        omega
      rw [if_pos ⟨hlen, by simp⟩]
      simp

theorem path_clean_slashes_not_under (root dst : cstr) (h : ∀ ch ∈ dst, ch = '/') :
    ¬ strictly_under (path_clean root) (path_clean (root ++ '/' :: dst)) := by
  rw [path_clean_slashes root dst h, path_clean_root_slash]
  by_cases hr : root = []
  · subst hr
    rw [if_pos rfl]
    rintro ⟨_, rest, hne, _, heq⟩
    have hp : path_clean [] = [] := rfl
    rw [hp] at heq
    simp at heq
    exact hne heq
  · rw [if_neg hr]
    rintro ⟨hne, _⟩
    exact hne rfl

/-- C11 (amended): for `--root=ROOT` and `--bind=SRC:DST` or `--bind-ro=SRC:DST` (SRC
without `:`, the user lookup of `container_init` succeeds), the mount's target after
`container_init` is `path_clean (ROOT ++ "/" ++ DST)`, for every DST. When DST has a
character other than `/`, this target lies strictly under the normalised root. When DST
is empty or made of `/` only, the target is the normalised root itself (`/` for the empty
root) and does not lie strictly under the normalised root. -/
theorem bind_target_under_root (prog root src dst id : cstr) (ro : Bool)
    (getpw : Option cstr → Option passwd) (pwd : passwd)
    (hsrc : ':' ∉ src) (hpw : getpw none = some pwd) :
    ((options_parse [prog, "--root".toList ++ '=' :: root,
        (if ro then "--bind-ro".toList else "--bind".toList) ++
          '=' :: (src ++ ':' :: dst)]).bind
        (container_init getpw id)).map (fun c => c.bind) =
      Outcome.ret [{ source := some src, target := some (path_clean (root ++ '/' :: dst)),
                     flags := if ro then MS_BIND ||| MS_RDONLY else MS_BIND }] [] ∧
    ((∃ ch ∈ dst, ch ≠ '/') →
      strictly_under (path_clean root) (path_clean (root ++ '/' :: dst))) ∧
    ((∀ ch ∈ dst, ch = '/') →
      path_clean (root ++ '/' :: dst) = (if root = [] then ['/'] else path_clean root) ∧
      ¬ strictly_under (path_clean root) (path_clean (root ++ '/' :: dst))) := by
  refine ⟨?_, fun hdst => path_clean_strictly_under root dst hdst, fun hdst => ⟨?_, ?_⟩⟩
  · rw [options_parse_root_bind prog root src dst ro hsrc]
    simp [container_init, hpw, path_join2, show_str]
  · rw [path_clean_slashes root dst hdst, path_clean_root_slash]
  · exact path_clean_slashes_not_under root dst hdst

/-- The amended C11 at `--root=/var/box/ --bind-ro=/host/conf:/etc//app/`, where the target
`/var/box/etc/app` lies strictly under `/var/box`, and at `--root=/r --bind=/src://`, where
the target is `/r`. -/
theorem bind_target_under_root_witness :
    (((options_parse ["boxer".toList, "--root".toList ++ '=' :: "/var/box/".toList,
        (if true then "--bind-ro".toList else "--bind".toList) ++
          '=' :: ("/host/conf".toList ++ ':' :: "/etc//app/".toList)]).bind
        (container_init getpw_example [])).map (fun c => c.bind) =
      Outcome.ret [{ source := some "/host/conf".toList,
                     target := some (path_clean ("/var/box/".toList ++
                       '/' :: "/etc//app/".toList)),
                     flags := if true then MS_BIND ||| MS_RDONLY else MS_BIND }] [] ∧
      path_clean ("/var/box/".toList ++ '/' :: "/etc//app/".toList) =
        "/var/box/etc/app".toList ∧
      strictly_under (path_clean "/var/box/".toList)
        (path_clean ("/var/box/".toList ++ '/' :: "/etc//app/".toList))) ∧
    (path_clean ("/r".toList ++ '/' :: "//".toList) =
        (if "/r".toList = [] then ['/'] else path_clean "/r".toList) ∧
      ¬ strictly_under (path_clean "/r".toList)
        (path_clean ("/r".toList ++ '/' :: "//".toList))) :=
  ⟨⟨(bind_target_under_root "boxer".toList "/var/box/".toList "/host/conf".toList
      "/etc//app/".toList [] true getpw_example
      { pw_name := "root".toList, pw_dir := "/root".toList, pw_shell := "/bin/sh".toList,
        pw_uid := 0, pw_gid := 0 }
      (by decide) rfl).1, by decide,
    (bind_target_under_root "boxer".toList "/var/box/".toList "/host/conf".toList
      "/etc//app/".toList [] true getpw_example
      { pw_name := "root".toList, pw_dir := "/root".toList, pw_shell := "/bin/sh".toList,
        pw_uid := 0, pw_gid := 0 }
      (by decide) rfl).2.1 ⟨'e', by decide, by decide⟩⟩,
   (bind_target_under_root "boxer".toList "/r".toList "/src".toList
      "//".toList [] false getpw_example
      { pw_name := "root".toList, pw_dir := "/root".toList, pw_shell := "/bin/sh".toList,
        pw_uid := 0, pw_gid := 0 }
      (by decide) rfl).2.2 (by decide)⟩

/-! ## The byte pump: C13, C18, C20 -/

/-- The run of `console_buffer_pipe` in closed form. -/
theorem console_buffer_pipe_run (buffer : console_buffer) (source target : Int)
    (env : pipe_env) (m : supervisor) :
    console_buffer_pipe buffer source target env m =
      if pipe_unpolls env m ∧ env.epoll_del ≠ 0 then
        ⟨[Event.read source (LINE_MAX - buffer.len), Event.epoll_ctl_del m.fd.epoll source,
          Event.print ⟨LOG_ERROR, "epoll_ctl EPOLL_CTL_DEL".toList⟩,
          Event.exit EXIT_FAILURE], Ending.exited EXIT_FAILURE⟩
      else
        ⟨[Event.read source (LINE_MAX - buffer.len)] ++
          (if pipe_unpolls env m then [Event.epoll_ctl_del m.fd.epoll source] else []) ++
          (if buffer.data ++ pipe_received env = [] then []
            else [Event.write target (buffer.data ++ pipe_received env)]),
         Ending.returned
          (⟨(buffer.data ++ pipe_received env).drop (pipe_accepted env)⟩,
            { m with errno := 0 })⟩ := by
  unfold console_buffer_pipe pipe_unpolls pipe_errno pipe_received pipe_accepted
    boxer_fd_unpoll sup_fatal
  obtain ⟨data⟩ := buffer
  simp only []
  by_cases h1 : env.rd.ret ≤ 0
  · by_cases h2 : env.rd.ret < 0
    · by_cases h3 : env.rd.errno ≠ EAGAIN ∧ env.rd.errno ≠ EINTR
      · by_cases h4 : env.epoll_del ≠ 0
        · simp [h1, h2, h3, h4, Run.bind, Run.call, Run.pure]
        · by_cases h5 : data = [] <;> by_cases h6 : env.wr > 0 <;>
            simp [h1, h2, h3, h4, h5, h6, Run.bind, Run.call, Run.pure, console_buffer.len,
              List.length_pos]
      · by_cases h5 : data = [] <;> by_cases h6 : env.wr > 0 <;>
          simp [h1, h2, h3, h5, h6, Run.bind, Run.call, Run.pure, console_buffer.len,
            List.length_pos]
    · by_cases h3 : m.errno ≠ EAGAIN ∧ m.errno ≠ EINTR
      · by_cases h4 : env.epoll_del ≠ 0
        · simp [h1, h2, h3, h4, Run.bind, Run.call, Run.pure]
        · by_cases h5 : data = [] <;> by_cases h6 : env.wr > 0 <;>
            simp [h1, h2, h3, h4, h5, h6, Run.bind, Run.call, Run.pure, console_buffer.len,
              List.length_pos]
      · by_cases h5 : data = [] <;> by_cases h6 : env.wr > 0 <;>
          simp [h1, h2, h3, h5, h6, Run.bind, Run.call, Run.pure, console_buffer.len,
            List.length_pos]
  · simp only [h1, if_false, Run.call_bind, Run.pure_bind, and_false, false_and]
    generalize data ++ List.take env.rd.ret.toNat env.rd.bytes = d1
    by_cases h5 : d1 = [] <;> by_cases h6 : env.wr > 0 <;>
      simp [h5, h6, Run.bind, Run.call, Run.pure, console_buffer.len, List.length_pos]

theorem pipe_received_length (env : pipe_env)
    (hbytes : 0 < env.rd.ret → env.rd.bytes.length = env.rd.ret.toNat) :
    (pipe_received env).length = if env.rd.ret ≤ 0 then 0 else env.rd.ret.toNat := by
  unfold pipe_received
  split_ifs with h
  · rfl
  · rw [List.length_take, hbytes (by omega)]
    simp

theorem console_buffer_pipe_ending (buffer : console_buffer) (source target : Int)
    (env : pipe_env) (m : supervisor) :
    (console_buffer_pipe buffer source target env m).ending =
      if pipe_unpolls env m ∧ env.epoll_del ≠ 0 then Ending.exited EXIT_FAILURE
      else Ending.returned
        (⟨(buffer.data ++ pipe_received env).drop (pipe_accepted env)⟩,
          { m with errno := 0 }) := by
  rw [console_buffer_pipe_run]
  split_ifs <;> rfl

theorem console_buffer_pipe_head (buffer : console_buffer) (source target : Int)
    (env : pipe_env) (m : supervisor) :
    (console_buffer_pipe buffer source target env m).events.head? =
      some (Event.read source (LINE_MAX - buffer.len)) := by
  rw [console_buffer_pipe_run]
  split_ifs <;> rfl

/-- C13: for a buffer with `len ≤ LINE_MAX`, a `read` that returns at most the requested
count (and stores that many bytes) and a `write` that returns at most the offered length,
`console_buffer_pipe` asks `read` for exactly `LINE_MAX - len` bytes, leaves a buffer with
`len ≤ LINE_MAX` whenever it returns (it returns unless `boxer_fd_unpoll` fails), and
touches `data` only inside `data[0 .. LINE_MAX)`. -/
theorem console_buffer_bounded (buffer : console_buffer) (source target : Int)
    (env : pipe_env) (m : supervisor) (hlen : buffer.len ≤ LINE_MAX)
    (hrd : env.rd.ret ≤ ((LINE_MAX - buffer.len : Nat) : Int))
    (hbytes : 0 < env.rd.ret → env.rd.bytes.length = env.rd.ret.toNat)
    (hwr : env.wr ≤
      ((if env.rd.ret ≤ 0 then buffer.len else buffer.len + env.rd.ret.toNat : Nat) : Int)) :
    (console_buffer_pipe buffer source target env m).events.head? =
        some (Event.read source (LINE_MAX - buffer.len)) ∧
      (∀ b1 m1, (console_buffer_pipe buffer source target env m).ending =
          Ending.returned (b1, m1) →
        b1.len ≤ LINE_MAX ∧
          b1.len = buffer.len + (pipe_received env).length - pipe_accepted env) ∧
      (env.epoll_del = 0 → ∃ b1 m1,
        (console_buffer_pipe buffer source target env m).ending =
          Ending.returned (b1, m1)) ∧
      (∀ r ∈ pipe_regions buffer env, r.1 + r.2 ≤ LINE_MAX) := by
  have hrl := pipe_received_length env hbytes
  refine ⟨console_buffer_pipe_head _ _ _ _ _, ?_, ?_, ?_⟩
  · intro b1 m1 h
    rw [console_buffer_pipe_ending] at h
    by_cases hc : pipe_unpolls env m ∧ env.epoll_del ≠ 0
    · rw [if_pos hc] at h
      simp at h
    · rw [if_neg hc] at h
      simp only [Ending.returned.injEq, Prod.mk.injEq] at h
      rw [← h.1]
      simp only [console_buffer.len, List.length_drop, List.length_append, hrl] at hlen hrd ⊢
      refine ⟨?_, trivial⟩
      have hLn : LINE_MAX = 2048 := rfl
      rw [hLn] at hlen hrd ⊢
      split_ifs with h0
      · omega
      · omega
  · intro h0
    rw [console_buffer_pipe_ending]
    simp only [h0, ne_eq, not_true_eq_false, and_false, if_false]
    exact ⟨_, _, rfl⟩
  · intro r hr
    simp only [pipe_regions, console_buffer.len] at hr hlen hwr hrd
    have hL : (LINE_MAX : Int) = 2048 := rfl
    have hLn : LINE_MAX = 2048 := rfl
    rw [hLn] at hlen hrd
    by_cases h0 : env.rd.ret ≤ 0
    · simp only [h0, if_true] at hr hwr
      simp only [List.mem_cons] at hr
      rcases hr with rfl | hr
      · simp only [hL, hLn]
        omega
      · split_ifs at hr with h1 h2
        · simp only [List.mem_cons, List.mem_singleton, List.not_mem_nil, or_false] at hr
          rcases hr with rfl | rfl | rfl <;> simp only [hLn] <;> omega
        · simp only [List.mem_singleton] at hr
          rw [hr]
          simp only [hLn]
          omega
        · simp at hr
    · simp only [h0, if_false] at hr hwr
      simp only [List.mem_cons] at hr
      rcases hr with rfl | hr
      · simp only [hL, hLn]
        omega
      · split_ifs at hr with h1 h2
        · simp only [List.mem_cons, List.mem_singleton, List.not_mem_nil, or_false] at hr
          rcases hr with rfl | rfl | rfl <;> simp only [hLn] <;> omega
        · simp only [List.mem_singleton] at hr
          rw [hr]
          simp only [hLn]
          omega
        · simp at hr

/-- C13 for a buffer of three bytes, a `read` of two bytes and a `write` of four. -/
theorem console_buffer_bounded_witness :
    (console_buffer_pipe ⟨[1, 2, 3]⟩ 0 5 pipe_env_example supervisor_example).events.head? =
        some (Event.read 0 (LINE_MAX - (⟨[1, 2, 3]⟩ : console_buffer).len)) ∧
      (∀ b1 m1, (console_buffer_pipe ⟨[1, 2, 3]⟩ 0 5 pipe_env_example
          supervisor_example).ending = Ending.returned (b1, m1) →
        b1.len ≤ LINE_MAX ∧
          b1.len = (⟨[1, 2, 3]⟩ : console_buffer).len +
            (pipe_received pipe_env_example).length - pipe_accepted pipe_env_example) ∧
      (pipe_env_example.epoll_del = 0 → ∃ b1 m1,
        (console_buffer_pipe ⟨[1, 2, 3]⟩ 0 5 pipe_env_example supervisor_example).ending =
          Ending.returned (b1, m1)) ∧
      (∀ r ∈ pipe_regions ⟨[1, 2, 3]⟩ pipe_env_example, r.1 + r.2 ≤ LINE_MAX) :=
  console_buffer_bounded ⟨[1, 2, 3]⟩ 0 5 pipe_env_example supervisor_example
    (by decide) (by decide) (by decide) (by decide)

/-- The pump of the witness evaluated: five bytes are offered, the fifth stays. -/
theorem console_buffer_pipe_example :
    console_buffer_pipe ⟨[1, 2, 3]⟩ 0 5 pipe_env_example supervisor_example =
      ⟨[Event.read 0 2045, Event.write 5 [1, 2, 3, 4, 5]],
        Ending.returned (⟨[5]⟩, supervisor_example)⟩ := by
  decide

/-- C18: whenever `console_buffer_pipe` returns (it does unless `boxer_fd_unpoll` fails),
the bytes that the target took, followed by the new content of the buffer, are the old
content followed by the bytes that `read` delivered; the only `write` offers exactly
these bytes, to the target. -/
theorem console_buffer_pipe_bytes (buffer : console_buffer) (source target : Int)
    (env : pipe_env) (m : supervisor) :
    (env.epoll_del = 0 → ∃ b1 m1,
        (console_buffer_pipe buffer source target env m).ending =
          Ending.returned (b1, m1)) ∧
      (∀ b1 m1, (console_buffer_pipe buffer source target env m).ending =
          Ending.returned (b1, m1) →
        (buffer.data ++ pipe_received env).take (pipe_accepted env) ++ b1.data =
            buffer.data ++ pipe_received env ∧
          (buffer.data ++ pipe_received env ≠ [] →
            Event.write target (buffer.data ++ pipe_received env) ∈
              (console_buffer_pipe buffer source target env m).events)) ∧
      (∀ fd bytes, Event.write fd bytes ∈
          (console_buffer_pipe buffer source target env m).events →
        fd = target ∧ bytes = buffer.data ++ pipe_received env) := by
  refine ⟨?_, ?_, ?_⟩
  · intro h0
    rw [console_buffer_pipe_ending]
    simp only [h0, ne_eq, not_true_eq_false, and_false, if_false]
    exact ⟨_, _, rfl⟩
  · intro b1 m1 h
    have h2 := h
    rw [console_buffer_pipe_ending] at h
    by_cases hc : pipe_unpolls env m ∧ env.epoll_del ≠ 0
    · rw [if_pos hc] at h
      simp at h
    · rw [if_neg hc] at h
      simp only [Ending.returned.injEq, Prod.mk.injEq] at h
      refine ⟨?_, ?_⟩
      · rw [← h.1]
        exact List.take_append_drop _ _
      · intro hne
        rw [console_buffer_pipe_run, if_neg hc]
        simp [hne]
  · intro fd bytes hmem
    rw [console_buffer_pipe_run] at hmem
    split_ifs at hmem <;> simp at hmem <;> exact hmem

/-- C20 (code): on a full buffer (`len = LINE_MAX`) `read` is asked for zero bytes and
returns 0; with `errno` at 0, as every pump leaves it, `console_buffer_pipe` hands the
source to `boxer_fd_unpoll` although the source reported neither its end nor an
error. -/
theorem full_buffer_unpolls (buffer : console_buffer) (source target : Int)
    (env : pipe_env) (m : supervisor) (hfull : buffer.len = LINE_MAX)
    (hret : env.rd.ret = 0) (herr : m.errno = 0) :
    Event.read source 0 ∈ (console_buffer_pipe buffer source target env m).events ∧
      Event.epoll_ctl_del m.fd.epoll source ∈
        (console_buffer_pipe buffer source target env m).events := by
  have hu : pipe_unpolls env m := by
    simp [pipe_unpolls, pipe_errno, hret, herr, EAGAIN, EINTR]
  rw [console_buffer_pipe_run, hfull]
  split_ifs <;> simp [hu]

/-- C20 (code) on the example supervisor: after a `read` of `LINE_MAX` bytes whose `write`
fails, the next pump removes host stdin from the poller. -/
theorem full_buffer_unpolls_witness :
    Event.read 0 0 ∈ (console_buffer_pipe ⟨List.replicate 2048 97⟩ 0 5 pipe_env_full
        supervisor_example).events ∧
      Event.epoll_ctl_del supervisor_example.fd.epoll 0 ∈
        (console_buffer_pipe ⟨List.replicate 2048 97⟩ 0 5 pipe_env_full
          supervisor_example).events :=
  full_buffer_unpolls ⟨List.replicate 2048 97⟩ 0 5 pipe_env_full supervisor_example
    (by rw [console_buffer.len, List.length_replicate]; rfl) rfl rfl

/-- The pump that fills the buffer: from the empty buffer a `read` of `LINE_MAX` bytes
whose `write` fails leaves `len = LINE_MAX` and `errno = 0`. -/
theorem full_buffer_reached (bytes : List Nat) (h : bytes.length = LINE_MAX) :
    (console_buffer_pipe {} 0 5 { rd := { ret := LINE_MAX, bytes := bytes }, wr := -1 }
        supervisor_example).ending =
      Ending.returned (⟨bytes⟩, supervisor_example) := by
  have h1 : ¬ ((LINE_MAX : Int) ≤ 0) := by decide
  have h2 : ((LINE_MAX : Nat) : Int).toNat = bytes.length := by rw [h]; rfl
  have h3 : ¬ ((-1 : Int) > 0) := by decide
  rw [console_buffer_pipe_ending]
  simp only [pipe_unpolls, pipe_received, pipe_accepted, h1, h2, h3, false_and, if_false,
    List.take_length, List.nil_append, List.drop_zero]
  rfl

/-! ## C19: reads of the argument vector -/

/-- C19 (code): when the last token is an option without `=`, `options_parse` takes
`argv[argc]` (the null pointer) as its argument with `++i`, and the loop's `i++` then makes
it read `argv[argc + 1]`, one element past the end of the vector. -/
theorem options_parse_reads_past_end :
    options_parse ["boxer".toList, "-u".toList] =
        Outcome.undefined fault.argv_out_of_bounds ∧
      options_parse ["boxer".toList, "--unknown".toList] =
        Outcome.undefined fault.argv_out_of_bounds ∧
      (∀ next : Nat → container → Outcome container,
        options_parse_iter ["boxer".toList, "-u".toList] 1 container_zero next =
          next 3 container_zero) ∧
      argv_at ["boxer".toList, "-u".toList] 2 = argv_read.null ∧
      argv_at ["boxer".toList, "-u".toList] 3 = argv_read.out_of_bounds := by
  refine ⟨by decide, by decide, ?_, by decide, by decide⟩
  intro next
  have h : options_parse_iter ["boxer".toList, "-u".toList] 1 container_zero next =
      Outcome.after [] (next 3 container_zero) := rfl
  rw [h, Outcome.after_nil]

/-! ## C16: the order of the ready events -/

theorem Run.bind_bind {α β γ : Type} (x : Run α) (f : α → Run β) (g : β → Run γ) :
    (x.bind f).bind g = x.bind (fun a => (f a).bind g) := by
  obtain ⟨ev, e⟩ := x
  cases e with
  | returned a =>
    simp only [Run.bind]
    cases (f a).ending <;> simp
  | exited s => rfl
  | looping => rfl

theorem Run.bind_head {α β : Type} (x : Run α) (f : α → Run β) (e : Event)
    (h : x.events.head? = some e) : (x.bind f).events.head? = some e := by
  obtain ⟨ev, en⟩ := x
  cases ev with
  | nil => simp at h
  | cons y ys =>
    simp only [List.head?_cons, Option.some.injEq] at h
    cases en <;> simp [Run.bind, h]

theorem boxer_run_batch_append (kfuel : Nat) (pre post : List (Int × event_env)) :
    ∀ m : supervisor, boxer_run_batch kfuel (pre ++ post) m =
      (boxer_run_batch kfuel pre m).bind (boxer_run_batch kfuel post) := by
  induction pre with
  | nil => intro m; rfl
  | cons ev rest ih =>
    intro m
    obtain ⟨fd, env⟩ := ev
    simp only [List.cons_append, boxer_run_batch, Run.bind_bind, List.append_eq, ih]

theorem boxer_signal_head (env : signal_env) (fuel : Nat) (m : supervisor) :
    (boxer_signal env fuel m).events.head? = some (Event.read m.fd.signal 128) := by
  rw [boxer_signal, Run.call_bind]
  rfl

/-- The claim C16 as stated fails: for a batch that lists the pty master before the signal
fd, the pump of the master (its `read` on fd 5) runs before `boxer_signal` (the `read` on
the signal fd 3). -/
theorem boxer_run_batch_counterexample :
    boxer_run_batch 2 [(5, event_env_example), (3, event_env_example)] supervisor_example =
      ⟨[Event.read 5 2048, Event.read 3 128,
        Event.fopen (tasks_path supervisor_example.id), Event.kill 101 SIGKILL,
        Event.kill 102 SIGKILL, Event.fclose, Event.usleep 100000,
        Event.fopen (tasks_path supervisor_example.id), Event.fclose, Event.waitpid,
        Event.read 5 2048,
        Event.tcsetattr 1 { c_oflag := 5 }, Event.tcsetattr 0 { c_lflag := 35387 },
        Event.fcntl_getfl 1, Event.fcntl_setfl 1 0,
        Event.fcntl_getfl 0, Event.fcntl_setfl 0 0, Event.exit 3],
       Ending.exited 3⟩ := by
  decide

/-- C16 (amended): `boxer_run` handles the ready events of one wakeup in the order in
which the batch lists them; for each event the signal fd is tested first. So when the
batch lists the signal-fd event first, `boxer_signal` runs before every pump of the batch,
and the pump of a data event listed first runs before `boxer_signal`. -/
theorem boxer_run_batch_order (kfuel : Nat) (m : supervisor) (env : event_env)
    (rest : List (Int × event_env)) :
    (∀ pre post : List (Int × event_env),
      boxer_run_batch kfuel (pre ++ post) m =
        (boxer_run_batch kfuel pre m).bind (boxer_run_batch kfuel post)) ∧
    (boxer_run_batch kfuel ((m.fd.signal, env) :: rest) m).events.head? =
      some (Event.read m.fd.signal 128) ∧
    (m.console.master ≠ m.fd.signal → m.console.master ≠ m.console.stdin →
      (boxer_run_batch kfuel ((m.console.master, env) :: rest) m).events.head? =
        some (Event.read m.console.master (LINE_MAX - m.console.out.len))) ∧
    (m.console.stdin ≠ m.fd.signal →
      (boxer_run_batch kfuel ((m.console.stdin, env) :: rest) m).events.head? =
        some (Event.read m.console.stdin (LINE_MAX - m.console.inp.len))) := by
  refine ⟨fun pre post => boxer_run_batch_append kfuel pre post m, ?_, ?_, ?_⟩
  · rw [boxer_run_batch]
    simp only [if_true]
    exact Run.bind_head _ _ _ (boxer_signal_head env.signal kfuel m)
  · intro h1 h2
    rw [boxer_run_batch]
    simp only [h1, h2, if_false, if_true, Run.pure_bind]
    apply Run.bind_head
    apply Run.bind_head
    exact console_buffer_pipe_head _ _ _ _ _
  · intro h1
    rw [boxer_run_batch]
    simp only [h1, if_false, if_true, Run.pure_bind]
    apply Run.bind_head
    apply Run.bind_head
    exact console_buffer_pipe_head _ _ _ _ _

/-! ## C17: the raw mode of the host terminals -/

/-- What `console_make_raw` does when `tcgetattr` succeeds with attributes `t`: it stores
`t` in `*attr` and installs `cfmakeraw` of the OLD content of `*attr`, with the fields of
the descriptor taken from `t`. -/
theorem console_make_raw_ok (fd : Int) (attr t : termios) (m : supervisor) :
    console_make_raw fd attr ⟨0, t⟩ m
      = ⟨[Event.tcgetattr fd,
          Event.tcsetattr fd
            (if fd = STDIN_FILENO then { cfmakeraw attr with c_oflag := t.c_oflag }
             else if fd = STDOUT_FILENO then
               { cfmakeraw attr with c_iflag := t.c_iflag, c_lflag := t.c_lflag }
             else cfmakeraw attr)],
         Ending.returned (t, m)⟩ := by
  simp [console_make_raw, Run.call, Run.bind, Run.pure]

/-- Claim C17 (the code departs from it): `console_make_raw` saves the original attributes
`t` of the terminal, but the attributes it installs are `cfmakeraw` of the content that
the save slot had BEFORE the call (the copy `raw = *attr` precedes `tcgetattr`), with
`c_oflag` (standard input) or `c_iflag` and `c_lflag` (standard output) taken from `t`.
In `console_setup_master` the save slots are still zeroed, so a terminal in its usual line
mode gets `c_cflag = CS8`, `c_lflag = 0` (standard input) and zeroed control characters
with `VMIN = 1`, whereas `cfmakeraw (t)` keeps `B38400 | CREAD`, the flags `ECHOE | ECHOK |
ECHOCTL | ECHOKE` and the control characters of `t`. -/
theorem console_make_raw_stale_copy :
    (∀ (attr t : termios) (m : supervisor),
      console_make_raw STDIN_FILENO attr ⟨0, t⟩ m
        = ⟨[Event.tcgetattr STDIN_FILENO,
            Event.tcsetattr STDIN_FILENO { cfmakeraw attr with c_oflag := t.c_oflag }],
           Ending.returned (t, m)⟩) ∧
    (∀ (attr t : termios) (m : supervisor),
      console_make_raw STDOUT_FILENO attr ⟨0, t⟩ m
        = ⟨[Event.tcgetattr STDOUT_FILENO,
            Event.tcsetattr STDOUT_FILENO
              { cfmakeraw attr with c_iflag := t.c_iflag, c_lflag := t.c_lflag }],
           Ending.returned (t, m)⟩) ∧
    (console_setup_master
        { attr_stdin := ⟨0, termios_example⟩, attr_stdout := ⟨0, termios_example⟩ }
        supervisor_start).events.drop 8
      = [Event.tcgetattr 0,
         Event.tcsetattr 0
           { c_iflag := 0, c_oflag := 5, c_cflag := 48, c_lflag := 0,
             c_cc := (List.replicate 32 0).set 6 1 },
         Event.tcgetattr 1,
         Event.tcsetattr 1
           { c_iflag := 1280, c_oflag := 0, c_cflag := 48, c_lflag := 35387,
             c_cc := (List.replicate 32 0).set 6 1 }] ∧
    ({ cfmakeraw termios_example with c_oflag := termios_example.c_oflag } : termios)
      = { c_iflag := 0, c_oflag := 5, c_cflag := 191, c_lflag := 2608,
          c_cc := termios_example.c_cc } ∧
    ({ cfmakeraw termios_example with
        c_iflag := termios_example.c_iflag, c_lflag := termios_example.c_lflag } : termios)
      = { c_iflag := 1280, c_oflag := 4, c_cflag := 191, c_lflag := 35387,
          c_cc := termios_example.c_cc } ∧
    (∃ s, (console_setup_master
        { attr_stdin := ⟨0, termios_example⟩, attr_stdout := ⟨0, termios_example⟩ }
        supervisor_start).ending = Ending.returned s ∧
      s.console.attr.stdin = termios_example ∧ s.console.attr.stdout = termios_example ∧
      s.console.attr.saved = { stdin := true, stdout := true }) := by
  refine ⟨fun attr t m => ?_, fun attr t m => ?_, by decide, by decide, by decide,
    ⟨_, rfl, by decide, by decide, by decide⟩⟩
  · rw [console_make_raw_ok]; rfl
  · rw [console_make_raw_ok]; rfl

/-! ## The worker: mounts -/

theorem path_create_dir_events (env : fs_env) (p : cstr) (w : worker) :
    ∀ e ∈ (path_create_dir env p w).events, is_mount e = false := by
  intro e he
  unfold path_create_dir at he
  rw [Run.call_bind] at he
  split_ifs at he <;>
    simp [sup_fatal, Run.pure] at he <;>
    (try rcases he with rfl | rfl | rfl) <;> rfl

theorem path_iterate_loop_all (P : Event → Prop) (callback : cstr → worker → Run worker)
    (hc : ∀ p w, ∀ e ∈ (callback p w).events, P e) (rest : cstr) :
    ∀ (done : cstr) (w : worker),
      ∀ e ∈ (path_iterate_loop callback done rest w).events, P e := by
  induction rest with
  | nil => intro done w e he; simp [path_iterate_loop, Run.pure] at he
  | cons c r ih =>
    intro done w
    rw [path_iterate_loop]
    split_ifs
    · exact Run.bind_events_all P _ _ (hc _ _) (fun a _ => ih _ a)
    · exact ih _ w

theorem path_iterate_all (P : Event → Prop) (callback : cstr → worker → Run worker)
    (hc : ∀ p w, ∀ e ∈ (callback p w).events, P e) (str : cstr) (w : worker) :
    ∀ e ∈ (path_iterate str callback w).events, P e := by
  rw [path_iterate]
  split_ifs
  · exact Run.bind_events_all P _ _ (hc _ _)
      (fun a _ => path_iterate_loop_all P callback hc str [] a)
  · exact path_iterate_loop_all P callback hc str [] w

/-- Creating a path makes no `mount` call. -/
theorem path_create_events (env : fs_env) (p : cstr) (w : worker) :
    ∀ e ∈ (path_create env p w).events, is_mount e = false :=
  path_iterate_all _ _ (path_create_dir_events env) p w

theorem path_create_dir_returns (env : fs_env)
    (hm : ∀ p, env.mkdir p = 0 ∨ env.mkdir p = EEXIST) (p : cstr) (w : worker) :
    (path_create_dir env p w).ending = Ending.returned { w with errno := 0 } := by
  unfold path_create_dir
  rw [Run.call_bind]
  rcases hm p with h | h
  · simp [h, Run.pure]
  · simp [h, Run.pure, EEXIST]

theorem path_iterate_loop_returns (callback : cstr → worker → Run worker)
    (hc : ∀ p w, ∃ w1, (callback p w).ending = Ending.returned w1) (rest : cstr) :
    ∀ (done : cstr) (w : worker),
      ∃ w1, (path_iterate_loop callback done rest w).ending = Ending.returned w1 := by
  induction rest with
  | nil => intro done w; exact ⟨w, rfl⟩
  | cons c r ih =>
    intro done w
    rw [path_iterate_loop]
    split_ifs
    · obtain ⟨w1, h1⟩ := hc (done ++ c :: r.takeWhile (fun x => x ≠ '/')) w
      obtain ⟨w2, h2⟩ := ih (done ++ [c]) w1
      exact ⟨w2, by rw [Run.bind_of_returned _ _ _ h1]; exact h2⟩
    · exact ih _ w

/-- When no `mkdir` fails with anything but `EEXIST`, `path_create` returns. -/
theorem path_create_returns (env : fs_env)
    (hm : ∀ p, env.mkdir p = 0 ∨ env.mkdir p = EEXIST) (p : cstr) (w : worker) :
    ∃ w1, (path_create env p w).ending = Ending.returned w1 := by
  have hc : ∀ p w, ∃ w1, (path_create_dir env p w).ending = Ending.returned w1 :=
    fun p w => ⟨_, path_create_dir_returns env hm p w⟩
  rw [path_create, path_iterate]
  split_ifs
  · obtain ⟨w1, h1⟩ := hc (p.takeWhile (fun x => x ≠ '/')) w
    obtain ⟨w2, h2⟩ := path_iterate_loop_returns _ hc p [] w1
    exact ⟨w2, by rw [Run.bind_of_returned _ _ _ h1]; exact h2⟩
  · exact path_iterate_loop_returns _ hc p [] w

/-- The target that `mount_setup` works on. -/
theorem mount_setup_skip (env : fs_env) (mnt : mount) (w : worker) (img target : cstr)
    (hi : w.container.path.image = some img)
    (ht : target = (match mnt.target with
      | some t => t
      | none => path_join2 w.container.path.root mnt.source))
    (hs : env.stat (path_join2 (some img) (some target)) = true) :
    mount_setup env mnt w
      = ⟨[Event.stat (path_join2 (some img) (some target)),
          Event.print ⟨LOG_WARNING, "Skipping ".toList ++ show_str mnt.source
            ++ " because it\x27s part of the container image".toList⟩],
         Ending.returned { w with errno := 0 }⟩ := by
  subst ht
  simp only [mount_setup, container_image_contains, hi, path_exists, Run.call_bind,
    Run.pure_bind, Run.pure, hs, if_true, print_message, Run.call]
  rfl

theorem mount_setup_mounts (env : fs_env) (mnt : mount) (w : worker) (img target : cstr)
    (hi : w.container.path.image = some img)
    (ht : target = (match mnt.target with
      | some t => t
      | none => path_join2 w.container.path.root mnt.source))
    (hs : env.stat (path_join2 (some img) (some target)) = false)
    (hm : ∀ p, env.mkdir p = 0 ∨ env.mkdir p = EEXIST) :
    Event.mount mnt.source target (mnt.type.getD []) mnt.flags (mnt.data.getD [])
      ∈ (mount_setup env mnt w).events := by
  subst ht
  obtain ⟨w1, h1⟩ := path_create_returns env hm
    (match mnt.target with
      | some t => t
      | none => path_join2 w.container.path.root mnt.source) { w with errno := 0 }
  simp only [mount_setup, container_image_contains, hi, path_exists, Run.call_bind,
    Run.pure_bind, Run.pure, hs, print_message, Run.call]
  simp only [Run.bind_returned, Run.bind_of_returned _ _ _ h1]
  simp

theorem Run.bind_of_looping {α β : Type} (x : Run α) (f : α → Run β)
    (h : x.ending = Ending.looping) : x.bind f = ⟨x.events, Ending.looping⟩ := by
  simp only [Run.bind, h]

theorem path_create_dir_container (env : fs_env) (p : cstr) (w w1 : worker)
    (h : (path_create_dir env p w).ending = Ending.returned w1) :
    w1.container = w.container := by
  unfold path_create_dir at h
  rw [Run.call_bind] at h
  split_ifs at h <;> simp [sup_fatal, Run.pure] at h <;> subst h <;> rfl

theorem path_iterate_loop_container (callback : cstr → worker → Run worker)
    (hc : ∀ p w w1, (callback p w).ending = Ending.returned w1 → w1.container = w.container)
    (rest : cstr) :
    ∀ (done : cstr) (w w1 : worker),
      (path_iterate_loop callback done rest w).ending = Ending.returned w1 →
      w1.container = w.container := by
  induction rest with
  | nil =>
    intro done w w1 h
    simp [path_iterate_loop, Run.pure] at h
    subst h; rfl
  | cons c r ih =>
    intro done w w1 h
    rw [path_iterate_loop] at h
    split_ifs at h
    · cases hx : (callback (done ++ c :: r.takeWhile (fun x => x ≠ '/')) w).ending with
      | returned a =>
        rw [Run.bind_of_returned _ _ _ hx] at h
        rw [ih _ a w1 h, hc _ _ _ hx]
      | exited s => rw [Run.bind_of_exited _ _ _ hx] at h; cases h
      | looping => rw [Run.bind_of_looping _ _ hx] at h; cases h
    · exact ih _ w w1 h

/-- Creating a path leaves the record `container` as it is. -/
theorem path_create_container (env : fs_env) (p : cstr) (w w1 : worker)
    (h : (path_create env p w).ending = Ending.returned w1) :
    w1.container = w.container := by
  rw [path_create, path_iterate] at h
  split_ifs at h
  · cases hx : (path_create_dir env (p.takeWhile (fun x => x ≠ '/')) w).ending with
    | returned a =>
      rw [Run.bind_of_returned _ _ _ hx] at h
      rw [path_iterate_loop_container _ (path_create_dir_container env) p [] a w1 h,
        path_create_dir_container env _ _ _ hx]
    | exited s => rw [Run.bind_of_exited _ _ _ hx] at h; cases h
    | looping => rw [Run.bind_of_looping _ _ hx] at h; cases h
  · exact path_iterate_loop_container _ (path_create_dir_container env) p [] w w1 h

/-- The `mount` calls of `mount_setup`: the mount itself and, for a bind mount with more
flags, the remount. -/
theorem mount_setup_events (env : fs_env) (mnt : mount) (w : worker) :
    ∀ e ∈ (mount_setup env mnt w).events, is_mount e = true →
      e = Event.mount mnt.source
            (match mnt.target with
              | some t => t
              | none => path_join2 w.container.path.root mnt.source)
            (mnt.type.getD []) mnt.flags (mnt.data.getD []) ∨
      (mnt.flags &&& MS_BIND ≠ 0 ∧
        e = Event.mount none
            (match mnt.target with
              | some t => t
              | none => path_join2 w.container.path.root mnt.source)
            (mnt.type.getD []) (mnt.flags ||| MS_REMOUNT) (mnt.data.getD [])) := by
  simp only [mount_setup]
  apply Run.bind_events_all
  · intro e he hm
    unfold container_image_contains at he
    split at he
    · simp [Run.pure] at he
    · simp [path_exists, Run.pure] at he
      subst he; cases hm
  · intro r _
    by_cases h1 : r.1 = true
    · rw [if_pos h1]
      intro e he hm
      simp [print_message, Run.call] at he
      subst he; cases hm
    · rw [if_neg h1]
      apply Run.bind_events_all
      · intro e he hm
        simp [print_message, Run.call] at he
        subst he; cases hm
      · intro w1 _
        apply Run.bind_events_all
        · intro e he hm
          rw [path_create_events env _ _ e he] at hm
          cases hm
        · intro w2 _
          rw [Run.call_bind]
          intro e he hm
          simp only [List.mem_cons] at he
          rcases he with rfl | he
          · exact Or.inl rfl
          · split_ifs at he with h2 h3 h4 h5
            · simp [print_message, Run.call] at he
              subst he; cases hm
            · simp [sup_fatal] at he
              rcases he with rfl | rfl <;> cases hm
            · rw [Run.call_bind] at he
              simp only [List.mem_cons] at he
              rcases he with rfl | he
              · exact Or.inr ⟨h4.1, rfl⟩
              · simp [sup_fatal] at he
                rcases he with rfl | rfl <;> cases hm
            · rw [Run.call_bind] at he
              simp only [List.mem_cons] at he
              rcases he with rfl | he
              · exact Or.inr ⟨h4.1, rfl⟩
              · simp [Run.pure] at he
            · simp [Run.pure] at he

/-! ## C12: canonical mounts and the image -/

theorem mounts_target : ∀ e ∈ mounts, e.target = none := by decide

/-- Claim C12 (the code departs from it): for an entry of the table `mounts` with source
`s`, `mount_setup` first computes the target `<root>/<s>` and then asks whether the image
contains the TARGET, that is whether `<image>/<root>/<s>` exists. When that path exists
the entry is skipped with a warning; when it does not (and no `mkdir` fails) the `mount`
call is issued, whether or not `<image>/<s>` exists. With the image `/img`, the root
directory `/var/boxer/x` and an image that ships `/img/bin`, the entry `/bin` is bind
mounted over the copy of the image. -/
theorem mount_setup_image_check :
    (∀ (env : fs_env) (e : mount) (w : worker) (img : cstr),
      e ∈ mounts → w.container.path.image = some img →
      env.stat (path_join2 (some img)
        (some (path_join2 w.container.path.root e.source))) = true →
      mount_setup env e w
        = ⟨[Event.stat (path_join2 (some img)
              (some (path_join2 w.container.path.root e.source))),
            Event.print ⟨LOG_WARNING, "Skipping ".toList ++ show_str e.source
              ++ " because it\x27s part of the container image".toList⟩],
           Ending.returned { w with errno := 0 }⟩) ∧
    (∀ (env : fs_env) (e : mount) (w : worker) (img : cstr),
      e ∈ mounts → w.container.path.image = some img →
      env.stat (path_join2 (some img)
        (some (path_join2 w.container.path.root e.source))) = false →
      (∀ p, env.mkdir p = 0 ∨ env.mkdir p = EEXIST) →
      Event.mount e.source (path_join2 w.container.path.root e.source) (e.type.getD [])
          e.flags (e.data.getD [])
        ∈ (mount_setup env e w).events) ∧
    ({ source := some "/bin".toList, flags := MS_BIND ||| MS_RDONLY ||| MS_NOSUID } ∈ mounts ∧
      fs_env_example.stat (path_join2 (some "/img".toList) (some "/bin".toList)) = true ∧
      (mount_setup fs_env_example
          { source := some "/bin".toList, flags := MS_BIND ||| MS_RDONLY ||| MS_NOSUID }
          worker_example).events
        = [Event.stat "/img/var/boxer/x/bin".toList,
           Event.print ⟨LOG_INFO, "Mounting /bin".toList⟩,
           Event.mkdir "/var".toList 493,
           Event.mkdir "/var/boxer".toList 493,
           Event.mkdir "/var/boxer/x".toList 493,
           Event.mkdir "/var/boxer/x/bin".toList 493,
           Event.mount (some "/bin".toList) "/var/boxer/x/bin".toList [] 4099 [],
           Event.mount none "/var/boxer/x/bin".toList [] 4131 []]) := by
  refine ⟨fun env e w img he hi hs => ?_, fun env e w img he hi hs hm => ?_,
    by decide, by decide, by decide⟩
  · exact mount_setup_skip env e w img _ hi (by rw [mounts_target e he]) hs
  · exact mount_setup_mounts env e w img _ hi (by rw [mounts_target e he]) hs hm

/-! ## C15: the first mount of the worker -/

/-- Claim C15 (the code departs from it): the first call of `mount_setup` in
`container_setup` goes through the image check like every other one, with the target `/`,
so it asks whether `<image>/` exists. With an image that exists, the mount of `/` with
`MS_PRIVATE | MS_REC` is skipped with the warning "Skipping (null) ...", and no event of
the run is that mount: the only `mount` call these statements can make is the tmpfs one.
Without an image the mount of `/` is made first. -/
theorem container_setup_skips_private :
    (∀ (env : fs_env) (w : worker) (img root : cstr),
      w.container.path.image = some img → w.container.path.root = some root →
      env.stat (path_join2 (some img) (some "/".toList)) = true →
      ∀ e ∈ (container_setup_start env w).events,
        is_mount e = true →
        e = Event.mount (some "tmpfs".toList) root "tmpfs".toList MS_NOSUID
              "size=512".toList) ∧
    ((container_setup_start fs_env_example worker_example).events
      = [Event.mkdir "/var".toList 493,
         Event.mkdir "/var/boxer".toList 493,
         Event.mkdir "/var/boxer/x".toList 493,
         Event.stat "/img".toList,
         Event.print ⟨LOG_WARNING,
           "Skipping (null) because it\x27s part of the container image".toList⟩,
         Event.stat "/img/var/boxer/x".toList,
         Event.print ⟨LOG_INFO, "Mounting tmpfs".toList⟩,
         Event.mkdir "/var".toList 493,
         Event.mkdir "/var/boxer".toList 493,
         Event.mkdir "/var/boxer/x".toList 493,
         Event.mount (some "tmpfs".toList) "/var/boxer/x".toList "tmpfs".toList 2
           "size=512".toList]) ∧
    ((container_setup_start fs_env_example
        { container := { path := { root := some "/var/boxer/x".toList } } }).events.filter
          is_mount
      = [Event.mount none "/".toList [] (MS_PRIVATE ||| MS_REC) [],
         Event.mount (some "tmpfs".toList) "/var/boxer/x".toList "tmpfs".toList 2
           "size=512".toList]) := by
  refine ⟨fun env w img root hi hr hs => ?_, by decide, by decide⟩
  unfold container_setup_start
  apply Run.bind_events_all
  · intro e he hm
    rw [path_create_events env _ _ e he] at hm
    cases hm
  · intro w1 h1
    have hc := path_create_container env _ _ _ h1
    have hi1 : w1.container.path.image = some img := by rw [hc]; exact hi
    rw [mount_setup_skip env _ w1 img "/".toList hi1 rfl hs, Run.bind_returned]
    intro e he hm
    simp only [List.cons_append, List.nil_append, List.mem_cons] at he
    rcases he with rfl | rfl | he
    · cases hm
    · cases hm
    · rcases mount_setup_events env _ _ e he hm with h | ⟨hb, _⟩
      · have hr1 : w1.container.path.root = some root := by rw [hc]; exact hr
        rw [h]
        simp only [hr1]
        rfl
      · exact absurd (show MS_NOSUID &&& MS_BIND = 0 by decide) hb

/-! ## Instances of C16 and C18 -/

/-- The amended C16 on the example supervisor: a batch that starts with the signal fd
starts with the `read` of `boxer_signal`, a batch that starts with the pty master starts
with the `read` of the pump. -/
theorem boxer_run_batch_order_witness :
    (boxer_run_batch 2 [(supervisor_example.fd.signal, event_env_example)]
        supervisor_example).events.head? =
      some (Event.read supervisor_example.fd.signal 128) ∧
    (boxer_run_batch 2 [(supervisor_example.console.master, event_env_example)]
        supervisor_example).events.head? =
      some (Event.read supervisor_example.console.master
        (LINE_MAX - supervisor_example.console.out.len)) :=
  ⟨(boxer_run_batch_order 2 supervisor_example event_env_example []).2.1,
   (boxer_run_batch_order 2 supervisor_example event_env_example []).2.2.1
     (by decide) (by decide)⟩

/-- C18 for a buffer of three bytes, a `read` of two bytes and a `write` of four: the four
bytes taken followed by the byte kept are the three old bytes followed by the two new. -/
theorem console_buffer_pipe_bytes_witness :
    ((⟨[1, 2, 3]⟩ : console_buffer).data ++ pipe_received pipe_env_example).take
        (pipe_accepted pipe_env_example) ++ (⟨[5]⟩ : console_buffer).data =
      (⟨[1, 2, 3]⟩ : console_buffer).data ++ pipe_received pipe_env_example :=
  ((console_buffer_pipe_bytes ⟨[1, 2, 3]⟩ 0 5 pipe_env_example supervisor_example).2.1
    ⟨[5]⟩ supervisor_example (by decide)).1

/-! ## C8: signal dispatch and the fatal exits of the teardown -/

end Boxer
